import Mathlib

/-!
Jool stateful NAT64: the BIB table and the session table.

Shallow embedding of `mod/stateful/bib/table.c` and
`mod/stateful/session/table.c`.

Conventions of the embedding.

* Pointers to entries are natural numbers (addresses); a nullable pointer is
  an `Option Nat`.  Entry memory is a total map from addresses to entry
  records; `kmem_cache_free` only raises the ghost flag `freed`.
* The intrusive red-black trees are binary trees of entry pointers.  The
  search, insertion and start-node macros of `rbtree.h` walk that tree with
  the comparison callback, exactly as the C macros do.  Recolouring and
  rotations are not represented: they change the shape of a tree, never its
  in-order sequence, and every general statement below quantifies over all
  ordered tree shapes.
* Spinlocks are not represented (the embedding is sequential), and neither
  is the kernel log.
* `unsigned long` (jiffies) and `__u64` are 64 bits wide; arithmetic on them
  is taken modulo `2 ^ 64` wherever the code can wrap.  A `kref` counter is
  an integer: it goes below zero as `atomic_t` does, and it is taken not to
  reach `2 ^ 31`.
* The clock and the answers of collaborators (`kmem_cache_alloc`,
  `pktqueue_remove`, `get_timeout`) are arguments of the calls that use
  them; one call reads the clock once.
* Loops that follow pointers through data a callback may change carry a
  bound on the number of iterations (the number of linked entries when the
  loop starts); running into the bound is reported, and the statements show
  that it is not reached.
-/

namespace Jool

/-! ## Ordered-tree index (`rbtree.h`, `linux/rbtree.h`) -/

/-- A tree of entry pointers: the `rb_node` hooks of the entries, seen from
the root.  `nil` is the NULL child. -/
inductive rb_node where
  | nil : rb_node
  | node (rb_left : rb_node) (entry : Nat) (rb_right : rb_node) : rb_node
  deriving DecidableEq, Repr

/-- RB_ROOT: the empty tree. -/
def RB_ROOT : rb_node := rb_node.nil

/-- In-order sequence of the entries linked in a tree. -/
def rb_node.toList : rb_node → List Nat
  | rb_node.nil => []
  | rb_node.node l x r => l.toList ++ x :: r.toList

/-- Modelled from the spec: the macro `rbtree_find` of `rbtree.h`
(`find(key) → entry?`).  `cmp entry` is `compare_cb(entry, expected)`: a
negative value sends the search to the right child, a positive one to the
left child, zero is a hit. -/
def rbtree_find (cmp : Nat → Int) : rb_node → Option Nat
  | rb_node.nil => none
  | rb_node.node l x r =>
    if cmp x < 0 then rbtree_find cmp r
    else if 0 < cmp x then rbtree_find cmp l
    else some x

/-- Modelled from the spec: the macro `rbtree_add` of `rbtree.h`
(`insert_unique(entry, key) → collision?`).  The walk is the one of
`rbtree_find`; on a hit the existing entry is returned and nothing is
linked, otherwise `entry` is linked at the NULL child where the walk
ended.  Returns the collision and the resulting tree. -/
def rbtree_add (cmp : Nat → Int) (entry : Nat) : rb_node → Option Nat × rb_node
  | rb_node.nil => (none, rb_node.node rb_node.nil entry rb_node.nil)
  | rb_node.node l x r =>
    if cmp x < 0 then
      ((rbtree_add cmp entry r).1, rb_node.node l x (rbtree_add cmp entry r).2)
    else if 0 < cmp x then
      ((rbtree_add cmp entry l).1, rb_node.node (rbtree_add cmp entry l).2 x r)
    else (some x, rb_node.node l x r)

/-- Modelled from the spec: the macro `rbtree_find_node` of `rbtree.h`
(`find_node(key) → (matched_entry?, parent_entry?)`).  Returns `(*node,
parent)`: `parent` is the last node the walk visited (the matched node
itself on a hit), NULL when the tree is empty. -/
def rbtree_find_node (cmp : Nat → Int) : rb_node → Option Nat → Option Nat × Option Nat
  | rb_node.nil, parent => (none, parent)
  | rb_node.node l x r, _ =>
    if cmp x < 0 then rbtree_find_node cmp r (some x)
    else if 0 < cmp x then rbtree_find_node cmp l (some x)
    else (some x, some x)

/-- Joins two trees, every entry of the first before every entry of the
second. -/
def rb_join : rb_node → rb_node → rb_node
  | rb_node.nil, r => r
  | rb_node.node a x b, r => rb_node.node a x (rb_join b r)

/-- Modelled from the spec: the kernel's `rb_erase` (`erase(entry)` through
the hook the entry owns).  The node is found by identity, not by key; a
pointer that is not linked leaves the tree alone. -/
def rb_erase (p : Nat) : rb_node → rb_node
  | rb_node.nil => rb_node.nil
  | rb_node.node l x r =>
    if x = p then rb_join l r else rb_node.node (rb_erase p l) x (rb_erase p r)

/-- Modelled from the spec: the kernel's `rb_first` (`first()`), the
leftmost node. -/
def rb_first : rb_node → Option Nat
  | rb_node.nil => none
  | rb_node.node rb_node.nil x _ => some x
  | rb_node.node (rb_node.node a y b) _ _ => rb_first (rb_node.node a y b)

/-- The element that follows `p` in a list of pointers. -/
def list_next : List Nat → Nat → Option Nat
  | [], _ => none
  | x :: xs, p => if x = p then xs.head? else list_next xs p

/-- Modelled from the spec: the kernel's `rb_next` (`next(entry)`), the
in-order successor of a linked node. -/
def rb_next (t : rb_node) (p : Nat) : Option Nat := list_next t.toList p

/-! ## Transport addresses and comparison primitives -/

/-- An IPv4 transport address.  `l3` is the address read as the big-endian
number of its four network-order bytes, `l4` the 16-bit port or ICMP id. -/
structure ipv4_transport_addr where
  l3 : Nat
  l4 : Nat
  deriving DecidableEq, Repr

/-- An IPv6 transport address.  `l3` is the address read as the big-endian
number of its sixteen bytes, `l4` the 16-bit port or ICMP id. -/
structure ipv6_transport_addr where
  l3 : Nat
  l4 : Nat
  deriving DecidableEq, Repr

/-- Modelled from the spec: `ipv4_addr_cmp` (declared outside these files;
"L3 compared as unsigned bytes in network order"). -/
def ipv4_addr_cmp (a1 a2 : Nat) : Int :=
  if a1 < a2 then -1 else if a2 < a1 then 1 else 0

/-- Modelled from the spec: the kernel's `ipv6_addr_cmp` ("L3 compared as
unsigned bytes in network order"). -/
def ipv6_addr_cmp (a1 a2 : Nat) : Int :=
  if a1 < a2 then -1 else if a2 < a1 then 1 else 0

/-- An IPv4 prefix: base address and length. -/
structure ipv4_prefix where
  address : Nat
  len : Nat
  deriving DecidableEq, Repr

/-- An inclusive range of ports. -/
structure port_range where
  min : Nat
  max : Nat
  deriving DecidableEq, Repr

/-- Modelled from the spec: `prefix4_contains` ("standard CIDR
containment"): the first `len` bits of the address are those of the
prefix. -/
def prefix4_contains (prefix4 : ipv4_prefix) (addr : Nat) : Bool :=
  decide (addr / 2 ^ (32 - prefix4.len) = prefix4.address / 2 ^ (32 - prefix4.len))

/-- Modelled from the spec: `port_range_contains` ("inclusive"). -/
def port_range_contains (range : port_range) (port : Nat) : Bool :=
  decide (range.min ≤ port ∧ port ≤ range.max)

/-- Modelled from the spec: `ipv4_transport_addr_equals`. -/
def ipv4_transport_addr_equals (a b : ipv4_transport_addr) : Bool :=
  decide (a.l3 = b.l3 ∧ a.l4 = b.l4)

/-- The width of `unsigned long` and of `__u64`. -/
def WORD : Nat := 2 ^ 64

/-- A pointer to an allocated object: not NULL, and an address. -/
def valid_ptr (p : Nat) : Prop := 0 < p ∧ p < WORD

instance (p : Nat) : Decidable (valid_ptr p) :=
  inferInstanceAs (Decidable (0 < p ∧ p < WORD))

/-- Error numbers of `errno.h`. -/
def ESRCH : Int := 3

/-- Error number EEXIST of `errno.h`. -/
def EEXIST : Int := 17

/-- Error number EINVAL of `errno.h`. -/
def EINVAL : Int := 22

/-! ## BIB entries and the BIB table (`bib/table.c`) -/

/-- A BIB entry (`struct bib_entry`).  `table` tells whether the
back-reference points at the table (true) or is NULL (false);
`tree6_hook` and `tree4_hook` are true unless the hook is in the state
RB_CLEAR_NODE leaves it in (what RB_EMPTY_NODE tests); `freed` is the ghost
flag raised by `kmem_cache_free`.  The opaque `host4_addr` is left out. -/
structure bib_entry where
  ipv4 : ipv4_transport_addr
  ipv6 : ipv6_transport_addr
  l4_proto : Nat
  is_static : Bool
  refcounter : Int
  table : Bool
  tree6_hook : Bool
  tree4_hook : Bool
  freed : Bool
  deriving DecidableEq, Repr

/-- The BIB table (`struct bib_table`), its spinlock left out. -/
structure bib_table where
  tree6 : rb_node
  tree4 : rb_node
  count : Nat
  log_changes : Bool
  deriving DecidableEq, Repr

/-- The memory of BIB entries together with the table that indexes them. -/
structure bib_state where
  mem : Nat → bib_entry
  table : bib_table

/-- Arguments threaded through the bulk walks (`struct iteration_args`). -/
structure iteration_args where
  prefix4 : ipv4_prefix
  ports : port_range
  deleted : Nat
  deriving DecidableEq, Repr

namespace Bib

/-- Writes one entry of the memory. -/
def store (st : bib_state) (p : Nat) (e : bib_entry) : bib_state :=
  { st with mem := Function.update st.mem p e }

/-- An entry of unallocated memory. -/
def blank : bib_entry :=
  { ipv4 := ⟨0, 0⟩, ipv6 := ⟨0, 0⟩, l4_proto := 0, is_static := false,
    refcounter := 0, table := false, tree6_hook := false,
    tree4_hook := false, freed := true }

/-- The function `bibentry_create`; `result` is what `kmem_cache_alloc`
returned (NULL on failure). -/
def bibentry_create (st : bib_state) (result : Option Nat)
    (addr4 : ipv4_transport_addr) (addr6 : ipv6_transport_addr)
    (is_static : Bool) (proto : Nat) : Option Nat × bib_state :=
  match result with
  | none => (none, st)
  | some p =>
    (some p, store st p
      { ipv4 := addr4, ipv6 := addr6, l4_proto := proto, is_static := is_static,
        refcounter := 1, table := false, tree6_hook := false,
        tree4_hook := false, freed := false })

/-- The function `bibentry_get`: `kref_get`. -/
def bibentry_get (st : bib_state) (bib : Nat) : bib_state :=
  store st bib { st.mem bib with refcounter := (st.mem bib).refcounter + 1 }

/-- The function `bibtable_init`. -/
def bibtable_init (st : bib_state) (log_changes : Bool) : bib_state :=
  { st with table := { tree6 := RB_ROOT, tree4 := RB_ROOT, count := 0,
                       log_changes := log_changes } }

/-- The static function `compare_addr6`. -/
def compare_addr6 (bib : bib_entry) (addr : Nat) : Int :=
  ipv6_addr_cmp bib.ipv6.l3 addr

/-- The static function `compare_full6`. -/
def compare_full6 (bib : bib_entry) (addr : ipv6_transport_addr) : Int :=
  if compare_addr6 bib addr.l3 ≠ 0 then compare_addr6 bib addr.l3
  else (bib.ipv6.l4 : Int) - (addr.l4 : Int)

/-- The static function `compare_addr4`. -/
def compare_addr4 (bib : bib_entry) (addr : Nat) : Int :=
  ipv4_addr_cmp bib.ipv4.l3 addr

/-- The static function `compare_full4`. -/
def compare_full4 (bib : bib_entry) (addr : ipv4_transport_addr) : Int :=
  if compare_addr4 bib addr.l3 ≠ 0 then compare_addr4 bib addr.l3
  else (bib.ipv4.l4 : Int) - (addr.l4 : Int)

/-- The static function `find_by_addr6`. -/
def find_by_addr6 (st : bib_state) (addr : ipv6_transport_addr) : Option Nat :=
  rbtree_find (fun p => compare_full6 (st.mem p) addr) st.table.tree6

/-- The static function `find_by_addr4`. -/
def find_by_addr4 (st : bib_state) (addr : ipv4_transport_addr) : Option Nat :=
  rbtree_find (fun p => compare_full4 (st.mem p) addr) st.table.tree4

/-- The function `bibtable_get6`: return value, `*result`, state. -/
def bibtable_get6 (st : bib_state) (addr : ipv6_transport_addr) :
    Int × Option Nat × bib_state :=
  match find_by_addr6 st addr with
  | some r => (0, some r, bibentry_get st r)
  | none => (-ESRCH, none, st)

/-- The function `bibtable_get4`: return value, `*result`, state. -/
def bibtable_get4 (st : bib_state) (addr : ipv4_transport_addr) :
    Int × Option Nat × bib_state :=
  match find_by_addr4 st addr with
  | some r => (0, some r, bibentry_get st r)
  | none => (-ESRCH, none, st)

/-- The function `bibtable_contains4`. -/
def bibtable_contains4 (st : bib_state) (addr : ipv4_transport_addr) : Bool :=
  (find_by_addr4 st addr).isSome

/-- The static function `add6`: the collision and the state; on success the
hook of `bib` is linked into `tree6`. -/
def add6 (st : bib_state) (bib : Nat) : Option Nat × bib_state :=
  match (rbtree_add (fun p => compare_full6 (st.mem p) (st.mem bib).ipv6) bib
          st.table.tree6).1 with
  | some c => (some c, st)
  | none =>
    (none,
     { mem := Function.update st.mem bib { st.mem bib with tree6_hook := true },
       table := { st.table with
         tree6 := (rbtree_add (fun p => compare_full6 (st.mem p) (st.mem bib).ipv6)
                    bib st.table.tree6).2 } })

/-- The static function `add4`: the collision and the state; on success the
hook of `bib` is linked into `tree4`. -/
def add4 (st : bib_state) (bib : Nat) : Option Nat × bib_state :=
  match (rbtree_add (fun p => compare_full4 (st.mem p) (st.mem bib).ipv4) bib
          st.table.tree4).1 with
  | some c => (some c, st)
  | none =>
    (none,
     { mem := Function.update st.mem bib { st.mem bib with tree4_hook := true },
       table := { st.table with
         tree4 := (rbtree_add (fun p => compare_full4 (st.mem p) (st.mem bib).ipv4)
                    bib st.table.tree4).2 } })

/-- The label `exists:` of `bibtable_add`: hand the collision out when the
caller asked for it. -/
def add_exists (st : bib_state) (collision : Nat) (old : Bool) :
    Int × Option Nat × bib_state :=
  if old then (-EEXIST, some collision, bibentry_get st collision)
  else (-EEXIST, none, st)

/-- The function `bibtable_add`; `old` tells whether the caller supplied the
out-pointer.  Returns the return value, `*old` and the state. -/
def bibtable_add (st : bib_state) (bib : Nat) (old : Bool) :
    Int × Option Nat × bib_state :=
  let r6 := add6 st bib
  match r6.1 with
  | some collision => add_exists r6.2 collision old
  | none =>
    let r4 := add4 r6.2 bib
    match r4.1 with
    | some collision =>
      add_exists
        { r4.2 with table := { r4.2.table with tree6 := rb_erase bib r4.2.table.tree6 } }
        collision old
    | none =>
      (0, none,
       { mem := Function.update r4.2.mem bib { r4.2.mem bib with table := true },
         table := { r4.2.table with count := (r4.2.table.count + 1) % WORD } })

/-- The static function `rm`. -/
def rm (st : bib_state) (bib : Nat) : bib_state :=
  { st with table :=
    { st.table with
      tree6 := if (st.mem bib).tree6_hook then rb_erase bib st.table.tree6
               else st.table.tree6,
      tree4 := if (st.mem bib).tree4_hook then rb_erase bib st.table.tree4
               else st.table.tree4,
      count := (st.table.count + WORD - 1) % WORD } }

/-- The function `bibtable_rm`. -/
def bibtable_rm (st : bib_state) (bib : Nat) : bib_state := rm st bib

/-- The allocator's `kmem_cache_free`. -/
def kmem_cache_free (st : bib_state) (bib : Nat) : bib_state :=
  store st bib { st.mem bib with freed := true }

/-- The static function `release`. -/
def release (st : bib_state) (bib : Nat) : bib_state :=
  kmem_cache_free (if (st.mem bib).table then bibtable_rm st bib else st) bib

/-- The static function `release_locked`. -/
def release_locked (st : bib_state) (bib : Nat) : bib_state :=
  kmem_cache_free (if (st.mem bib).table then rm st bib else st) bib

/-- The kernel's `kref_put`: decrement, and run `rel` when the counter
reaches zero.  Returns whether the object was released. -/
def kref_put (st : bib_state) (bib : Nat) (rel : bib_state → Nat → bib_state) :
    Bool × bib_state :=
  if (st.mem bib).refcounter - 1 = 0 then
    (true, rel (store st bib { st.mem bib with refcounter := (st.mem bib).refcounter - 1 }) bib)
  else
    (false, store st bib { st.mem bib with refcounter := (st.mem bib).refcounter - 1 })

/-- The function `bibentry_put` (`must_die` only feeds a warning). -/
def bibentry_put (st : bib_state) (bib : Nat) : bib_state :=
  (kref_put st bib release).2

/-- The static function `find_starting_point`. -/
def find_starting_point (st : bib_state) (offset : Option ipv4_transport_addr)
    (include_offset : Bool) : Option Nat :=
  match offset with
  | none => rb_first st.table.tree4
  | some off =>
    match rbtree_find_node (fun p => compare_full4 (st.mem p) off) st.table.tree4 none with
    | (some node, _) => if include_offset then some node else rb_next st.table.tree4 node
    | (none, none) => none
    | (none, some parent) =>
      if compare_full4 (st.mem parent) off < 0 then rb_next st.table.tree4 parent
      else some parent

/-- The loop of `__foreach`: `node` and `error` are the loop variables, the
successor is sampled before `func` runs.  `fuel` bounds the number of
calls of `func`; `none` means the bound was hit. -/
def foreach_loop {α : Type} (func : Nat → α → bib_state → Int × α × bib_state) :
    Nat → Option Nat → Int → α → bib_state → Option (Int × α × bib_state)
  | _, none, error, arg, st => some (error, arg, st)
  | 0, some _, error, arg, st => if error ≠ 0 then some (error, arg, st) else none
  | fuel + 1, some node, error, arg, st =>
    if error ≠ 0 then some (error, arg, st)
    else
      foreach_loop func fuel (rb_next st.table.tree4 node)
        (func node arg st).1 (func node arg st).2.1 (func node arg st).2.2

/-- The static function `__foreach`.  The walk is given as many calls of
`func` as there are entries in `tree4` when it starts. -/
def __foreach {α : Type} (st : bib_state)
    (func : Nat → α → bib_state → Int × α × bib_state) (arg : α)
    (offset : Option ipv4_transport_addr) (include_offset : Bool) :
    Option (Int × α × bib_state) :=
  foreach_loop func st.table.tree4.toList.length
    (find_starting_point st offset include_offset) 0 arg st

/-- The function `bibtable_foreach`. -/
def bibtable_foreach {α : Type} (st : bib_state)
    (func : Nat → α → bib_state → Int × α × bib_state) (arg : α)
    (offset : Option ipv4_transport_addr) : Option (Int × α × bib_state) :=
  __foreach st func arg offset false

/-- The function `bibtable_count`: the value stored in `*result`. -/
def bibtable_count (st : bib_state) : Nat := st.table.count

/-- The static function `__flush`; `deleted` is an `unsigned int`. -/
def __flush (bib : Nat) (args : iteration_args) (st : bib_state) :
    Int × iteration_args × bib_state :=
  if (st.mem bib).is_static then
    (0,
     { args with deleted :=
        (args.deleted + (if (kref_put st bib release_locked).1 then 1 else 0)) % 2 ^ 32 },
     (kref_put st bib release_locked).2)
  else (0, args, st)

/-- The function `bibtable_flush`. -/
def bibtable_flush (st : bib_state) : Option bib_state :=
  (__foreach st __flush
    { prefix4 := ⟨0, 0⟩, ports := ⟨0, 0⟩, deleted := 0 } none false).map
    (fun r => r.2.2)

/-- The static function `__delete_taddr4s`. -/
def __delete_taddr4s (bib : Nat) (args : iteration_args) (st : bib_state) :
    Int × iteration_args × bib_state :=
  if !prefix4_contains args.prefix4 (st.mem bib).ipv4.l3 then (1, args, st)
  else if !port_range_contains args.ports (st.mem bib).ipv4.l4 then (0, args, st)
  else __flush bib args st

/-- The function `bibtable_delete_taddr4s`. -/
def bibtable_delete_taddr4s (st : bib_state) (prefix4 : ipv4_prefix)
    (ports : port_range) : Option bib_state :=
  (__foreach st __delete_taddr4s
    { prefix4 := prefix4, ports := ports, deleted := 0 }
    (some { l3 := prefix4.address, l4 := ports.min }) true).map
    (fun r => r.2.2)

end Bib

/-! ## Session entries and the session table (`session/table.c`) -/

/-- The two expirers a session table owns (`est_timer`, `trans_timer`): what
a pointer to a `struct expire_timer` of the table can point at. -/
inductive expirer_id where
  | est_timer : expirer_id
  | trans_timer : expirer_id
  deriving DecidableEq, Repr

/-- One side of a tuple.  In C the two members share storage (a union). -/
structure tuple_addr where
  addr4 : ipv4_transport_addr
  addr6 : ipv6_transport_addr
  deriving DecidableEq, Repr

/-- A tuple (`struct tuple`). -/
structure tuple where
  src : tuple_addr
  dst : tuple_addr
  l3_proto : Nat
  l4_proto : Nat
  deriving DecidableEq, Repr

/-- The value L3PROTO_IPV6 of `enum l3_protocol`. -/
def L3PROTO_IPV6 : Nat := 0

/-- The value L3PROTO_IPV4 of `enum l3_protocol`. -/
def L3PROTO_IPV4 : Nat := 1

/-- A session entry (`struct session_entry`).  `expirer` is the nullable
pointer to the expirer that owns the session; the hooks and `freed` are as
for BIB entries; `bib` is the pointer to the BIB entry. -/
structure session_entry where
  remote6 : ipv6_transport_addr
  local6 : ipv6_transport_addr
  local4 : ipv4_transport_addr
  remote4 : ipv4_transport_addr
  update_time : Nat
  l4_proto : Nat
  state : Nat
  bib : Nat
  refcounter : Int
  expirer : Option expirer_id
  tree6_hook : Bool
  tree4_hook : Bool
  freed : Bool
  deriving DecidableEq, Repr

/-- An expirer (`struct expire_timer`): the list of its sessions, head
first, and its kernel timer (`timer_pending`, `timer.expires`).  The hooks
`get_timeout` and `callback` are arguments of the functions that call
them. -/
structure expire_timer where
  sessions : List Nat
  pending : Bool
  expires : Nat
  deriving DecidableEq, Repr

/-- The session table (`struct session_table`), its spinlock left out. -/
structure session_table where
  tree6 : rb_node
  tree4 : rb_node
  count : Nat
  est_timer : expire_timer
  trans_timer : expire_timer
  deriving DecidableEq, Repr

/-- The memory of session entries together with the table that indexes
them. -/
structure session_state where
  mem : Nat → session_entry
  table : session_table

/-- What the kernel and the configuration answer during one call: the clock
`jiffies`, the value of `get_timeout()` of either expirer, and the constant
MIN_TIMER_SLEEP of `constants.h`. -/
structure kernel where
  jiffies : Nat
  est_timeout : Nat
  trans_timeout : Nat
  MIN_TIMER_SLEEP : Nat
  deriving DecidableEq, Repr

/-- Why a walk produced no result. -/
inductive fault where
  | null_dereference : fault
  | out_of_fuel : fault
  deriving DecidableEq, Repr

/-- The kernel's `time_before(a, b)`: `(long)(a - b) < 0` on `unsigned
long`. -/
def time_before (a b : Nat) : Bool :=
  decide (2 ^ 63 ≤ (a % WORD + WORD - b % WORD) % WORD)

/-- Arguments of `__remove_by_bib` (`struct bib_remove_args`). -/
structure bib_remove_args where
  addr4 : ipv4_transport_addr
  removed : List Nat
  deriving DecidableEq, Repr

/-- Arguments of `__remove_by_prefix4` (`struct prefix4_remove_args`). -/
structure prefix4_remove_args where
  prefix4 : ipv4_prefix
  removed : List Nat
  deriving DecidableEq, Repr

/-- What a forward link of the list `removed` of `sessiontable_flush` can
hold: the address of the list head `args.removed`, or the address of the
`list_hook` of a session. -/
inductive removed_link where
  | head : removed_link
  | hook (session : Nat) : removed_link
  deriving DecidableEq, Repr

/-- Arguments of the session `__flush` (`struct flush_args`), word by word
after the pointer `table`: `removed.next` and `removed.prev`.  `hook_next`
is the link `list_hook.next` of the sessions that `list_add` has written
while the arguments were in use. -/
structure flush_args where
  removed_next : removed_link
  removed_prev : removed_link
  hook_next : Nat → removed_link

namespace Session

/-- Writes one entry of the memory. -/
def store (st : session_state) (p : Nat) (e : session_entry) : session_state :=
  { st with mem := Function.update st.mem p e }

/-- An entry of unallocated memory. -/
def blank : session_entry :=
  { remote6 := ⟨0, 0⟩, local6 := ⟨0, 0⟩, local4 := ⟨0, 0⟩, remote4 := ⟨0, 0⟩,
    update_time := 0, l4_proto := 0, state := 0, bib := 0, refcounter := 0,
    expirer := none, tree6_hook := false, tree4_hook := false, freed := true }

/-- The expirer a pointer designates. -/
def timer_of (t : session_table) : expirer_id → expire_timer
  | expirer_id.est_timer => t.est_timer
  | expirer_id.trans_timer => t.trans_timer

/-- Writes the expirer a pointer designates. -/
def set_timer_of (t : session_table) (e : expirer_id) (x : expire_timer) : session_table :=
  match e with
  | expirer_id.est_timer => { t with est_timer := x }
  | expirer_id.trans_timer => { t with trans_timer := x }

/-- The value `get_timeout()` of an expirer returns. -/
def get_timeout (k : kernel) : expirer_id → Nat
  | expirer_id.est_timer => k.est_timeout
  | expirer_id.trans_timer => k.trans_timeout

/-- The static function `init_expirer`. -/
def init_expirer : expire_timer := { sessions := [], pending := false, expires := 0 }

/-- The function `sessiontable_init`. -/
def sessiontable_init (st : session_state) : session_state :=
  { st with table := { tree6 := RB_ROOT, tree4 := RB_ROOT, count := 0,
                       est_timer := init_expirer, trans_timer := init_expirer } }

/-- The kernel's `list_del` on the hook of a session: the session leaves
the expirer list it is linked in (a hook sits in one list at most, and
unlinking a detached hook changes no list). -/
def list_del (st : session_state) (session : Nat) : session_state :=
  { st with table := { st.table with
      est_timer := { st.table.est_timer with
        sessions := st.table.est_timer.sessions.filter (fun x => x != session) },
      trans_timer := { st.table.trans_timer with
        sessions := st.table.trans_timer.sessions.filter (fun x => x != session) } } }

/-- The kernel's `list_add_tail` onto the list of an expirer. -/
def list_add_tail (st : session_state) (session : Nat) (expirer : expirer_id) :
    session_state :=
  { st with table := (set_timer_of st.table expirer
      ({ (timer_of st.table expirer) with
        sessions := (timer_of st.table expirer).sessions ++ [session] })) }

/-- The function `session_get`: `kref_get`. -/
def session_get (st : session_state) (session : Nat) : session_state :=
  store st session { st.mem session with refcounter := (st.mem session).refcounter + 1 }

/-- Modelled from the spec: `session_return` of the session-entry module
("drop the session's refcount"); the entry is freed when the counter
reaches zero.  The reference to the BIB entry that the release gives back
lives in the BIB memory and is not represented here. -/
def session_return (st : session_state) (session : Nat) : session_state :=
  store st session
    { st.mem session with
      refcounter := (st.mem session).refcounter - 1,
      freed := (st.mem session).freed || decide ((st.mem session).refcounter - 1 = 0) }

/-- The static function `compare_addr6`. -/
def compare_addr6 (a1 a2 : ipv6_transport_addr) : Int :=
  if ipv6_addr_cmp a1.l3 a2.l3 ≠ 0 then ipv6_addr_cmp a1.l3 a2.l3
  else (a1.l4 : Int) - (a2.l4 : Int)

/-- The static function `compare_session6`. -/
def compare_session6 (s1 s2 : session_entry) : Int :=
  if compare_addr6 s1.local6 s2.local6 ≠ 0 then compare_addr6 s1.local6 s2.local6
  else compare_addr6 s1.remote6 s2.remote6

/-- The static function `compare_full6`. -/
def compare_full6 (session : session_entry) (tuple6 : tuple) : Int :=
  if compare_addr6 session.local6 tuple6.dst.addr6 ≠ 0 then
    compare_addr6 session.local6 tuple6.dst.addr6
  else compare_addr6 session.remote6 tuple6.src.addr6

/-- The static function `compare_addr4`. -/
def compare_addr4 (a1 a2 : ipv4_transport_addr) : Int :=
  if ipv4_addr_cmp a1.l3 a2.l3 ≠ 0 then ipv4_addr_cmp a1.l3 a2.l3
  else (a1.l4 : Int) - (a2.l4 : Int)

/-- The static function `compare_session4`. -/
def compare_session4 (s1 s2 : session_entry) : Int :=
  if compare_addr4 s1.local4 s2.local4 ≠ 0 then compare_addr4 s1.local4 s2.local4
  else compare_addr4 s1.remote4 s2.remote4

/-- The static function `compare_addrs4`: the remote port is left out of the
comparison. -/
def compare_addrs4 (session : session_entry) (tuple4 : tuple) : Int :=
  if compare_addr4 session.local4 tuple4.dst.addr4 ≠ 0 then
    compare_addr4 session.local4 tuple4.dst.addr4
  else ipv4_addr_cmp session.remote4.l3 tuple4.src.addr4.l3

/-- The static function `compare_full4`. -/
def compare_full4 (session : session_entry) (tuple4 : tuple) : Int :=
  if compare_addr4 session.local4 tuple4.dst.addr4 ≠ 0 then
    compare_addr4 session.local4 tuple4.dst.addr4
  else compare_addr4 session.remote4 tuple4.src.addr4

/-- The static function `remove`.  The hooks keep the state `rb_erase`
leaves them in. -/
def remove (st : session_state) (session : Nat) : Int × session_state :=
  (1,
   store
    (list_del
      { st with table := { st.table with
          tree6 := if (st.mem session).tree6_hook then rb_erase session st.table.tree6
                   else st.table.tree6,
          tree4 := if (st.mem session).tree4_hook then rb_erase session st.table.tree4
                   else st.table.tree4 } }
      session)
    session { st.mem session with expirer := none })

/-- The kernel's `mod_timer`. -/
def mod_timer (st : session_state) (expirer : expirer_id) (expires : Nat) : session_state :=
  { st with table := (set_timer_of st.table expirer
      ({ (timer_of st.table expirer) with pending := true, expires := expires })) }

/-- The static function `schedule_timer`. -/
def schedule_timer (k : kernel) (st : session_state) (expirer : expirer_id)
    (next_time : Nat) : session_state :=
  if time_before next_time ((k.jiffies + k.MIN_TIMER_SLEEP) % WORD) then
    mod_timer st expirer ((k.jiffies + k.MIN_TIMER_SLEEP) % WORD)
  else mod_timer st expirer next_time

/-- The function `sessiontable_get_timeout`: return value and `*result`. -/
def sessiontable_get_timeout (k : kernel) (st : session_state) (session : Nat) :
    Int × Option Nat :=
  match (st.mem session).expirer with
  | none => (-EINVAL, none)
  | some e => (0, some (get_timeout k e))

/-- The static function `set_timer`: the returned expirer (NULL when its
timer is pending) and the state. -/
def set_timer (k : kernel) (st : session_state) (session : Nat) (expirer : expirer_id) :
    Option expirer_id × session_state :=
  (if (timer_of st.table expirer).pending then none else some expirer,
   store
    (list_add_tail
      (list_del (store st session { st.mem session with update_time := k.jiffies })
        session)
      session expirer)
    session { st.mem session with update_time := k.jiffies, expirer := some expirer })

/-- The static function `commit_timer`. -/
def commit_timer (k : kernel) (st : session_state) (expirer : Option expirer_id) :
    session_state :=
  match expirer with
  | some e => schedule_timer k st e ((k.jiffies + get_timeout k e) % WORD)
  | none => st

/-- The static function `get_by_ipv6`. -/
def get_by_ipv6 (st : session_state) (t : tuple) : Option Nat :=
  rbtree_find (fun p => compare_full6 (st.mem p) t) st.table.tree6

/-- The static function `get_by_ipv4`. -/
def get_by_ipv4 (st : session_state) (t : tuple) : Option Nat :=
  rbtree_find (fun p => compare_full4 (st.mem p) t) st.table.tree4

/-- The function `sessiontable_get`: return value, `*result`, state. -/
def sessiontable_get (st : session_state) (t : tuple) : Int × Option Nat × session_state :=
  if t.l3_proto = L3PROTO_IPV6 then
    match get_by_ipv6 st t with
    | some session => (0, some session, session_get st session)
    | none => (-ESRCH, none, st)
  else if t.l3_proto = L3PROTO_IPV4 then
    match get_by_ipv4 st t with
    | some session => (0, some session, session_get st session)
    | none => (-ESRCH, none, st)
  else (-EINVAL, none, st)

/-- The function `sessiontable_allow`. -/
def sessiontable_allow (st : session_state) (tuple4 : tuple) : Bool :=
  (rbtree_find (fun p => compare_addrs4 (st.mem p) tuple4) st.table.tree4).isSome

/-- What a function declared `int` returns when its `return` is handed a
pointer, as `add6` and `add4` are by `rbtree_add`: NULL gives 0, and of an
address the low 32 bits are kept and read in two's complement. -/
def pointer_to_int : Option Nat → Int
  | none => 0
  | some p =>
    if p % 2 ^ 32 < 2 ^ 31 then ((p % 2 ^ 32 : Nat) : Int)
    else ((p % 2 ^ 32 : Nat) : Int) - 2 ^ 32

/-- The static function `add6`: it returns, as an `int`, the pointer
`rbtree_add` returns, which is the colliding session or NULL.  On a
collision nothing is linked. -/
def add6 (st : session_state) (session : Nat) : Int × session_state :=
  match (rbtree_add (fun p => compare_session6 (st.mem p) (st.mem session)) session
          st.table.tree6).1 with
  | some collision => (pointer_to_int (some collision), st)
  | none =>
    (pointer_to_int none,
     { mem := Function.update st.mem session { st.mem session with tree6_hook := true },
       table := { st.table with
         tree6 := (rbtree_add (fun p => compare_session6 (st.mem p) (st.mem session))
                    session st.table.tree6).2 } })

/-- The static function `add4`, as `add6`. -/
def add4 (st : session_state) (session : Nat) : Int × session_state :=
  match (rbtree_add (fun p => compare_session4 (st.mem p) (st.mem session)) session
          st.table.tree4).1 with
  | some collision => (pointer_to_int (some collision), st)
  | none =>
    (pointer_to_int none,
     { mem := Function.update st.mem session { st.mem session with tree4_hook := true },
       table := { st.table with
         tree4 := (rbtree_add (fun p => compare_session4 (st.mem p) (st.mem session))
                    session st.table.tree4).2 } })

/-- The function `sessiontable_add`; `pktqueue_error` is what
`pktqueue_remove(session)` returned. -/
def sessiontable_add (k : kernel) (st : session_state) (session : Nat)
    (is_established : Bool) (pktqueue_error : Int) : Int × session_state :=
  if pktqueue_error ≠ 0 then (pktqueue_error, st)
  else
    let expirer := if is_established then expirer_id.est_timer else expirer_id.trans_timer
    let r6 := add6 st session
    if r6.1 ≠ 0 then (r6.1, r6.2)
    else
      let r4 := add4 r6.2 session
      if r4.1 ≠ 0 then
        (r4.1, { r4.2 with table := { r4.2.table with
                   tree6 := rb_erase session r4.2.table.tree6 } })
      else
        let rt := set_timer k r4.2 session expirer
        let st1 := session_get rt.2 session
        let st2 := { st1 with table := { st1.table with
                       count := (st1.table.count + 1) % WORD } }
        (0, commit_timer k st2 rt.1)

/-- The static function `find_next_chunk`.  With both offsets given and no
match, the entry of `parent` is read whether or not `parent` is NULL. -/
def find_next_chunk (st : session_state) (offset_remote offset_local :
    Option ipv4_transport_addr) : Except fault (Option Nat) :=
  match offset_remote, offset_local with
  | some remote, some loc =>
    match rbtree_find_node
        (fun p => compare_full4 (st.mem p)
          { src := { addr4 := remote, addr6 := ⟨0, 0⟩ },
            dst := { addr4 := loc, addr6 := ⟨0, 0⟩ }, l3_proto := 0, l4_proto := 0 })
        st.table.tree4 none with
    | (some node, _) => Except.ok (rb_next st.table.tree4 node)
    | (none, none) => Except.error fault.null_dereference
    | (none, some parent) =>
      if compare_full4 (st.mem parent)
          { src := { addr4 := remote, addr6 := ⟨0, 0⟩ },
            dst := { addr4 := loc, addr6 := ⟨0, 0⟩ }, l3_proto := 0, l4_proto := 0 } < 0
      then Except.ok (some parent)
      else Except.ok (rb_next st.table.tree4 parent)
  | _, _ => Except.ok (rb_first st.table.tree4)

/-- The static function `reschedule`. -/
def reschedule (k : kernel) (st : session_state) (expirer : expirer_id) : session_state :=
  match (timer_of st.table expirer).sessions with
  | [] => st
  | session :: _ =>
    schedule_timer k st expirer (((st.mem session).update_time + get_timeout k expirer) % WORD)

/-- The function `sessiontable_update_timers`. -/
def sessiontable_update_timers (k : kernel) (st : session_state) : session_state :=
  reschedule k (reschedule k st expirer_id.est_timer) expirer_id.trans_timer

/-- The loop of `sessiontable_foreach`: `node` and `error` are the loop
variables, the successor is sampled before `func` runs.  `fuel` bounds the
number of calls of `func`. -/
def foreach_loop {α : Type} (func : Nat → α → session_state → Int × α × session_state) :
    Nat → Option Nat → Int → α → session_state → Except fault (Int × α × session_state)
  | _, none, error, arg, st => Except.ok (error, arg, st)
  | 0, some _, error, arg, st =>
    if error ≠ 0 then Except.ok (error, arg, st) else Except.error fault.out_of_fuel
  | fuel + 1, some node, error, arg, st =>
    if error ≠ 0 then Except.ok (error, arg, st)
    else
      foreach_loop func fuel (rb_next st.table.tree4 node)
        (func node arg st).1 (func node arg st).2.1 (func node arg st).2.2

/-- The function `sessiontable_foreach`.  The walk is given as many calls of
`func` as there are sessions in `tree4` when it starts. -/
def sessiontable_foreach {α : Type} (st : session_state)
    (func : Nat → α → session_state → Int × α × session_state) (arg : α)
    (offset_remote offset_local : Option ipv4_transport_addr) :
    Except fault (Int × α × session_state) :=
  match find_next_chunk st offset_remote offset_local with
  | Except.error f => Except.error f
  | Except.ok node => foreach_loop func st.table.tree4.toList.length node 0 arg st

/-- The function `sessiontable_count`: the value stored in `*result`. -/
def sessiontable_count (st : session_state) : Nat := st.table.count

/-- The static function `delete`: every session of the list is unlinked
from it and returned. -/
def delete (st : session_state) : List Nat → session_state
  | [] => st
  | session :: rest => delete (session_return st session) rest

/-- The static function `__remove_by_bib`. -/
def __remove_by_bib (session : Nat) (args : bib_remove_args) (st : session_state) :
    Int × bib_remove_args × session_state :=
  if !ipv4_transport_addr_equals args.addr4 (st.mem session).local4 then (1, args, st)
  else (0, { args with removed := session :: args.removed }, (remove st session).2)

/-- The function `sessiontable_delete_by_bib`; `bib_ipv4` is `bib->ipv4`. -/
def sessiontable_delete_by_bib (st : session_state) (bib_ipv4 : ipv4_transport_addr) :
    Except fault (Int × session_state) :=
  match sessiontable_foreach st __remove_by_bib
      { addr4 := bib_ipv4, removed := [] } (some ⟨0, 0⟩) (some bib_ipv4) with
  | Except.error f => Except.error f
  | Except.ok r => Except.ok (r.1, delete r.2.2 r.2.1.removed)

/-- The static function `__remove_by_prefix4`. -/
def __remove_by_prefix4 (session : Nat) (args : prefix4_remove_args) (st : session_state) :
    Int × prefix4_remove_args × session_state :=
  if !prefix4_contains args.prefix4 (st.mem session).local4.l3 then (1, args, st)
  else (0, { args with removed := session :: args.removed }, (remove st session).2)

/-- The function `sessiontable_delete_by_prefix4`. -/
def sessiontable_delete_by_prefix4 (st : session_state) (prefix4 : ipv4_prefix) :
    Except fault (Int × session_state) :=
  match sessiontable_foreach st __remove_by_prefix4
      { prefix4 := prefix4, removed := [] } (some ⟨0, 0⟩)
      (some ⟨prefix4.address, 0⟩) with
  | Except.error f => Except.error f
  | Except.ok r => Except.ok (r.1, delete r.2.2 r.2.1.removed)

/-- The static function `__flush`.  It reads its argument through the type
`struct prefix4_remove_args` (`table`, `prefix`, `removed`), while
`sessiontable_flush` hands it a `struct flush_args` (`table`, `removed`):
`args->table` is the same word in both, and `&args->removed` is the address
of the third word, which is `removed.prev` of the structure that was handed
in.  So `list_add(&session->list_hook, &args->removed)` runs on a list head
whose `next` is the word `removed.prev`: it reads `next = head->next` from
that word, stores the hook in `next->prev` (the same word when `next` is the
real list head), sets the links of the hook and stores the hook in
`head->next`, the same word again.  The word `removed.next` is not
written. -/
def __flush (session : Nat) (args : flush_args) (st : session_state) :
    Int × flush_args × session_state :=
  (0,
   { args with
     hook_next := Function.update args.hook_next session args.removed_prev,
     removed_prev := removed_link.hook session },
   (remove st session).2)

/-- The sessions linked forwards from the list head `removed`, starting at
the link given: what the loop of `delete` finds, `list_entry(sessions->next)`
first.  `fuel` bounds the length. -/
def removed_sessions (args : flush_args) : Nat → removed_link → List Nat
  | _, removed_link.head => []
  | 0, removed_link.hook _ => []
  | fuel + 1, removed_link.hook session =>
    session :: removed_sessions args fuel (args.hook_next session)

/-- The function `sessiontable_flush`.  `LIST_HEAD_INIT` points both links
of `removed` at the head; `delete` is handed `&args.removed`. -/
def sessiontable_flush (st : session_state) : Except fault (Int × session_state) :=
  match sessiontable_foreach st __flush
      { removed_next := removed_link.head, removed_prev := removed_link.head,
        hook_next := fun _ => removed_link.head } none none with
  | Except.error f => Except.error f
  | Except.ok r =>
    Except.ok (r.1,
      delete r.2.2 (removed_sessions r.2.1 st.table.tree4.toList.length r.2.1.removed_next))

/-- The first loop of `cleaner_timer`, a `list_for_each_entry_safe` over the
sessions of the expirer: `session` is the cursor, its successor is sampled
before the body runs.  The result lists the sessions handed to `callback`,
in the order of the calls, with the `expires` and `probes` lists and the
state.  `fuel` bounds the number of calls. -/
def cleaner_loop (callback : Nat → List Nat × List Nat → session_state →
      (List Nat × List Nat) × session_state)
    (expirer : expirer_id) (timeout jiffies : Nat) :
    Nat → Option Nat → List Nat × List Nat → session_state →
      Except fault (List Nat × (List Nat × List Nat) × session_state)
  | _, none, lists, st => Except.ok ([], lists, st)
  | 0, some session, lists, st =>
    if time_before jiffies (((st.mem session).update_time + timeout) % WORD) then
      Except.ok ([], lists, st)
    else Except.error fault.out_of_fuel
  | fuel + 1, some session, lists, st =>
    if time_before jiffies (((st.mem session).update_time + timeout) % WORD) then
      Except.ok ([], lists, st)
    else
      match cleaner_loop callback expirer timeout jiffies fuel
          (list_next (timer_of st.table expirer).sessions session)
          (callback session lists st).1 (callback session lists st).2 with
      | Except.error f => Except.error f
      | Except.ok r => Except.ok (session :: r.1, r.2)

/-- The walk of `cleaner_timer` under the table lock, from the head of the
list, with as many calls as the list has sessions when the walk starts. -/
def cleaner_walk (callback : Nat → List Nat × List Nat → session_state →
      (List Nat × List Nat) × session_state)
    (k : kernel) (st : session_state) (expirer : expirer_id) :
    Except fault (List Nat × (List Nat × List Nat) × session_state) :=
  cleaner_loop callback expirer (get_timeout k expirer) k.jiffies
    (timer_of st.table expirer).sessions.length
    (timer_of st.table expirer).sessions.head? ([], []) st

/-- The function `cleaner_timer`: the walk, then the probes and the expired
sessions are returned and the timers updated.  `send_probe_packet` only
emits a packet. -/
def cleaner_timer (callback : Nat → List Nat × List Nat → session_state →
      (List Nat × List Nat) × session_state)
    (k : kernel) (st : session_state) (expirer : expirer_id) :
    Except fault session_state :=
  match cleaner_walk callback k st expirer with
  | Except.error f => Except.error f
  | Except.ok r =>
    Except.ok (sessiontable_update_timers k (delete (delete r.2.2 r.2.1.2) r.2.1.1))

end Session

end Jool

namespace Jool

/-! ## Predicates used by the statements -/

/-- A tree is ordered by `R` when every entry is `R`-before every entry that
follows it in the in-order sequence. -/
def rb_ordered (R : Nat → Nat → Prop) (t : rb_node) : Prop := t.toList.Pairwise R

/-- A search callback agrees with the order `R` up to sign: going up in the
order, its sign never decreases.  Several entries may compare as equal. -/
def sign_mono (R : Nat → Nat → Prop) (cmp : Nat → Int) : Prop :=
  ∀ a b, R a b → (cmp b < 0 → cmp a < 0) ∧ (0 < cmp a → 0 < cmp b)

/-- A search callback agrees with the order `R` strictly: at most one entry
of an ordered tree compares as equal. -/
def key_mono (R : Nat → Nat → Prop) (cmp : Nat → Int) : Prop :=
  ∀ a b, R a b → (cmp b ≤ 0 → cmp a < 0) ∧ (0 ≤ cmp a → 0 < cmp b)

instance (R : Nat → Nat → Prop) [DecidableRel R] (t : rb_node) : Decidable (rb_ordered R t) :=
  inferInstanceAs (Decidable (t.toList.Pairwise R))

namespace Bib

/-- The order of `tree6`: `compare_full6` of entry `a` against the key of
entry `b` is negative. -/
def key6_lt (mem : Nat → bib_entry) (a b : Nat) : Prop :=
  compare_full6 (mem a) (mem b).ipv6 < 0

/-- The order of `tree4`: `compare_full4` of entry `a` against the key of
entry `b` is negative. -/
def key4_lt (mem : Nat → bib_entry) (a b : Nat) : Prop :=
  compare_full4 (mem a) (mem b).ipv4 < 0

/-- The state `add6` leaves when it links `e`. -/
def linked6 (st : bib_state) (e : Nat) : bib_state :=
  { mem := Function.update st.mem e { st.mem e with tree6_hook := true },
    table := { st.table with
      tree6 := (rbtree_add (fun p => compare_full6 (st.mem p) (st.mem e).ipv6) e
                 st.table.tree6).2 } }

/-- The state a successful `bibtable_add` leaves. -/
def added (st : bib_state) (e : Nat) : bib_state :=
  { mem := Function.update st.mem e
      { st.mem e with tree6_hook := true, tree4_hook := true, table := true },
    table :=
      { tree6 := (rbtree_add (fun p => compare_full6 (st.mem p) (st.mem e).ipv6) e
                   st.table.tree6).2,
        tree4 := (rbtree_add (fun p => compare_full4 (st.mem p) (st.mem e).ipv4) e
                   st.table.tree4).2,
        count := (st.table.count + 1) % WORD,
        log_changes := st.table.log_changes } }

/-- Memory in which nothing is allocated, around an initialised table. -/
def empty_state : bib_state :=
  bibtable_init
    { mem := fun _ => blank,
      table := { tree6 := RB_ROOT, tree4 := RB_ROOT, count := 0, log_changes := false } }
    false

/-- The transport address 192.0.2.5#40000. -/
def seed_addr4 : ipv4_transport_addr := ⟨0xC0000205, 40000⟩

/-- The transport address [2001:db8::1]#10000. -/
def seed_addr6_1 : ipv6_transport_addr := ⟨0x20010db8000000000000000000000001, 10000⟩

/-- The transport address [2001:db8::2]#10000. -/
def seed_addr6_2 : ipv6_transport_addr := ⟨0x20010db8000000000000000000000002, 10000⟩

/-- Seed scenario 1 before the insertion: the dynamic UDP entry
([2001:db8::1]#10000, 192.0.2.5#40000) has been created at address 1. -/
def seed_created : bib_state :=
  (bibentry_create empty_state (some 1) seed_addr4 seed_addr6_1 false 17).2

/-- Seed scenario 2 before the insertion: entry 1 is indexed, and the entry
([2001:db8::2]#10000, 192.0.2.5#40000) has been created at address 2. -/
def seed_duplicate : bib_state :=
  (bibentry_create (bibtable_add seed_created 1 false).2.2 (some 2)
    seed_addr4 seed_addr6_2 false 17).2

instance (mem : Nat → bib_entry) : DecidableRel (key6_lt mem) :=
  fun a b => inferInstanceAs (Decidable (compare_full6 (mem a) (mem b).ipv6 < 0))

instance (mem : Nat → bib_entry) : DecidableRel (key4_lt mem) :=
  fun a b => inferInstanceAs (Decidable (compare_full4 (mem a) (mem b).ipv4 < 0))

end Bib

namespace Session

/-- The order of the session `tree6`: `compare_session6` is negative. -/
def key6_lt (mem : Nat → session_entry) (a b : Nat) : Prop :=
  compare_session6 (mem a) (mem b) < 0

/-- The order of the session `tree4`: `compare_session4` is negative. -/
def key4_lt (mem : Nat → session_entry) (a b : Nat) : Prop :=
  compare_session4 (mem a) (mem b) < 0

instance (mem : Nat → session_entry) : DecidableRel (key6_lt mem) :=
  fun a b => inferInstanceAs (Decidable (compare_session6 (mem a) (mem b) < 0))

instance (mem : Nat → session_entry) : DecidableRel (key4_lt mem) :=
  fun a b => inferInstanceAs (Decidable (compare_session4 (mem a) (mem b) < 0))

/-- The state the session `add6` leaves when it links `s`. -/
def linked6 (st : session_state) (s : Nat) : session_state :=
  { mem := Function.update st.mem s { st.mem s with tree6_hook := true },
    table := { st.table with
      tree6 := (rbtree_add (fun p => compare_session6 (st.mem p) (st.mem s)) s
                 st.table.tree6).2 } }

/-- The state the session `add4` leaves when it links `s`. -/
def linked4 (st : session_state) (s : Nat) : session_state :=
  { mem := Function.update st.mem s { st.mem s with tree4_hook := true },
    table := { st.table with
      tree4 := (rbtree_add (fun p => compare_session4 (st.mem p) (st.mem s)) s
                 st.table.tree4).2 } }

/-- The expirer `sessiontable_add` picks. -/
def chosen (is_established : Bool) : expirer_id :=
  if is_established then expirer_id.est_timer else expirer_id.trans_timer

/-- The other expirer of the table. -/
def other : expirer_id → expirer_id
  | expirer_id.est_timer => expirer_id.trans_timer
  | expirer_id.trans_timer => expirer_id.est_timer

/-- Session memory in which nothing is allocated, around an initialised
table. -/
def empty_state : session_state :=
  sessiontable_init
    { mem := fun _ => blank,
      table := { tree6 := RB_ROOT, tree4 := RB_ROOT, count := 0,
                 est_timer := init_expirer, trans_timer := init_expirer } }

/-- A freshly created session with the given addresses, held once by its
creator. -/
def fresh (remote6 local6 : ipv6_transport_addr) (local4 remote4 : ipv4_transport_addr) :
    session_entry :=
  { blank with remote6 := remote6, local6 := local6, local4 := local4,
               remote4 := remote4, refcounter := 1, freed := false }

/-- A clock reading with both timeouts at 5 ticks. -/
def at_time (t : Nat) : kernel :=
  { jiffies := t, est_timeout := 5, trans_timeout := 5, MIN_TIMER_SLEEP := 1 }

/-- An IPv4 tuple with the given destination and source. -/
def tuple4 (dst src : ipv4_transport_addr) : tuple :=
  { src := { addr4 := src, addr6 := ⟨0, 0⟩ }, dst := { addr4 := dst, addr6 := ⟨0, 0⟩ },
    l3_proto := L3PROTO_IPV4, l4_proto := 0 }

/-- An IPv6 tuple with the given destination and source. -/
def tuple6 (dst src : ipv6_transport_addr) : tuple :=
  { src := { addr4 := ⟨0, 0⟩, addr6 := src }, dst := { addr4 := ⟨0, 0⟩, addr6 := dst },
    l3_proto := L3PROTO_IPV6, l4_proto := 0 }

/-- Seed scenario 6 before the insertion: the session with local4
192.0.2.5#40000 and remote4 198.51.100.7#33333 has been created at
address 1. -/
def seed_created : session_state :=
  store empty_state 1
    (fresh ⟨0x20010db8000000000000000000000001, 10000⟩
      ⟨0x0064ff9b0000000000000000c6336407, 33333⟩
      ⟨0xC0000205, 40000⟩ ⟨0xC6336407, 33333⟩)

/-- Seed scenario 6: that session is indexed. -/
def seed_one : session_state := (sessiontable_add (at_time 0) seed_created 1 true 0).2

/-- A second session with the keys of the first, created at address 2. -/
def seed_duplicate : session_state :=
  store seed_one 2
    (fresh ⟨0x20010db8000000000000000000000002, 10000⟩
      ⟨0x0064ff9b0000000000000000c6336407, 33333⟩
      ⟨0xC0000205, 40000⟩ ⟨0xC6336407, 33333⟩)

/-- Seed scenario 6 with the session stored at the address 2^32, whose low
32 bits are zero: created there and indexed. -/
def seed_aligned : session_state :=
  (sessiontable_add (at_time 0)
    (store empty_state (2 ^ 32)
      (fresh ⟨0x20010db8000000000000000000000001, 10000⟩
        ⟨0x0064ff9b0000000000000000c6336407, 33333⟩
        ⟨0xC0000205, 40000⟩ ⟨0xC6336407, 33333⟩))
    (2 ^ 32) true 0).2

/-- On top of `seed_aligned`, a session with both key pairs of the indexed
one, created at address 2. -/
def seed_aligned_twin : session_state :=
  store seed_aligned 2
    (fresh ⟨0x20010db8000000000000000000000001, 10000⟩
      ⟨0x0064ff9b0000000000000000c6336407, 33333⟩
      ⟨0xC0000205, 40000⟩ ⟨0xC6336407, 33333⟩)

/-- On top of `seed_aligned`, a session with the IPv4 pair of the indexed
one and another IPv6 pair, created at address 2. -/
def seed_aligned_same4 : session_state :=
  store seed_aligned 2
    (fresh ⟨0x20010db8000000000000000000000002, 10000⟩
      ⟨0x0064ff9b0000000000000000c6336407, 33333⟩
      ⟨0xC0000205, 40000⟩ ⟨0xC6336407, 33333⟩)

/-- On top of `seed_aligned`, a session with the IPv6 pair of the indexed
one and another IPv4 pair, created at address 2. -/
def seed_aligned_same6 : session_state :=
  store seed_aligned 2
    (fresh ⟨0x20010db8000000000000000000000001, 10000⟩
      ⟨0x0064ff9b0000000000000000c6336407, 33333⟩
      ⟨0xC0000205, 40001⟩ ⟨0xC6336407, 33333⟩)

/-- Invariant S2 for one expirer: walking its list head to tail, the
`update_time` of the sessions never decreases. -/
def expiry_sorted (st : session_state) (e : expirer_id) : Prop :=
  ((timer_of st.table e).sessions.map (fun s => (st.mem s).update_time)).Pairwise (· ≤ ·)

instance (st : session_state) (e : expirer_id) : Decidable (expiry_sorted st e) :=
  inferInstanceAs (Decidable (List.Pairwise _ _))

/-- The states reached from an initialised table (one `sessiontable_init`
leaves as it is, whatever the memory holds) by `sessiontable_add` and
`set_timer` calls whose clock readings never decrease; the index is the
last reading. -/
inductive refreshed : Nat → session_state → Prop
  | init (st : session_state) (c : Nat) : sessiontable_init st = st → refreshed c st
  | add (k : kernel) (st : session_state) (s : Nat) (is_established : Bool)
      (pktqueue_error : Int) (c : Nat) :
      refreshed c st → c ≤ k.jiffies →
      refreshed k.jiffies (sessiontable_add k st s is_established pktqueue_error).2
  | refresh (k : kernel) (st : session_state) (s : Nat) (e : expirer_id) (c : Nat) :
      refreshed c st → c ≤ k.jiffies → refreshed k.jiffies (set_timer k st s e).2

/-- Seed scenario 3 before the insertions: sessions A, B and C have been
created at addresses 1, 2 and 3. -/
def seed_abc_created : session_state :=
  store (store (store empty_state 1
    (fresh ⟨0x20010db8000000000000000000000001, 10000⟩
      ⟨0x0064ff9b0000000000000000c6336407, 33333⟩
      ⟨0xC0000205, 40000⟩ ⟨0xC6336407, 33333⟩)) 2
    (fresh ⟨0x20010db8000000000000000000000001, 10000⟩
      ⟨0x0064ff9b0000000000000000c6336407, 33334⟩
      ⟨0xC0000205, 40000⟩ ⟨0xC6336407, 33334⟩)) 3
    (fresh ⟨0x20010db8000000000000000000000001, 10000⟩
      ⟨0x0064ff9b0000000000000000c6336407, 33335⟩
      ⟨0xC0000205, 40000⟩ ⟨0xC6336407, 33335⟩)

/-- Seed scenario 3: A, B and C added as established at t = 0, 1, 2. -/
def seed_abc : session_state :=
  (sessiontable_add (at_time 2)
    (sessiontable_add (at_time 1)
      (sessiontable_add (at_time 0) seed_abc_created 1 true 0).2 2 true 0).2 3 true 0).2

/-- Seed scenario 3 after A is refreshed at t = 5. -/
def seed_abc_refreshed : session_state :=
  (set_timer (at_time 5) seed_abc 1 expirer_id.est_timer).2

/-- A classifier that lets every session it is handed die: the session is
excised with `remove` and queued on the `expires` list. -/
def die_callback (session : Nat) (lists : List Nat × List Nat) (st : session_state) :
    (List Nat × List Nat) × session_state :=
  ((session :: lists.1, lists.2), (remove st session).2)

/-- A table whose only session was stamped 8 ticks before the clock wraps. -/
def seed_before_wrap : session_state :=
  (sessiontable_add
    { jiffies := 2 ^ 64 - 8, est_timeout := 5, trans_timeout := 5, MIN_TIMER_SLEEP := 1 }
    seed_created 1 true 0).2

/-- Seed scenario 5: the three sessions of 192.0.2.5#40000, indexed in the
order B, A, C, so that B is the root of both trees with A and C as its
children. -/
def seed_three : session_state :=
  (sessiontable_add (at_time 2)
    (sessiontable_add (at_time 1)
      (sessiontable_add (at_time 0) seed_abc_created 2 true 0).2 1 true 0).2 3 true 0).2

end Session

namespace Bib

/-- A static entry that two lookup holders still reference: created at
address 1 as static, indexed, and looked up twice. -/
def seed_static_held : bib_state :=
  (bibtable_get6
    (bibtable_get6
      (bibtable_add
        (bibentry_create empty_state (some 1) seed_addr4 seed_addr6_1 true 17).2
        1 false).2.2
      seed_addr6_1).2.2
    seed_addr6_1).2.2

/-- The structural invariants of a BIB table: both trees are ordered by
their own key (so no key repeats, B2), they link the same entries (B1), and
`count` is the number of linked entries. -/
structure table_inv (st : bib_state) : Prop where
  ordered6 : rb_ordered (key6_lt st.mem) st.table.tree6
  ordered4 : rb_ordered (key4_lt st.mem) st.table.tree4
  perm : st.table.tree6.toList.Perm st.table.tree4.toList
  count_eq : st.table.count = st.table.tree4.toList.length

/-- How the memory agrees with the table: an indexed entry is allocated,
points back at the table and has both hooks linked; an allocated entry that
points back at the table is indexed; allocated entries sit at addresses. -/
structure mem_inv (st : bib_state) : Prop where
  indexed : ∀ p ∈ st.table.tree4.toList,
    (st.mem p).freed = false ∧ (st.mem p).table = true ∧
    (st.mem p).tree6_hook = true ∧ (st.mem p).tree4_hook = true
  backref : ∀ p, (st.mem p).freed = false → (st.mem p).table = true →
    p ∈ st.table.tree4.toList
  live_valid : ∀ p, (st.mem p).freed = false → valid_ptr p

/-- A callback of `bibtable_foreach` that only reads the entry it is
handed. -/
def reader {α : Type} (f : bib_entry → α → Int × α) :
    Nat → α → bib_state → Int × α × bib_state :=
  fun bib arg st => ((f (st.mem bib) arg).1, (f (st.mem bib) arg).2, st)

/-- The states reached from an initialised table over a memory in which
nothing is allocated, by creating entries, adding them, taking and dropping
references, looking entries up, flushing, deleting a range and walking the
table with a callback that only reads.  `bibtable_rm` runs only inside the
drop that releases an entry.  Rebalancing is any change of the shape of a
tree that keeps its in-order sequence. -/
inductive reachable : bib_state → Prop
  | init (log_changes : Bool) :
      reachable (bibtable_init
        { mem := fun _ => blank,
          table := { tree6 := RB_ROOT, tree4 := RB_ROOT, count := 0, log_changes := false } }
        log_changes)
  | create (st : bib_state) (p : Nat) (addr4 : ipv4_transport_addr)
      (addr6 : ipv6_transport_addr) (is_static : Bool) (proto : Nat) :
      reachable st → valid_ptr p → (st.mem p).freed = true →
      reachable (bibentry_create st (some p) addr4 addr6 is_static proto).2
  | add (st : bib_state) (bib : Nat) (old : Bool) :
      reachable st → (st.mem bib).freed = false → reachable (bibtable_add st bib old).2.2
  | get (st : bib_state) (bib : Nat) :
      reachable st → (st.mem bib).freed = false → reachable (bibentry_get st bib)
  | put (st : bib_state) (bib : Nat) :
      reachable st → (st.mem bib).freed = false → reachable (bibentry_put st bib)
  | get6 (st : bib_state) (addr : ipv6_transport_addr) :
      reachable st → reachable (bibtable_get6 st addr).2.2
  | get4 (st : bib_state) (addr : ipv4_transport_addr) :
      reachable st → reachable (bibtable_get4 st addr).2.2
  | flush (st st' : bib_state) :
      reachable st → bibtable_flush st = some st' → reachable st'
  | delete_taddr4s (st st' : bib_state) (prefix4 : ipv4_prefix) (ports : port_range) :
      reachable st → bibtable_delete_taddr4s st prefix4 ports = some st' → reachable st'
  | foreach {α : Type} (st : bib_state) (f : bib_entry → α → Int × α) (arg : α)
      (offset : Option ipv4_transport_addr) (r : Int × α × bib_state) :
      reachable st → bibtable_foreach st (reader f) arg offset = some r → reachable r.2.2
  | rebalance (st : bib_state) (t6 t4 : rb_node) :
      reachable st → t6.toList = st.table.tree6.toList →
      t4.toList = st.table.tree4.toList →
      reachable { st with table := { st.table with tree6 := t6, tree4 := t4 } }

/-- Entry 1 is created, indexed, removed with a direct `bibtable_rm` and
then dropped by its creator. -/
def seed_rm_then_put : bib_state :=
  bibentry_put (bibtable_rm (bibtable_add seed_created 1 false).2.2 1) 1

end Bib

end Jool

namespace Jool

namespace Bib

/-- What `bibtable_foreach` is to do, in the words of its contract: `func`
is called on the entries of the list in order, the walk stops after the
first call that returns nonzero and returns what that call returned, and
returns 0 with the last argument and state otherwise. -/
def foreach_spec {α : Type} (func : Nat → α → bib_state → Int × α × bib_state) :
    List Nat → α → bib_state → Int × α × bib_state
  | [], arg, st => (0, arg, st)
  | p :: ps, arg, st =>
    if (func p arg st).1 ≠ 0 then func p arg st
    else foreach_spec func ps (func p arg st).2.1 (func p arg st).2.2

/-- The indexed entries a walk with the given offset is to visit, in
ascending order of their IPv4 key: all of them without an offset, those
whose key is strictly greater than the offset otherwise. -/
def after_offset (st : bib_state) : Option ipv4_transport_addr → List Nat
  | none => st.table.tree4.toList
  | some off =>
    st.table.tree4.toList.filter (fun p => decide (0 < compare_full4 (st.mem p) off))

/-- Seed scenario 1: the entry ([2001:db8::1]#10000, 192.0.2.5#40000) is
indexed. -/
def seed_indexed : bib_state := (bibtable_add seed_created 1 false).2.2

/-- A static entry that has just been created at address 1 and indexed;
no lookup has been made and no session points at it. -/
def seed_static_indexed : bib_state :=
  (bibtable_add
    (bibentry_create empty_state (some 1) seed_addr4 seed_addr6_1 true 17).2 1 false).2.2

/-- Three entries with the IPv4 addresses 192.0.2.5#40000, 192.0.2.5#40001
and 192.0.2.6#40000 at addresses 1, 2 and 3; the first is dynamic and held
once, the second is static and held once, the third is static and held
twice.  They are indexed in the order 2, 1, 3. -/
def seed_walk : bib_state :=
  (bibtable_add
    (bibtable_add
      (bibtable_add
        (bibentry_get
          (bibentry_create
            (bibentry_create
              (bibentry_create empty_state (some 1) ⟨0xC0000205, 40000⟩
                ⟨0x20010db8000000000000000000000001, 10000⟩ false 17).2
              (some 2) ⟨0xC0000205, 40001⟩
              ⟨0x20010db8000000000000000000000001, 10001⟩ true 17).2
            (some 3) ⟨0xC0000206, 40000⟩
            ⟨0x20010db8000000000000000000000002, 10000⟩ true 17).2
          3)
        2 false).2.2
      1 false).2.2
    3 false).2.2

/-- A reading callback that notes the IPv4 port of every entry it is
handed, and stops the walk with the value 7 at port 40001 when `stop` is
set. -/
def note_port (stop : Bool) : Nat → List Nat → bib_state → Int × List Nat × bib_state :=
  reader (fun e acc => (if stop && e.ipv4.l4 == 40001 then 7 else 0, acc ++ [e.ipv4.l4]))

/-- An entry after one of its references has been dropped: the count is
one lower, and the entry is freed when the count has reached zero. -/
def dropped (e : bib_entry) : bib_entry :=
  { e with refcounter := e.refcounter - 1,
           freed := e.freed || decide (e.refcounter - 1 = 0) }

/-- How `st` differs from `st0` when one reference of each entry of `D` has
been dropped and nothing else has happened: the entries of `D` are
`dropped`, the others are as they were, and the trees have lost the entries
of `D` whose count was 1. -/
structure drop_effect (st0 : bib_state) (D : List Nat) (st : bib_state) : Prop where
  mem_eq : ∀ p, st.mem p = if p ∈ D then dropped (st0.mem p) else st0.mem p
  tree4_eq : st.table.tree4.toList = st0.table.tree4.toList.filter
    (fun p => !(decide (p ∈ D) && decide ((st0.mem p).refcounter = 1)))
  tree6_eq : st.table.tree6.toList = st0.table.tree6.toList.filter
    (fun p => !(decide (p ∈ D) && decide ((st0.mem p).refcounter = 1)))

/-- One more reference handed out for the entry a call returned, if it
returned one. -/
def credit (h : Nat → Int) : Option Nat → Nat → Int
  | none => h
  | some c => Function.update h c (h c + 1)

/-- The states reached from an initialised table over a memory in which
nothing is allocated by `bibentry_create`, `bibtable_add`, `bibentry_get`,
the lookups and `bibentry_put`, each with its ledger: for every entry, the
number of references handed out and not yet dropped.  `bibentry_create`
hands one to the creator; `bibentry_get`, a lookup that hits and a collision
reported through the out-pointer hand out one more; `bibentry_put` gives one
back.  Linking an entry into the table hands out nothing. -/
inductive accounted : bib_state → (Nat → Int) → Prop
  | init (log_changes : Bool) :
      accounted (bibtable_init
        { mem := fun _ => blank,
          table := { tree6 := RB_ROOT, tree4 := RB_ROOT, count := 0, log_changes := false } }
        log_changes) (fun _ => 0)
  | create (st : bib_state) (h : Nat → Int) (p : Nat) (addr4 : ipv4_transport_addr)
      (addr6 : ipv6_transport_addr) (is_static : Bool) (proto : Nat) :
      accounted st h → valid_ptr p → (st.mem p).freed = true →
      accounted (bibentry_create st (some p) addr4 addr6 is_static proto).2
        (Function.update h p 1)
  | add (st : bib_state) (h : Nat → Int) (bib : Nat) (old : Bool) :
      accounted st h → (st.mem bib).freed = false →
      accounted (bibtable_add st bib old).2.2 (credit h (bibtable_add st bib old).2.1)
  | get (st : bib_state) (h : Nat → Int) (bib : Nat) :
      accounted st h → (st.mem bib).freed = false →
      accounted (bibentry_get st bib) (credit h (some bib))
  | get6 (st : bib_state) (h : Nat → Int) (addr : ipv6_transport_addr) :
      accounted st h →
      accounted (bibtable_get6 st addr).2.2 (credit h (bibtable_get6 st addr).2.1)
  | get4 (st : bib_state) (h : Nat → Int) (addr : ipv4_transport_addr) :
      accounted st h →
      accounted (bibtable_get4 st addr).2.2 (credit h (bibtable_get4 st addr).2.1)
  | put (st : bib_state) (h : Nat → Int) (bib : Nat) :
      accounted st h → (st.mem bib).freed = false →
      accounted (bibentry_put st bib) (Function.update h bib (h bib - 1))

end Bib

namespace Session

/-- A callback of `sessiontable_foreach` that notes the session it is
handed and changes nothing. -/
def note_session (session : Nat) (seen : List Nat) (st : session_state) :
    Int × List Nat × session_state :=
  (0, seen ++ [session], st)

/-- The search key `find_next_chunk` builds from the two offsets. -/
def offset_tuple (offset_remote offset_local : ipv4_transport_addr) : tuple :=
  { src := { addr4 := offset_remote, addr6 := ⟨0, 0⟩ },
    dst := { addr4 := offset_local, addr6 := ⟨0, 0⟩ }, l3_proto := 0, l4_proto := 0 }

end Session

end Jool

namespace Jool

/-! ## The ordered-tree index -/

theorem key_mono.sign_mono {R : Nat → Nat → Prop} {cmp : Nat → Int} (h : key_mono R cmp) :
    sign_mono R cmp := fun a b hab =>
  ⟨fun hb => (h a b hab).1 (le_of_lt hb), fun ha => (h a b hab).2 (le_of_lt ha)⟩

theorem rb_ordered_node {R : Nat → Nat → Prop} {l r : rb_node} {x : Nat} :
    rb_ordered R (rb_node.node l x r) ↔
      rb_ordered R l ∧ rb_ordered R r ∧ (∀ a ∈ l.toList, R a x) ∧ (∀ b ∈ r.toList, R x b) ∧
      (∀ a ∈ l.toList, ∀ b ∈ r.toList, R a b) := by
  simp only [rb_ordered, rb_node.toList, List.pairwise_append, List.pairwise_cons,
    List.mem_cons]
  constructor
  · rintro ⟨hl, ⟨hx, hr⟩, h⟩
    exact ⟨hl, hr, fun a ha => h a ha x (Or.inl rfl), hx,
      fun a ha b hb => h a ha b (Or.inr hb)⟩
  · rintro ⟨hl, hr, h1, h2, h3⟩
    refine ⟨hl, ⟨h2, hr⟩, ?_⟩
    rintro a ha b (rfl | hb)
    · exact h1 a ha
    · exact h3 a ha b hb

theorem rbtree_find_mem {cmp : Nat → Int} {t : rb_node} {p : Nat}
    (h : rbtree_find cmp t = some p) : p ∈ t.toList ∧ cmp p = 0 := by
  induction t with
  | nil => simp [rbtree_find] at h
  | node l x r ihl ihr =>
    simp only [rbtree_find] at h
    simp only [rb_node.toList, List.mem_append, List.mem_cons]
    split_ifs at h with h1 h2
    · exact ⟨Or.inr (Or.inr (ihr h).1), (ihr h).2⟩
    · exact ⟨Or.inl (ihl h).1, (ihl h).2⟩
    · cases h
      exact ⟨Or.inr (Or.inl rfl), by omega⟩

theorem rbtree_find_none {R : Nat → Nat → Prop} {cmp : Nat → Int} {t : rb_node}
    (ho : rb_ordered R t) (hm : sign_mono R cmp) (h : rbtree_find cmp t = none) :
    ∀ p ∈ t.toList, cmp p ≠ 0 := by
  induction t with
  | nil => simp [rb_node.toList]
  | node l x r ihl ihr =>
    obtain ⟨hl, hr, hlx, hxr, -⟩ := rb_ordered_node.mp ho
    simp only [rbtree_find] at h
    simp only [rb_node.toList, List.mem_append, List.mem_cons]
    split_ifs at h with h1 h2
    · rintro p (hp | rfl | hp)
      · have := (hm p x (hlx p hp)).1 h1; omega
      · omega
      · exact ihr hr h p hp
    · rintro p (hp | rfl | hp)
      · exact ihl hl h p hp
      · omega
      · have := (hm x p (hxr p hp)).2 h2; omega

theorem rbtree_find_isSome_iff {R : Nat → Nat → Prop} {cmp : Nat → Int} {t : rb_node}
    (ho : rb_ordered R t) (hm : sign_mono R cmp) :
    (rbtree_find cmp t).isSome = true ↔ ∃ p ∈ t.toList, cmp p = 0 := by
  constructor
  · intro h
    obtain ⟨p, hp⟩ := Option.isSome_iff_exists.mp h
    exact ⟨p, rbtree_find_mem hp⟩
  · rintro ⟨p, hp, h0⟩
    by_contra hn
    have : rbtree_find cmp t = none := by
      cases hf : rbtree_find cmp t with
      | none => rfl
      | some q => simp [hf] at hn
    exact rbtree_find_none ho hm this p hp h0

theorem pairwise_zero_unique {R : Nat → Nat → Prop} {cmp : Nat → Int} {l : List Nat}
    (ho : l.Pairwise R) (hm : key_mono R cmp) {p q : Nat} (hp : p ∈ l) (hq : q ∈ l)
    (h0 : cmp p = 0) (h1 : cmp q = 0) : p = q := by
  by_contra hne
  have hs : l.Pairwise (fun a b => R a b ∨ R b a) := ho.imp (fun h => Or.inl h)
  have := hs.forall (fun a b h => h.symm) hp hq hne
  rcases this with h | h
  · have := (hm p q h).1 (by omega); omega
  · have := (hm q p h).1 (by omega); omega

theorem rbtree_find_eq_some {R : Nat → Nat → Prop} {cmp : Nat → Int} {t : rb_node}
    (ho : rb_ordered R t) (hm : key_mono R cmp) {p : Nat} (hp : p ∈ t.toList)
    (h0 : cmp p = 0) : rbtree_find cmp t = some p := by
  cases hf : rbtree_find cmp t with
  | none => exact absurd h0 (rbtree_find_none ho hm.sign_mono hf p hp)
  | some q =>
    obtain ⟨hq, hq0⟩ := rbtree_find_mem hf
    rw [pairwise_zero_unique ho hm hq hp hq0 h0]

theorem rbtree_add_fst (cmp : Nat → Int) (e : Nat) (t : rb_node) :
    (rbtree_add cmp e t).1 = rbtree_find cmp t := by
  induction t with
  | nil => rfl
  | node l x r ihl ihr =>
    simp only [rbtree_add, rbtree_find]
    split_ifs <;> simp [*]

theorem rbtree_add_collision {cmp : Nat → Int} {e : Nat} {t : rb_node}
    (h : (rbtree_add cmp e t).1 ≠ none) : (rbtree_add cmp e t).2 = t := by
  induction t with
  | nil => simp [rbtree_add] at h
  | node l x r ihl ihr =>
    simp only [rbtree_add] at h ⊢
    split_ifs at h ⊢ with h1 h2
    · simp [ihr h]
    · simp [ihl h]
    · rfl

theorem rbtree_add_toList {R : Nat → Nat → Prop} {cmp : Nat → Int} {e : Nat} {t : rb_node}
    (ho : rb_ordered R t) (hm : sign_mono R cmp) (h : (rbtree_add cmp e t).1 = none) :
    ∃ l1 l2, t.toList = l1 ++ l2 ∧ (rbtree_add cmp e t).2.toList = l1 ++ e :: l2 ∧
      (∀ x ∈ l1, cmp x < 0) ∧ (∀ x ∈ l2, 0 < cmp x) := by
  induction t with
  | nil => exact ⟨[], [], by simp [rb_node.toList, rbtree_add]⟩
  | node l x r ihl ihr =>
    obtain ⟨hl, hr, hlx, hxr, -⟩ := rb_ordered_node.mp ho
    simp only [rbtree_add] at h ⊢
    split_ifs at h ⊢ with h1 h2
    · obtain ⟨l1, l2, e1, e2, c1, c2⟩ := ihr hr h
      refine ⟨l.toList ++ x :: l1, l2, ?_, ?_, ?_, c2⟩
      · simp [rb_node.toList, e1]
      · simp [rb_node.toList, e2]
      · intro y hy
        simp only [List.mem_append, List.mem_cons] at hy
        rcases hy with hy | rfl | hy
        · exact (hm y x (hlx y hy)).1 h1
        · exact h1
        · exact c1 y hy
    · obtain ⟨l1, l2, e1, e2, c1, c2⟩ := ihl hl h
      refine ⟨l1, l2 ++ x :: r.toList, ?_, ?_, c1, ?_⟩
      · simp [rb_node.toList, e1]
      · simp [rb_node.toList, e2]
      · intro y hy
        simp only [List.mem_append, List.mem_cons] at hy
        rcases hy with hy | rfl | hy
        · exact c2 y hy
        · exact h2
        · exact (hm x y (hxr y hy)).2 h2

theorem rbtree_add_ordered {R : Nat → Nat → Prop} {cmp : Nat → Int} {e : Nat} {t : rb_node}
    (ho : rb_ordered R t) (hm : sign_mono R cmp) (h : (rbtree_add cmp e t).1 = none)
    (hlt : ∀ x, cmp x < 0 → R x e) (hgt : ∀ x, 0 < cmp x → R e x) :
    rb_ordered R (rbtree_add cmp e t).2 := by
  obtain ⟨l1, l2, e1, e2, c1, c2⟩ := rbtree_add_toList ho hm h
  unfold rb_ordered at ho ⊢
  rw [e1] at ho
  rw [e2]
  rw [List.pairwise_append] at ho ⊢
  refine ⟨ho.1, List.pairwise_cons.mpr ⟨fun x hx => hgt x (c2 x hx), ho.2.1⟩, ?_⟩
  intro a ha b hb
  rcases List.mem_cons.mp hb with rfl | hb
  · exact hlt a (c1 a ha)
  · exact ho.2.2 a ha b hb

theorem rbtree_add_perm {R : Nat → Nat → Prop} {cmp : Nat → Int} {e : Nat} {t : rb_node}
    (ho : rb_ordered R t) (hm : sign_mono R cmp) (h : (rbtree_add cmp e t).1 = none) :
    (rbtree_add cmp e t).2.toList.Perm (e :: t.toList) := by
  obtain ⟨l1, l2, e1, e2, -, -⟩ := rbtree_add_toList ho hm h
  rw [e1, e2]
  exact List.perm_middle

theorem rb_join_toList (l r : rb_node) : (rb_join l r).toList = l.toList ++ r.toList := by
  induction l with
  | nil => simp [rb_join, rb_node.toList]
  | node a x b _ ihb => simp [rb_join, rb_node.toList, ihb]

theorem rb_erase_not_mem {p : Nat} {t : rb_node} (h : p ∉ t.toList) : rb_erase p t = t := by
  induction t with
  | nil => rfl
  | node l x r ihl ihr =>
    simp only [rb_node.toList, List.mem_append, List.mem_cons, not_or] at h
    simp only [rb_erase]
    rw [if_neg (fun hx => h.2.1 hx.symm), ihl h.1, ihr h.2.2]

theorem rb_erase_toList {p : Nat} {t : rb_node} (h : t.toList.Nodup) :
    (rb_erase p t).toList = t.toList.erase p := by
  induction t with
  | nil => rfl
  | node l x r ihl ihr =>
    simp only [rb_node.toList] at h ⊢
    have hl := (List.nodup_append.mp h).1
    have hxr := (List.nodup_append.mp h).2.1
    have hd := (List.nodup_append.mp h).2.2
    have hr := (List.nodup_cons.mp hxr).2
    have hxnr := (List.nodup_cons.mp hxr).1
    simp only [rb_erase]
    by_cases hx : x = p
    · subst hx
      have hxl : x ∉ l.toList := fun hm => hd hm (List.mem_cons_self _ _)
      rw [if_pos rfl, rb_join_toList, List.erase_append_right _ hxl, List.erase_cons_head]
    · rw [if_neg hx]
      simp only [rb_node.toList]
      by_cases hpl : p ∈ l.toList
      · have hpr : p ∉ r.toList := fun hm => hd hpl (List.mem_cons_of_mem _ hm)
        rw [List.erase_append_left _ hpl, ihl hl, rb_erase_not_mem hpr]
      · rw [List.erase_append_right _ hpl, rb_erase_not_mem hpl,
          List.erase_cons_tail (by simpa using hx), ihr hr]

theorem rb_erase_add {cmp : Nat → Int} {e : Nat} {t : rb_node} (he : e ∉ t.toList)
    (h : (rbtree_add cmp e t).1 = none) : rb_erase e (rbtree_add cmp e t).2 = t := by
  induction t with
  | nil => simp [rbtree_add, rb_erase, rb_join]
  | node l x r ihl ihr =>
    simp only [rb_node.toList, List.mem_append, List.mem_cons, not_or] at he
    simp only [rbtree_add] at h ⊢
    have hx : ¬ x = e := fun hx => he.2.1 hx.symm
    split_ifs at h ⊢ with h1 h2
    · simp only [rb_erase, if_neg hx, ihr he.2.2 h, rb_erase_not_mem he.1]
    · simp only [rb_erase, if_neg hx, ihl he.1 h, rb_erase_not_mem he.2.2]

theorem rb_first_eq_head (t : rb_node) : rb_first t = t.toList.head? := by
  induction t with
  | nil => rfl
  | node l x r ihl _ =>
    cases l with
    | nil => simp [rb_first, rb_node.toList]
    | node a y b =>
      simp only [rb_first, ihl, rb_node.toList]
      simp [List.head?_append]

theorem rbtree_find_node_fst (cmp : Nat → Int) (t : rb_node) (par : Option Nat) :
    (rbtree_find_node cmp t par).1 = rbtree_find cmp t := by
  induction t generalizing par with
  | nil => rfl
  | node l x r ihl ihr =>
    simp only [rbtree_find_node, rbtree_find]
    split_ifs <;> simp [*]

end Jool

namespace Jool

namespace Bib

/-! ## BIB comparison callbacks -/

theorem compare_full6_lex (b : bib_entry) (k : ipv6_transport_addr) :
    compare_full6 b k =
      if b.ipv6.l3 < k.l3 then -1 else if k.l3 < b.ipv6.l3 then 1
      else (b.ipv6.l4 : Int) - (k.l4 : Int) := by
  simp only [compare_full6, compare_addr6, ipv6_addr_cmp]
  by_cases h1 : b.ipv6.l3 < k.l3
  · simp [h1]
  · by_cases h2 : k.l3 < b.ipv6.l3
    · simp [h1, h2]
    · simp [h1, h2]

theorem compare_full4_lex (b : bib_entry) (k : ipv4_transport_addr) :
    compare_full4 b k =
      if b.ipv4.l3 < k.l3 then -1 else if k.l3 < b.ipv4.l3 then 1
      else (b.ipv4.l4 : Int) - (k.l4 : Int) := by
  simp only [compare_full4, compare_addr4, ipv4_addr_cmp]
  by_cases h1 : b.ipv4.l3 < k.l3
  · simp [h1]
  · by_cases h2 : k.l3 < b.ipv4.l3
    · simp [h1, h2]
    · simp [h1, h2]

theorem compare_full6_eq_zero (b : bib_entry) (k : ipv6_transport_addr) :
    compare_full6 b k = 0 ↔ b.ipv6 = k := by
  rw [compare_full6_lex]
  have hext : b.ipv6 = k ↔ b.ipv6.l3 = k.l3 ∧ b.ipv6.l4 = k.l4 := by
    generalize b.ipv6 = x
    cases x; cases k; simp
  rw [hext]
  split_ifs <;> constructor <;> intro h <;> first | omega | exact h.elim

theorem compare_full4_eq_zero (b : bib_entry) (k : ipv4_transport_addr) :
    compare_full4 b k = 0 ↔ b.ipv4 = k := by
  rw [compare_full4_lex]
  have hext : b.ipv4 = k ↔ b.ipv4.l3 = k.l3 ∧ b.ipv4.l4 = k.l4 := by
    generalize b.ipv4 = x
    cases x; cases k; simp
  rw [hext]
  split_ifs <;> constructor <;> intro h <;> first | omega | exact h.elim

theorem key_mono6 (mem : Nat → bib_entry) (k : ipv6_transport_addr) :
    key_mono (key6_lt mem) (fun p => compare_full6 (mem p) k) := by
  intro a b hab
  simp only [key6_lt, compare_full6_lex] at hab ⊢
  constructor <;> intro h <;> split_ifs at hab h ⊢ <;> omega

theorem key_mono4 (mem : Nat → bib_entry) (k : ipv4_transport_addr) :
    key_mono (key4_lt mem) (fun p => compare_full4 (mem p) k) := by
  intro a b hab
  simp only [key4_lt, compare_full4_lex] at hab ⊢
  constructor <;> intro h <;> split_ifs at hab h ⊢ <;> omega

theorem key6_lt_of_pos {mem : Nat → bib_entry} {x e : Nat}
    (h : 0 < compare_full6 (mem x) (mem e).ipv6) : key6_lt mem e x := by
  simp only [key6_lt, compare_full6_lex] at h ⊢
  split_ifs at h ⊢ <;> omega

theorem key4_lt_of_pos {mem : Nat → bib_entry} {x e : Nat}
    (h : 0 < compare_full4 (mem x) (mem e).ipv4) : key4_lt mem e x := by
  simp only [key4_lt, compare_full4_lex] at h ⊢
  split_ifs at h ⊢ <;> omega

theorem compare_full6_congr {b b' : bib_entry} (h : b'.ipv6 = b.ipv6)
    (k : ipv6_transport_addr) : compare_full6 b' k = compare_full6 b k := by
  simp only [compare_full6, compare_addr6, h]

theorem compare_full4_congr {b b' : bib_entry} (h : b'.ipv4 = b.ipv4)
    (k : ipv4_transport_addr) : compare_full4 b' k = compare_full4 b k := by
  simp only [compare_full4, compare_addr4, h]

theorem cmp6_update (mem : Nat → bib_entry) (e : Nat) (v : bib_entry) (hv : v.ipv6 = (mem e).ipv6)
    (k : ipv6_transport_addr) :
    (fun p => compare_full6 (Function.update mem e v p) k) = fun p => compare_full6 (mem p) k := by
  funext p
  by_cases hp : p = e
  · subst hp; simp only [Function.update_same]; exact compare_full6_congr hv k
  · simp only [Function.update_noteq hp]

theorem cmp4_update (mem : Nat → bib_entry) (e : Nat) (v : bib_entry) (hv : v.ipv4 = (mem e).ipv4)
    (k : ipv4_transport_addr) :
    (fun p => compare_full4 (Function.update mem e v p) k) = fun p => compare_full4 (mem p) k := by
  funext p
  by_cases hp : p = e
  · subst hp; simp only [Function.update_same]; exact compare_full4_congr hv k
  · simp only [Function.update_noteq hp]

theorem add6_some {st : bib_state} {e c : Nat}
    (h : find_by_addr6 st (st.mem e).ipv6 = some c) : add6 st e = (some c, st) := by
  unfold add6
  rw [rbtree_add_fst]
  unfold find_by_addr6 at h
  rw [h]

theorem add6_none {st : bib_state} {e : Nat}
    (h : find_by_addr6 st (st.mem e).ipv6 = none) :
    add6 st e = (none, linked6 st e) := by
  unfold add6 linked6
  rw [rbtree_add_fst]
  unfold find_by_addr6 at h
  rw [h]

theorem add4_some {st : bib_state} {e c : Nat}
    (h : find_by_addr4 st (st.mem e).ipv4 = some c) : add4 st e = (some c, st) := by
  unfold add4
  rw [rbtree_add_fst]
  unfold find_by_addr4 at h
  rw [h]

theorem add4_none {st : bib_state} {e : Nat}
    (h : find_by_addr4 st (st.mem e).ipv4 = none) :
    add4 st e = (none,
      { mem := Function.update st.mem e { st.mem e with tree4_hook := true },
        table := { st.table with
          tree4 := (rbtree_add (fun p => compare_full4 (st.mem p) (st.mem e).ipv4) e
                     st.table.tree4).2 } }) := by
  unfold add4
  rw [rbtree_add_fst]
  unfold find_by_addr4 at h
  rw [h]

theorem find4_linked6 (st : bib_state) (e : Nat) :
    find_by_addr4 (linked6 st e) ((linked6 st e).mem e).ipv4 = find_by_addr4 st (st.mem e).ipv4 := by
  unfold find_by_addr4 linked6
  simp only [Function.update_same]
  rw [cmp4_update st.mem e { st.mem e with tree6_hook := true } rfl]

theorem bibtable_add_v6 {st : bib_state} {e c : Nat} (old : Bool)
    (h : find_by_addr6 st (st.mem e).ipv6 = some c) :
    bibtable_add st e old = add_exists st c old := by
  simp only [bibtable_add, add6_some h]

theorem bibtable_add_v4 {st : bib_state} {e c : Nat} (old : Bool)
    (h6 : find_by_addr6 st (st.mem e).ipv6 = none)
    (h4 : find_by_addr4 st (st.mem e).ipv4 = some c) :
    bibtable_add st e old =
      add_exists { linked6 st e with table := { (linked6 st e).table with
        tree6 := rb_erase e (linked6 st e).table.tree6 } } c old := by
  have h4' := (find4_linked6 st e).trans h4
  simp only [bibtable_add, add6_none h6]
  simp only [add4_some h4']

theorem bibtable_add_ok {st : bib_state} {e : Nat} (old : Bool)
    (h6 : find_by_addr6 st (st.mem e).ipv6 = none)
    (h4 : find_by_addr4 st (st.mem e).ipv4 = none) :
    bibtable_add st e old =
      (0, none,
       { mem := Function.update st.mem e
           { st.mem e with tree6_hook := true, tree4_hook := true, table := true },
         table :=
           { tree6 := (rbtree_add (fun p => compare_full6 (st.mem p) (st.mem e).ipv6) e
                        st.table.tree6).2,
             tree4 := (rbtree_add (fun p => compare_full4 (st.mem p) (st.mem e).ipv4) e
                        st.table.tree4).2,
             count := (st.table.count + 1) % WORD,
             log_changes := st.table.log_changes } }) := by
  have h4' := (find4_linked6 st e).trans h4
  simp only [bibtable_add, add6_none h6]
  simp only [add4_none h4']
  simp only [linked6, Function.update_same, Function.update_idem,
    cmp4_update st.mem e { st.mem e with tree6_hook := true } rfl]


theorem add_exists_fst (st : bib_state) (c : Nat) (old : Bool) :
    (add_exists st c old).1 = -EEXIST := by
  unfold add_exists; split <;> rfl

theorem add_exists_table (st : bib_state) (c : Nat) (old : Bool) :
    (add_exists st c old).2.2.table = st.table := by
  unfold add_exists; split <;> rfl

theorem add_exists_mem (st : bib_state) (c : Nat) (old : Bool) (p : Nat) :
    ((add_exists st c old).2.2.mem p).ipv6 = (st.mem p).ipv6 ∧
    ((add_exists st c old).2.2.mem p).ipv4 = (st.mem p).ipv4 ∧
    ((add_exists st c old).2.2.mem p).table = (st.mem p).table ∧
    ((add_exists st c old).2.2.mem p).freed = (st.mem p).freed ∧
    ((add_exists st c old).2.2.mem p).is_static = (st.mem p).is_static ∧
    ((add_exists st c old).2.2.mem p).tree6_hook = (st.mem p).tree6_hook ∧
    ((add_exists st c old).2.2.mem p).tree4_hook = (st.mem p).tree4_hook := by
  unfold add_exists
  split
  · by_cases hp : p = c
    · subst hp; simp [bibentry_get, store]
    · simp [bibentry_get, store, Function.update_noteq hp]
  · simp

theorem bibentry_put_unindexed {st : bib_state} {e : Nat} (h : (st.mem e).table = false) :
    (bibentry_put st e).table = st.table ∧
    ((st.mem e).refcounter = 1 → ((bibentry_put st e).mem e).freed = true) := by
  unfold bibentry_put kref_put
  split
  · simp [release, store, h, kmem_cache_free]
  · constructor
    · rfl
    · intro h1; omega

theorem not_mem_of_find6_none {st : bib_state} {e : Nat}
    (ho : rb_ordered (key6_lt st.mem) st.table.tree6)
    (h : find_by_addr6 st (st.mem e).ipv6 = none) : e ∉ st.table.tree6.toList := fun hm =>
  rbtree_find_none ho (key_mono6 st.mem _).sign_mono h e hm
    ((compare_full6_eq_zero _ _).mpr rfl)

/-- Claim C1: a failing `bibtable_add` is atomic.  For every table whose
trees are ordered and every new entry `e` (its back-reference is NULL) such
that an indexed entry already has `e.ipv6` or an indexed entry already has
`e.ipv4`, `bibtable_add` returns `-EEXIST`; `tree6` and `tree4` hold the
same entries in the same order as before, `count` is unchanged and `e.table`
is still NULL; when only the IPv4 key collided, `bibtable_get6` of `e.ipv6`
misses with `-ESRCH` (the insertion into `tree6` was rolled back); and a
following `bibentry_put` of `e` leaves the table as it is and frees `e` when
its counter was 1. -/
theorem bibtable_add_failure_atomic (st : bib_state) (e : Nat) (old : Bool)
    (h6 : rb_ordered (key6_lt st.mem) st.table.tree6)
    (h4 : rb_ordered (key4_lt st.mem) st.table.tree4)
    (hnew : (st.mem e).table = false)
    (hcol : (∃ p ∈ st.table.tree6.toList, (st.mem p).ipv6 = (st.mem e).ipv6) ∨
            (∃ p ∈ st.table.tree4.toList, (st.mem p).ipv4 = (st.mem e).ipv4)) :
    (bibtable_add st e old).1 = -EEXIST ∧
    (bibtable_add st e old).2.2.table.tree6.toList = st.table.tree6.toList ∧
    (bibtable_add st e old).2.2.table.tree4.toList = st.table.tree4.toList ∧
    (bibtable_add st e old).2.2.table.count = st.table.count ∧
    ((bibtable_add st e old).2.2.mem e).table = false ∧
    ((∀ p ∈ st.table.tree6.toList, (st.mem p).ipv6 ≠ (st.mem e).ipv6) →
      bibtable_get6 (bibtable_add st e old).2.2 (st.mem e).ipv6 =
        (-ESRCH, none, (bibtable_add st e old).2.2)) ∧
    (bibentry_put (bibtable_add st e old).2.2 e).table = (bibtable_add st e old).2.2.table ∧
    (((bibtable_add st e old).2.2.mem e).refcounter = 1 →
      ((bibentry_put (bibtable_add st e old).2.2 e).mem e).freed = true) := by
  cases hf6 : find_by_addr6 st (st.mem e).ipv6 with
  | some c =>
    have hc := rbtree_find_mem hf6
    have hkey : (st.mem c).ipv6 = (st.mem e).ipv6 := (compare_full6_eq_zero _ _).mp hc.2
    have htab : ((add_exists st c old).2.2.mem e).table = false :=
      ((add_exists_mem st c old e).2.2.1).trans hnew
    rw [bibtable_add_v6 old hf6]
    refine ⟨add_exists_fst _ _ _, by rw [add_exists_table], by rw [add_exists_table],
      by rw [add_exists_table], htab, fun hno => absurd hkey (hno c hc.1),
      (bibentry_put_unindexed htab).1, (bibentry_put_unindexed htab).2⟩
  | none =>
    have hne : e ∉ st.table.tree6.toList := not_mem_of_find6_none h6 hf6
    have hno6 : ∀ p ∈ st.table.tree6.toList, (st.mem p).ipv6 ≠ (st.mem e).ipv6 :=
      fun p hp hk => rbtree_find_none h6 (key_mono6 st.mem _).sign_mono hf6 p hp
        ((compare_full6_eq_zero _ _).mpr hk)
    cases hf4 : find_by_addr4 st (st.mem e).ipv4 with
    | none =>
      exfalso
      rcases hcol with ⟨p, hp, hk⟩ | ⟨p, hp, hk⟩
      · exact hno6 p hp hk
      · exact rbtree_find_none h4 (key_mono4 st.mem _).sign_mono hf4 p hp
          ((compare_full4_eq_zero _ _).mpr hk)
    | some c =>
      have hroll : rb_erase e (linked6 st e).table.tree6 = st.table.tree6 := by
        simp only [linked6]
        exact rb_erase_add hne (by rw [rbtree_add_fst]; exact hf6)
      rw [bibtable_add_v4 old hf6 hf4, hroll]
      have htab : ((add_exists { linked6 st e with table := { (linked6 st e).table with
          tree6 := st.table.tree6 } } c old).2.2.mem e).table = false := by
        rw [(add_exists_mem _ c old e).2.2.1]
        simp [linked6, hnew]
      refine ⟨add_exists_fst _ _ _, by rw [add_exists_table], by rw [add_exists_table]; rfl,
        by rw [add_exists_table]; rfl, htab, fun _ => ?_,
        (bibentry_put_unindexed htab).1, (bibentry_put_unindexed htab).2⟩
      have : find_by_addr6 (add_exists { linked6 st e with table := { (linked6 st e).table with
          tree6 := st.table.tree6 } } c old).2.2 (st.mem e).ipv6 = none := by
        cases hq : find_by_addr6 (add_exists { linked6 st e with table :=
            { (linked6 st e).table with tree6 := st.table.tree6 } } c old).2.2
            (st.mem e).ipv6 with
        | none => rfl
        | some q =>
          exfalso
          have hm := rbtree_find_mem hq
          rw [add_exists_table] at hm
          have hk := (compare_full6_eq_zero _ _).mp hm.2
          rw [(add_exists_mem _ c old q).1] at hk
          have hqe : q ≠ e := fun h => hne (h ▸ hm.1)
          simp only [linked6, Function.update_noteq hqe] at hk
          exact hno6 q hm.1 hk
      simp only [bibtable_get6, this]


theorem key6_lt_congr {mem mem' : Nat → bib_entry} (h : ∀ p, (mem' p).ipv6 = (mem p).ipv6) :
    key6_lt mem' = key6_lt mem := by
  funext a b
  simp only [key6_lt, compare_full6_congr (h a), h b]

theorem key4_lt_congr {mem mem' : Nat → bib_entry} (h : ∀ p, (mem' p).ipv4 = (mem p).ipv4) :
    key4_lt mem' = key4_lt mem := by
  funext a b
  simp only [key4_lt, compare_full4_congr (h a), h b]

theorem find6_congr {st st' : bib_state} (hm : ∀ p, (st'.mem p).ipv6 = (st.mem p).ipv6)
    (ht : st'.table.tree6 = st.table.tree6) (k : ipv6_transport_addr) :
    find_by_addr6 st' k = find_by_addr6 st k := by
  unfold find_by_addr6
  rw [ht]
  congr 1
  funext p
  exact compare_full6_congr (hm p) k

theorem find4_congr {st st' : bib_state} (hm : ∀ p, (st'.mem p).ipv4 = (st.mem p).ipv4)
    (ht : st'.table.tree4 = st.table.tree4) (k : ipv4_transport_addr) :
    find_by_addr4 st' k = find_by_addr4 st k := by
  unfold find_by_addr4
  rw [ht]
  congr 1
  funext p
  exact compare_full4_congr (hm p) k

theorem find6_of_mem {st : bib_state} (ho : rb_ordered (key6_lt st.mem) st.table.tree6)
    {p : Nat} (hp : p ∈ st.table.tree6.toList) :
    find_by_addr6 st (st.mem p).ipv6 = some p :=
  rbtree_find_eq_some ho (key_mono6 st.mem _) hp ((compare_full6_eq_zero _ _).mpr rfl)

theorem find4_of_mem {st : bib_state} (ho : rb_ordered (key4_lt st.mem) st.table.tree4)
    {p : Nat} (hp : p ∈ st.table.tree4.toList) :
    find_by_addr4 st (st.mem p).ipv4 = some p :=
  rbtree_find_eq_some ho (key_mono4 st.mem _) hp ((compare_full4_eq_zero _ _).mpr rfl)

theorem find6_none_of_absent {st : bib_state} {k : ipv6_transport_addr}
    (h : ∀ p ∈ st.table.tree6.toList, (st.mem p).ipv6 ≠ k) : find_by_addr6 st k = none := by
  cases hf : find_by_addr6 st k with
  | none => rfl
  | some q =>
    have hm := rbtree_find_mem hf
    exact absurd ((compare_full6_eq_zero _ _).mp hm.2) (h q hm.1)

theorem find4_none_of_absent {st : bib_state} {k : ipv4_transport_addr}
    (h : ∀ p ∈ st.table.tree4.toList, (st.mem p).ipv4 ≠ k) : find_by_addr4 st k = none := by
  cases hf : find_by_addr4 st k with
  | none => rfl
  | some q =>
    have hm := rbtree_find_mem hf
    exact absurd ((compare_full4_eq_zero _ _).mp hm.2) (h q hm.1)

theorem added_ipv6 (st : bib_state) (e p : Nat) : ((added st e).mem p).ipv6 = (st.mem p).ipv6 := by
  by_cases hp : p = e
  · subst hp; simp [added]
  · simp [added, Function.update_noteq hp]

theorem added_ipv4 (st : bib_state) (e p : Nat) : ((added st e).mem p).ipv4 = (st.mem p).ipv4 := by
  by_cases hp : p = e
  · subst hp; simp [added]
  · simp [added, Function.update_noteq hp]

theorem added_ordered6 {st : bib_state} {e : Nat}
    (h6 : rb_ordered (key6_lt st.mem) st.table.tree6)
    (hf6 : find_by_addr6 st (st.mem e).ipv6 = none) :
    rb_ordered (key6_lt (added st e).mem) (added st e).table.tree6 := by
  rw [key6_lt_congr (added_ipv6 st e)]
  exact rbtree_add_ordered h6 (key_mono6 st.mem _).sign_mono
    (by rw [rbtree_add_fst]; exact hf6) (fun x hx => hx) (fun x hx => key6_lt_of_pos hx)

theorem added_ordered4 {st : bib_state} {e : Nat}
    (h4 : rb_ordered (key4_lt st.mem) st.table.tree4)
    (hf4 : find_by_addr4 st (st.mem e).ipv4 = none) :
    rb_ordered (key4_lt (added st e).mem) (added st e).table.tree4 := by
  rw [key4_lt_congr (added_ipv4 st e)]
  exact rbtree_add_ordered h4 (key_mono4 st.mem _).sign_mono
    (by rw [rbtree_add_fst]; exact hf4) (fun x hx => hx) (fun x hx => key4_lt_of_pos hx)

theorem added_perm6 {st : bib_state} {e : Nat}
    (h6 : rb_ordered (key6_lt st.mem) st.table.tree6)
    (hf6 : find_by_addr6 st (st.mem e).ipv6 = none) :
    (added st e).table.tree6.toList.Perm (e :: st.table.tree6.toList) :=
  rbtree_add_perm h6 (key_mono6 st.mem _).sign_mono (by rw [rbtree_add_fst]; exact hf6)

theorem added_perm4 {st : bib_state} {e : Nat}
    (h4 : rb_ordered (key4_lt st.mem) st.table.tree4)
    (hf4 : find_by_addr4 st (st.mem e).ipv4 = none) :
    (added st e).table.tree4.toList.Perm (e :: st.table.tree4.toList) :=
  rbtree_add_perm h4 (key_mono4 st.mem _).sign_mono (by rw [rbtree_add_fst]; exact hf4)

theorem bibtable_add_ok' {st : bib_state} {e : Nat} (old : Bool)
    (h6 : find_by_addr6 st (st.mem e).ipv6 = none)
    (h4 : find_by_addr4 st (st.mem e).ipv4 = none) :
    bibtable_add st e old = (0, none, added st e) := bibtable_add_ok old h6 h4

/-- Claim C2: the postcondition of a successful `bibtable_add`.  For every
table whose trees are ordered and every entry `e` whose `ipv6` and `ipv4`
keys are both absent from the table, `bibtable_add` returns 0; afterwards
`bibtable_get6` of `e.ipv6` and `bibtable_get4` of `e.ipv4` both return `e`,
`count` has grown by one (as the `__u64` it is: by exactly one below the
largest value), `e.table` points at the table, and every entry that was
indexed is still returned by its own two keys. -/
theorem bibtable_add_success (st : bib_state) (e : Nat) (old : Bool)
    (h6 : rb_ordered (key6_lt st.mem) st.table.tree6)
    (h4 : rb_ordered (key4_lt st.mem) st.table.tree4)
    (hno6 : ∀ p ∈ st.table.tree6.toList, (st.mem p).ipv6 ≠ (st.mem e).ipv6)
    (hno4 : ∀ p ∈ st.table.tree4.toList, (st.mem p).ipv4 ≠ (st.mem e).ipv4) :
    (bibtable_add st e old).1 = 0 ∧
    bibtable_get6 (bibtable_add st e old).2.2 (st.mem e).ipv6 =
      (0, some e, bibentry_get (bibtable_add st e old).2.2 e) ∧
    bibtable_get4 (bibtable_add st e old).2.2 (st.mem e).ipv4 =
      (0, some e, bibentry_get (bibtable_add st e old).2.2 e) ∧
    (bibtable_add st e old).2.2.table.count = (st.table.count + 1) % WORD ∧
    (st.table.count + 1 < WORD →
      (bibtable_add st e old).2.2.table.count = st.table.count + 1) ∧
    ((bibtable_add st e old).2.2.mem e).table = true ∧
    (∀ p ∈ st.table.tree6.toList,
      bibtable_get6 (bibtable_add st e old).2.2 (st.mem p).ipv6 =
        (0, some p, bibentry_get (bibtable_add st e old).2.2 p)) ∧
    (∀ p ∈ st.table.tree4.toList,
      bibtable_get4 (bibtable_add st e old).2.2 (st.mem p).ipv4 =
        (0, some p, bibentry_get (bibtable_add st e old).2.2 p)) := by
  have hf6 := find6_none_of_absent hno6
  have hf4 := find4_none_of_absent hno4
  rw [bibtable_add_ok' old hf6 hf4]
  have ho6 := added_ordered6 h6 hf6
  have ho4 := added_ordered4 h4 hf4
  have hp6 := added_perm6 h6 hf6
  have hp4 := added_perm4 h4 hf4
  have g6 : ∀ p ∈ (added st e).table.tree6.toList,
      bibtable_get6 (added st e) (st.mem p).ipv6 = (0, some p, bibentry_get (added st e) p) := by
    intro p hp
    have := find6_of_mem ho6 hp
    rw [added_ipv6] at this
    simp only [bibtable_get6, this]
  have g4 : ∀ p ∈ (added st e).table.tree4.toList,
      bibtable_get4 (added st e) (st.mem p).ipv4 = (0, some p, bibentry_get (added st e) p) := by
    intro p hp
    have := find4_of_mem ho4 hp
    rw [added_ipv4] at this
    simp only [bibtable_get4, this]
  refine ⟨rfl, g6 e (hp6.mem_iff.mpr (List.mem_cons_self _ _)),
    g4 e (hp4.mem_iff.mpr (List.mem_cons_self _ _)), rfl, ?_, ?_,
    fun p hp => g6 p (hp6.mem_iff.mpr (List.mem_cons_of_mem _ hp)),
    fun p hp => g4 p (hp4.mem_iff.mpr (List.mem_cons_of_mem _ hp))⟩
  · intro hcount
    exact Nat.mod_eq_of_lt hcount
  · simp [added]


/-- Seed scenario 2 as an instance of C1: with entry 1 indexed, adding
([2001:db8::2]#10000, 192.0.2.5#40000) fails, the table still holds entry 1
alone and the lookup of [2001:db8::2]#10000 misses. -/
theorem bibtable_add_failure_atomic_witness :
    (rb_ordered (key6_lt seed_duplicate.mem) seed_duplicate.table.tree6 ∧
     rb_ordered (key4_lt seed_duplicate.mem) seed_duplicate.table.tree4 ∧
     (seed_duplicate.mem 2).table = false ∧
     1 ∈ seed_duplicate.table.tree4.toList ∧
     (seed_duplicate.mem 1).ipv4 = (seed_duplicate.mem 2).ipv4) ∧
    (bibtable_add seed_duplicate 2 true).1 = -EEXIST ∧
    (bibtable_add seed_duplicate 2 true).2.2.table.tree6.toList = [1] ∧
    (bibtable_add seed_duplicate 2 true).2.2.table.count = 1 ∧
    bibtable_get6 (bibtable_add seed_duplicate 2 true).2.2 seed_addr6_2 =
      (-ESRCH, none, (bibtable_add seed_duplicate 2 true).2.2) := by
  have h := bibtable_add_failure_atomic seed_duplicate 2 true (by decide) (by decide)
    (by decide) (Or.inr ⟨1, by decide, by decide⟩)
  exact ⟨⟨by decide, by decide, by decide, by decide, by decide⟩, h.1, h.2.1, h.2.2.2.1,
    h.2.2.2.2.2.1 (by decide)⟩

/-- Seed scenario 1 as an instance of C2: the first entry is added to the
empty table and found again by either key. -/
theorem bibtable_add_success_witness :
    (rb_ordered (key6_lt seed_created.mem) seed_created.table.tree6 ∧
     rb_ordered (key4_lt seed_created.mem) seed_created.table.tree4) ∧
    (bibtable_add seed_created 1 false).1 = 0 ∧
    bibtable_get6 (bibtable_add seed_created 1 false).2.2 seed_addr6_1 =
      (0, some 1, bibentry_get (bibtable_add seed_created 1 false).2.2 1) ∧
    bibtable_get4 (bibtable_add seed_created 1 false).2.2 seed_addr4 =
      (0, some 1, bibentry_get (bibtable_add seed_created 1 false).2.2 1) ∧
    (bibtable_add seed_created 1 false).2.2.table.count = 1 := by
  have h := bibtable_add_success seed_created 1 false (by decide) (by decide)
    (by decide) (by decide)
  exact ⟨⟨by decide, by decide⟩, h.1, h.2.1, h.2.2.1, h.2.2.2.2.1 (by decide)⟩

end Bib

end Jool

namespace Jool

namespace Session

/-! ## Session comparison callbacks -/

theorem ite_lex (p q : Prop) [Decidable p] [Decidable q] (x d : Int) :
    (if (if p then (-1 : Int) else if q then 1 else x) ≠ 0
      then (if p then (-1 : Int) else if q then 1 else x) else d) =
      if p then -1 else if q then 1 else if x ≠ 0 then x else d := by
  by_cases hp : p
  · simp [hp]
  · by_cases hq : q
    · simp [hp, hq]
    · simp [hp, hq]

theorem compare_addr4_lex (a b : ipv4_transport_addr) :
    compare_addr4 a b =
      if a.l3 < b.l3 then -1 else if b.l3 < a.l3 then 1 else (a.l4 : Int) - (b.l4 : Int) := by
  simp only [compare_addr4, ipv4_addr_cmp]
  by_cases h1 : a.l3 < b.l3
  · simp [h1]
  · by_cases h2 : b.l3 < a.l3
    · simp [h1, h2]
    · simp [h1, h2]

theorem compare_addr6_lex (a b : ipv6_transport_addr) :
    compare_addr6 a b =
      if a.l3 < b.l3 then -1 else if b.l3 < a.l3 then 1 else (a.l4 : Int) - (b.l4 : Int) := by
  simp only [compare_addr6, ipv6_addr_cmp]
  by_cases h1 : a.l3 < b.l3
  · simp [h1]
  · by_cases h2 : b.l3 < a.l3
    · simp [h1, h2]
    · simp [h1, h2]

theorem compare_session4_lex (s1 s2 : session_entry) :
    compare_session4 s1 s2 =
      if s1.local4.l3 < s2.local4.l3 then -1 else if s2.local4.l3 < s1.local4.l3 then 1
      else if (s1.local4.l4 : Int) - (s2.local4.l4 : Int) ≠ 0 then
        (s1.local4.l4 : Int) - (s2.local4.l4 : Int)
      else if s1.remote4.l3 < s2.remote4.l3 then -1
      else if s2.remote4.l3 < s1.remote4.l3 then 1
      else (s1.remote4.l4 : Int) - (s2.remote4.l4 : Int) := by
  simp only [compare_session4, compare_addr4_lex, ite_lex]

theorem session_compare_full4_lex (s : session_entry) (t : tuple) :
    compare_full4 s t =
      if s.local4.l3 < t.dst.addr4.l3 then -1 else if t.dst.addr4.l3 < s.local4.l3 then 1
      else if (s.local4.l4 : Int) - (t.dst.addr4.l4 : Int) ≠ 0 then
        (s.local4.l4 : Int) - (t.dst.addr4.l4 : Int)
      else if s.remote4.l3 < t.src.addr4.l3 then -1
      else if t.src.addr4.l3 < s.remote4.l3 then 1
      else (s.remote4.l4 : Int) - (t.src.addr4.l4 : Int) := by
  simp only [compare_full4, compare_addr4_lex, ite_lex]

theorem compare_addrs4_lex (s : session_entry) (t : tuple) :
    compare_addrs4 s t =
      if s.local4.l3 < t.dst.addr4.l3 then -1 else if t.dst.addr4.l3 < s.local4.l3 then 1
      else if (s.local4.l4 : Int) - (t.dst.addr4.l4 : Int) ≠ 0 then
        (s.local4.l4 : Int) - (t.dst.addr4.l4 : Int)
      else if s.remote4.l3 < t.src.addr4.l3 then -1
      else if t.src.addr4.l3 < s.remote4.l3 then 1
      else 0 := by
  simp only [compare_addrs4, compare_addr4_lex, ite_lex, ipv4_addr_cmp]

theorem compare_session6_lex (s1 s2 : session_entry) :
    compare_session6 s1 s2 =
      if s1.local6.l3 < s2.local6.l3 then -1 else if s2.local6.l3 < s1.local6.l3 then 1
      else if (s1.local6.l4 : Int) - (s2.local6.l4 : Int) ≠ 0 then
        (s1.local6.l4 : Int) - (s2.local6.l4 : Int)
      else if s1.remote6.l3 < s2.remote6.l3 then -1
      else if s2.remote6.l3 < s1.remote6.l3 then 1
      else (s1.remote6.l4 : Int) - (s2.remote6.l4 : Int) := by
  simp only [compare_session6, compare_addr6_lex, ite_lex]

theorem session_compare_full6_lex (s : session_entry) (t : tuple) :
    compare_full6 s t =
      if s.local6.l3 < t.dst.addr6.l3 then -1 else if t.dst.addr6.l3 < s.local6.l3 then 1
      else if (s.local6.l4 : Int) - (t.dst.addr6.l4 : Int) ≠ 0 then
        (s.local6.l4 : Int) - (t.dst.addr6.l4 : Int)
      else if s.remote6.l3 < t.src.addr6.l3 then -1
      else if t.src.addr6.l3 < s.remote6.l3 then 1
      else (s.remote6.l4 : Int) - (t.src.addr6.l4 : Int) := by
  simp only [compare_full6, compare_addr6_lex, ite_lex]

theorem addr4_ext_iff (a b : ipv4_transport_addr) : a = b ↔ a.l3 = b.l3 ∧ a.l4 = b.l4 := by
  cases a; cases b; simp

theorem addr6_ext_iff (a b : ipv6_transport_addr) : a = b ↔ a.l3 = b.l3 ∧ a.l4 = b.l4 := by
  cases a; cases b; simp

theorem compare_addrs4_eq_zero (s : session_entry) (t : tuple) :
    compare_addrs4 s t = 0 ↔ s.local4 = t.dst.addr4 ∧ s.remote4.l3 = t.src.addr4.l3 := by
  rw [compare_addrs4_lex, addr4_ext_iff]
  split_ifs <;> constructor <;> intro h <;> first | omega | exact h.elim

theorem session_compare_full4_eq_zero (s : session_entry) (t : tuple) :
    compare_full4 s t = 0 ↔ s.local4 = t.dst.addr4 ∧ s.remote4 = t.src.addr4 := by
  rw [session_compare_full4_lex, addr4_ext_iff, addr4_ext_iff]
  split_ifs <;> constructor <;> intro h <;> first | omega | exact h.elim

theorem session_compare_full6_eq_zero (s : session_entry) (t : tuple) :
    compare_full6 s t = 0 ↔ s.local6 = t.dst.addr6 ∧ s.remote6 = t.src.addr6 := by
  rw [session_compare_full6_lex, addr6_ext_iff, addr6_ext_iff]
  split_ifs <;> constructor <;> intro h <;> first | omega | exact h.elim

theorem compare_session4_eq_zero (s1 s2 : session_entry) :
    compare_session4 s1 s2 = 0 ↔ s1.local4 = s2.local4 ∧ s1.remote4 = s2.remote4 := by
  rw [compare_session4_lex, addr4_ext_iff, addr4_ext_iff]
  split_ifs <;> constructor <;> intro h <;> first | omega | exact h.elim

theorem compare_session6_eq_zero (s1 s2 : session_entry) :
    compare_session6 s1 s2 = 0 ↔ s1.local6 = s2.local6 ∧ s1.remote6 = s2.remote6 := by
  rw [compare_session6_lex, addr6_ext_iff, addr6_ext_iff]
  split_ifs <;> constructor <;> intro h <;> first | omega | exact h.elim

theorem lex_key_mono (A B C A' B' C' : Int)
    (h1 : (A < 0 → B ≤ 0 → C < 0) ∧ (A ≤ 0 → B < 0 → C < 0) ∧ (A = 0 → C = B) ∧
      (A < 0 → 0 ≤ C → 0 < B) ∧ (A ≤ 0 → 0 < C → 0 < B))
    (h2 : (A' < 0 → B' ≤ 0 → C' < 0) ∧ (A' ≤ 0 → B' < 0 → C' < 0) ∧ (A' = 0 → C' = B') ∧
      (A' < 0 → 0 ≤ C' → 0 < B') ∧ (A' ≤ 0 → 0 < C' → 0 < B'))
    (hab : (if A ≠ 0 then A else A') < 0) :
    ((if B ≠ 0 then B else B') ≤ 0 → (if C ≠ 0 then C else C') < 0) ∧
    (0 ≤ (if C ≠ 0 then C else C') → 0 < (if B ≠ 0 then B else B')) := by
  constructor <;> intro h <;> split_ifs at hab h ⊢ <;> omega

theorem lex_sign_mono (A B C A' B' C' : Int)
    (h1 : (A < 0 → B ≤ 0 → C < 0) ∧ (A ≤ 0 → B < 0 → C < 0) ∧ (A = 0 → C = B) ∧
      (A < 0 → 0 ≤ C → 0 < B) ∧ (A ≤ 0 → 0 < C → 0 < B))
    (h2 : (A' < 0 → B' < 0 → C' < 0) ∧ (A' < 0 → 0 < C' → 0 < B'))
    (hab : (if A ≠ 0 then A else A') < 0) :
    ((if B ≠ 0 then B else B') < 0 → (if C ≠ 0 then C else C') < 0) ∧
    (0 < (if C ≠ 0 then C else C') → 0 < (if B ≠ 0 then B else B')) := by
  constructor <;> intro h <;> split_ifs at hab h ⊢ <;> omega

theorem compare_addr4_rel (a b k : ipv4_transport_addr) :
    (compare_addr4 a b < 0 → compare_addr4 b k ≤ 0 → compare_addr4 a k < 0) ∧
    (compare_addr4 a b ≤ 0 → compare_addr4 b k < 0 → compare_addr4 a k < 0) ∧
    (compare_addr4 a b = 0 → compare_addr4 a k = compare_addr4 b k) ∧
    (compare_addr4 a b < 0 → 0 ≤ compare_addr4 a k → 0 < compare_addr4 b k) ∧
    (compare_addr4 a b ≤ 0 → 0 < compare_addr4 a k → 0 < compare_addr4 b k) := by
  simp only [compare_addr4_lex]
  refine ⟨?_, ?_, ?_, ?_, ?_⟩
  · intro h1 h2; split_ifs at h1 h2 ⊢ <;> omega
  · intro h1 h2; split_ifs at h1 h2 ⊢ <;> omega
  · intro h1; split_ifs at h1 ⊢ <;> omega
  · intro h1 h2; split_ifs at h1 h2 ⊢ <;> omega
  · intro h1 h2; split_ifs at h1 h2 ⊢ <;> omega

theorem compare_addr6_rel (a b k : ipv6_transport_addr) :
    (compare_addr6 a b < 0 → compare_addr6 b k ≤ 0 → compare_addr6 a k < 0) ∧
    (compare_addr6 a b ≤ 0 → compare_addr6 b k < 0 → compare_addr6 a k < 0) ∧
    (compare_addr6 a b = 0 → compare_addr6 a k = compare_addr6 b k) ∧
    (compare_addr6 a b < 0 → 0 ≤ compare_addr6 a k → 0 < compare_addr6 b k) ∧
    (compare_addr6 a b ≤ 0 → 0 < compare_addr6 a k → 0 < compare_addr6 b k) := by
  simp only [compare_addr6_lex]
  refine ⟨?_, ?_, ?_, ?_, ?_⟩
  · intro h1 h2; split_ifs at h1 h2 ⊢ <;> omega
  · intro h1 h2; split_ifs at h1 h2 ⊢ <;> omega
  · intro h1; split_ifs at h1 ⊢ <;> omega
  · intro h1 h2; split_ifs at h1 h2 ⊢ <;> omega
  · intro h1 h2; split_ifs at h1 h2 ⊢ <;> omega

theorem compare_l3_rel (a b : ipv4_transport_addr) (k : Nat) :
    (compare_addr4 a b < 0 → ipv4_addr_cmp b.l3 k < 0 → ipv4_addr_cmp a.l3 k < 0) ∧
    (compare_addr4 a b < 0 → 0 < ipv4_addr_cmp a.l3 k → 0 < ipv4_addr_cmp b.l3 k) := by
  simp only [compare_addr4_lex, ipv4_addr_cmp]
  refine ⟨?_, ?_⟩ <;> intro h1 h2 <;> split_ifs at h1 h2 ⊢ <;> omega

theorem sign_mono_addrs4 (mem : Nat → session_entry) (t : tuple) :
    sign_mono (key4_lt mem) (fun p => compare_addrs4 (mem p) t) := fun a b hab =>
  lex_sign_mono _ _ _ _ _ _ (compare_addr4_rel (mem a).local4 (mem b).local4 t.dst.addr4)
    (compare_l3_rel (mem a).remote4 (mem b).remote4 t.src.addr4.l3) hab

theorem key_mono_full4 (mem : Nat → session_entry) (t : tuple) :
    key_mono (key4_lt mem) (fun p => compare_full4 (mem p) t) := fun a b hab =>
  lex_key_mono _ _ _ _ _ _ (compare_addr4_rel (mem a).local4 (mem b).local4 t.dst.addr4)
    (compare_addr4_rel (mem a).remote4 (mem b).remote4 t.src.addr4) hab

theorem key_mono_full6 (mem : Nat → session_entry) (t : tuple) :
    key_mono (key6_lt mem) (fun p => compare_full6 (mem p) t) := fun a b hab =>
  lex_key_mono _ _ _ _ _ _ (compare_addr6_rel (mem a).local6 (mem b).local6 t.dst.addr6)
    (compare_addr6_rel (mem a).remote6 (mem b).remote6 t.src.addr6) hab

theorem key_mono_session4 (mem : Nat → session_entry) (s : session_entry) :
    key_mono (key4_lt mem) (fun p => compare_session4 (mem p) s) := fun a b hab =>
  lex_key_mono _ _ _ _ _ _ (compare_addr4_rel (mem a).local4 (mem b).local4 s.local4)
    (compare_addr4_rel (mem a).remote4 (mem b).remote4 s.remote4) hab

theorem key_mono_session6 (mem : Nat → session_entry) (s : session_entry) :
    key_mono (key6_lt mem) (fun p => compare_session6 (mem p) s) := fun a b hab =>
  lex_key_mono _ _ _ _ _ _ (compare_addr6_rel (mem a).local6 (mem b).local6 s.local6)
    (compare_addr6_rel (mem a).remote6 (mem b).remote6 s.remote6) hab

theorem compare_addr4_antisymm (a b : ipv4_transport_addr) :
    0 < compare_addr4 a b → compare_addr4 b a < 0 := by
  simp only [compare_addr4_lex]
  intro h; split_ifs at h ⊢ <;> omega

theorem compare_addr4_zero_symm (a b : ipv4_transport_addr) :
    compare_addr4 a b = 0 → compare_addr4 b a = 0 := by
  simp only [compare_addr4_lex]
  intro h; split_ifs at h ⊢ <;> omega

theorem compare_addr6_antisymm (a b : ipv6_transport_addr) :
    0 < compare_addr6 a b → compare_addr6 b a < 0 := by
  simp only [compare_addr6_lex]
  intro h; split_ifs at h ⊢ <;> omega

theorem compare_addr6_zero_symm (a b : ipv6_transport_addr) :
    compare_addr6 a b = 0 → compare_addr6 b a = 0 := by
  simp only [compare_addr6_lex]
  intro h; split_ifs at h ⊢ <;> omega

theorem lex_antisymm (A A' B B' : Int) (h1 : 0 < A → B < 0) (h2 : A = 0 → B = 0)
    (h3 : 0 < A' → B' < 0) (h : 0 < (if A ≠ 0 then A else A')) :
    (if B ≠ 0 then B else B') < 0 := by
  split_ifs at h ⊢ <;> omega

theorem session_key4_lt_of_pos {mem : Nat → session_entry} {x e : Nat}
    (h : 0 < compare_session4 (mem x) (mem e)) : key4_lt mem e x :=
  lex_antisymm _ _ _ _ (compare_addr4_antisymm _ _) (compare_addr4_zero_symm _ _)
    (compare_addr4_antisymm _ _) h

theorem session_key6_lt_of_pos {mem : Nat → session_entry} {x e : Nat}
    (h : 0 < compare_session6 (mem x) (mem e)) : key6_lt mem e x :=
  lex_antisymm _ _ _ _ (compare_addr6_antisymm _ _) (compare_addr6_zero_symm _ _)
    (compare_addr6_antisymm _ _) h

end Session

end Jool

namespace Jool

namespace Session

/-! ## Session table: lookups and insertion -/

theorem timer_of_set (t : session_table) (e : expirer_id) (x : expire_timer) :
    timer_of (set_timer_of t e x) e = x := by
  cases e <;> rfl

theorem timer_of_set_other (t : session_table) (e : expirer_id) (x : expire_timer) :
    timer_of (set_timer_of t e x) (other e) = timer_of t (other e) := by
  cases e <;> rfl

theorem set_timer_of_trees (t : session_table) (e : expirer_id) (x : expire_timer) :
    (set_timer_of t e x).tree6 = t.tree6 ∧ (set_timer_of t e x).tree4 = t.tree4 ∧
    (set_timer_of t e x).count = t.count := by
  cases e <;> exact ⟨rfl, rfl, rfl⟩

theorem compare_session6_congr {b b' : session_entry} (h1 : b'.local6 = b.local6)
    (h2 : b'.remote6 = b.remote6) (s : session_entry) :
    compare_session6 b' s = compare_session6 b s := by
  simp only [compare_session6, h1, h2]

theorem compare_session4_congr {b b' : session_entry} (h1 : b'.local4 = b.local4)
    (h2 : b'.remote4 = b.remote4) (s : session_entry) :
    compare_session4 b' s = compare_session4 b s := by
  simp only [compare_session4, h1, h2]

theorem compare_session6_congr_right {b b' : session_entry} (h1 : b'.local6 = b.local6)
    (h2 : b'.remote6 = b.remote6) (s : session_entry) :
    compare_session6 s b' = compare_session6 s b := by
  simp only [compare_session6, h1, h2]

theorem compare_session4_congr_right {b b' : session_entry} (h1 : b'.local4 = b.local4)
    (h2 : b'.remote4 = b.remote4) (s : session_entry) :
    compare_session4 s b' = compare_session4 s b := by
  simp only [compare_session4, h1, h2]

theorem session_compare_full6_congr {b b' : session_entry} (h1 : b'.local6 = b.local6)
    (h2 : b'.remote6 = b.remote6) (t : tuple) :
    compare_full6 b' t = compare_full6 b t := by
  simp only [compare_full6, h1, h2]

theorem session_compare_full4_congr {b b' : session_entry} (h1 : b'.local4 = b.local4)
    (h2 : b'.remote4 = b.remote4) (t : tuple) :
    compare_full4 b' t = compare_full4 b t := by
  simp only [compare_full4, h1, h2]

/-- Two memories hold the same keys. -/
theorem session_key6_lt_congr {mem mem' : Nat → session_entry}
    (h : ∀ p, (mem' p).local6 = (mem p).local6 ∧ (mem' p).remote6 = (mem p).remote6) :
    key6_lt mem' = key6_lt mem := by
  funext a b
  simp only [key6_lt, compare_session6_congr (h a).1 (h a).2,
    compare_session6_congr_right (h b).1 (h b).2]

theorem session_key4_lt_congr {mem mem' : Nat → session_entry}
    (h : ∀ p, (mem' p).local4 = (mem p).local4 ∧ (mem' p).remote4 = (mem p).remote4) :
    key4_lt mem' = key4_lt mem := by
  funext a b
  simp only [key4_lt, compare_session4_congr (h a).1 (h a).2,
    compare_session4_congr_right (h b).1 (h b).2]

theorem session_add6_some {st : session_state} {s c : Nat}
    (h : rbtree_find (fun p => compare_session6 (st.mem p) (st.mem s)) st.table.tree6 = some c) :
    add6 st s = (pointer_to_int (some c), st) := by
  unfold add6
  rw [rbtree_add_fst, h]

theorem session_add6_none {st : session_state} {s : Nat}
    (h : rbtree_find (fun p => compare_session6 (st.mem p) (st.mem s)) st.table.tree6 = none) :
    add6 st s = (0, linked6 st s) := by
  unfold add6 linked6
  rw [rbtree_add_fst, h]
  rfl

theorem session_add4_some {st : session_state} {s c : Nat}
    (h : rbtree_find (fun p => compare_session4 (st.mem p) (st.mem s)) st.table.tree4 = some c) :
    add4 st s = (pointer_to_int (some c), st) := by
  unfold add4
  rw [rbtree_add_fst, h]

theorem session_add4_none {st : session_state} {s : Nat}
    (h : rbtree_find (fun p => compare_session4 (st.mem p) (st.mem s)) st.table.tree4 = none) :
    add4 st s = (0, linked4 st s) := by
  unfold add4 linked4
  rw [rbtree_add_fst, h]
  rfl

theorem linked6_keys4 (st : session_state) (s p : Nat) :
    ((linked6 st s).mem p).local4 = (st.mem p).local4 ∧
    ((linked6 st s).mem p).remote4 = (st.mem p).remote4 := by
  by_cases hp : p = s
  · subst hp; simp [linked6]
  · simp [linked6, Function.update_noteq hp]

theorem session_find4_linked6 (st : session_state) (s : Nat) :
    rbtree_find (fun p => compare_session4 ((linked6 st s).mem p) ((linked6 st s).mem s))
        (linked6 st s).table.tree4 =
      rbtree_find (fun p => compare_session4 (st.mem p) (st.mem s)) st.table.tree4 := by
  have : (fun p => compare_session4 ((linked6 st s).mem p) ((linked6 st s).mem s)) =
      fun p => compare_session4 (st.mem p) (st.mem s) := by
    funext p
    rw [compare_session4_congr (linked6_keys4 st s p).1 (linked6_keys4 st s p).2,
      compare_session4_congr_right (linked6_keys4 st s s).1 (linked6_keys4 st s s).2]
  rw [this]
  rfl

theorem sessiontable_add_pktqueue (k : kernel) (st : session_state) (s : Nat) (est : Bool)
    {pq : Int} (h : pq ≠ 0) : sessiontable_add k st s est pq = (pq, st) := by
  simp only [sessiontable_add, if_pos h]

theorem sessiontable_add_v6 (k : kernel) {st : session_state} {s c : Nat} (est : Bool)
    (h : rbtree_find (fun p => compare_session6 (st.mem p) (st.mem s)) st.table.tree6 = some c)
    (hc : pointer_to_int (some c) ≠ 0) :
    sessiontable_add k st s est 0 = (pointer_to_int (some c), st) := by
  simp only [sessiontable_add, session_add6_some h]
  simp [hc]

theorem sessiontable_add_v4 (k : kernel) {st : session_state} {s c : Nat} (est : Bool)
    (h6 : rbtree_find (fun p => compare_session6 (st.mem p) (st.mem s)) st.table.tree6 = none)
    (h4 : rbtree_find (fun p => compare_session4 (st.mem p) (st.mem s)) st.table.tree4 = some c)
    (hc : pointer_to_int (some c) ≠ 0) :
    sessiontable_add k st s est 0 =
      (pointer_to_int (some c), { linked6 st s with table := { (linked6 st s).table with
          tree6 := rb_erase s (linked6 st s).table.tree6 } }) := by
  have h4' := (session_find4_linked6 st s).trans h4
  simp only [sessiontable_add, session_add6_none h6, session_add4_some h4']
  simp [hc]

theorem sessiontable_add_ok (k : kernel) {st : session_state} {s : Nat} (est : Bool)
    (h6 : rbtree_find (fun p => compare_session6 (st.mem p) (st.mem s)) st.table.tree6 = none)
    (h4 : rbtree_find (fun p => compare_session4 (st.mem p) (st.mem s)) st.table.tree4 = none) :
    sessiontable_add k st s est 0 =
      (0, commit_timer k
        { (session_get (set_timer k (linked4 (linked6 st s) s) s (chosen est)).2 s) with
          table := { (session_get (set_timer k (linked4 (linked6 st s) s) s (chosen est)).2 s).table
            with count := ((session_get (set_timer k (linked4 (linked6 st s) s) s
              (chosen est)).2 s).table.count + 1) % WORD } }
        (set_timer k (linked4 (linked6 st s) s) s (chosen est)).1) := by
  have h4' := (session_find4_linked6 st s).trans h4
  simp only [sessiontable_add, session_add6_none h6, session_add4_none h4', chosen]
  simp

theorem session_not_mem_of_find6_none {st : session_state} {s : Nat}
    (ho : rb_ordered (key6_lt st.mem) st.table.tree6)
    (h : rbtree_find (fun p => compare_session6 (st.mem p) (st.mem s)) st.table.tree6 = none) :
    s ∉ st.table.tree6.toList := fun hm =>
  rbtree_find_none ho (key_mono_session6 st.mem _).sign_mono h s hm
    ((compare_session6_eq_zero _ _).mpr ⟨rfl, rfl⟩)

/-- Claim C4: `sessiontable_allow` is endpoint-independent.  For every
session table whose `tree4` is ordered by `(local4, remote4)` and every
tuple, `sessiontable_allow` returns true iff some indexed session has
`local4` equal to the destination (address and port) and the address of
`remote4` equal to the source address; the source port of the tuple does not
change the answer.  The search with `compare_addrs4`, which ignores the
remote port, never misses such a session in a tree ordered by the full
key. -/
theorem sessiontable_allow_endpoint_independent (st : session_state) (t : tuple)
    (h4 : rb_ordered (key4_lt st.mem) st.table.tree4) :
    (sessiontable_allow st t = true ↔
      ∃ s ∈ st.table.tree4.toList,
        (st.mem s).local4 = t.dst.addr4 ∧ (st.mem s).remote4.l3 = t.src.addr4.l3) ∧
    (∀ port : Nat,
      sessiontable_allow st
          { t with src := { t.src with addr4 := { t.src.addr4 with l4 := port } } } =
        sessiontable_allow st t) := by
  constructor
  · unfold sessiontable_allow
    rw [rbtree_find_isSome_iff h4 (sign_mono_addrs4 st.mem t)]
    simp only [compare_addrs4_eq_zero]
  · intro port
    rfl

/-- Seed scenario 6 as an instance of C4: with the session
(192.0.2.5#40000, 198.51.100.7#33333), source 198.51.100.7#55555 is allowed
and source 198.51.100.8#33333 is not. -/
theorem sessiontable_allow_endpoint_independent_witness :
    rb_ordered (key4_lt seed_one.mem) seed_one.table.tree4 ∧
    (seed_one.mem 1).local4 = ⟨0xC0000205, 40000⟩ ∧
    (seed_one.mem 1).remote4 = ⟨0xC6336407, 33333⟩ ∧
    sessiontable_allow seed_one (tuple4 ⟨0xC0000205, 40000⟩ ⟨0xC6336407, 55555⟩) = true ∧
    sessiontable_allow seed_one (tuple4 ⟨0xC0000205, 40000⟩ ⟨0xC6336408, 33333⟩) = false := by
  have h := sessiontable_allow_endpoint_independent seed_one
    (tuple4 ⟨0xC0000205, 40000⟩ ⟨0xC6336407, 55555⟩) (by decide)
  exact ⟨by decide, by decide, by decide, h.1.mpr ⟨1, by decide, by decide, by decide⟩,
    by decide⟩

theorem mod_timer_frame (st : session_state) (e : expirer_id) (x : Nat) :
    (mod_timer st e x).mem = st.mem ∧ (mod_timer st e x).table.tree6 = st.table.tree6 ∧
    (mod_timer st e x).table.tree4 = st.table.tree4 ∧
    (mod_timer st e x).table.count = st.table.count ∧
    ∀ e', (timer_of (mod_timer st e x).table e').sessions = (timer_of st.table e').sessions := by
  refine ⟨rfl, ?_, ?_, ?_, ?_⟩
  · cases e <;> rfl
  · cases e <;> rfl
  · cases e <;> rfl
  · intro e'; cases e <;> cases e' <;> rfl

theorem commit_timer_frame (k : kernel) (st : session_state) (e : Option expirer_id) :
    (commit_timer k st e).mem = st.mem ∧ (commit_timer k st e).table.tree6 = st.table.tree6 ∧
    (commit_timer k st e).table.tree4 = st.table.tree4 ∧
    (commit_timer k st e).table.count = st.table.count ∧
    ∀ e', (timer_of (commit_timer k st e).table e').sessions =
      (timer_of st.table e').sessions := by
  cases e with
  | none => exact ⟨rfl, rfl, rfl, rfl, fun _ => rfl⟩
  | some e =>
    simp only [commit_timer, schedule_timer]
    split
    · exact mod_timer_frame _ _ _
    · exact mod_timer_frame _ _ _

theorem set_timer_mem (k : kernel) (st : session_state) (s : Nat) (e : expirer_id) :
    (set_timer k st s e).2.mem =
      Function.update st.mem s { st.mem s with update_time := k.jiffies, expirer := some e } := by
  simp only [set_timer, store, list_add_tail, list_del, Function.update_idem]

theorem set_timer_trees (k : kernel) (st : session_state) (s : Nat) (e : expirer_id) :
    (set_timer k st s e).2.table.tree6 = st.table.tree6 ∧
    (set_timer k st s e).2.table.tree4 = st.table.tree4 ∧
    (set_timer k st s e).2.table.count = st.table.count := by
  cases e <;> exact ⟨rfl, rfl, rfl⟩

theorem set_timer_target (k : kernel) (st : session_state) (s : Nat) (e : expirer_id) :
    (timer_of (set_timer k st s e).2.table e).sessions =
      (timer_of st.table e).sessions.filter (fun x => x != s) ++ [s] := by
  cases e <;> rfl

theorem set_timer_other (k : kernel) (st : session_state) (s : Nat) (e : expirer_id) :
    (timer_of (set_timer k st s e).2.table (other e)).sessions =
      (timer_of st.table (other e)).sessions.filter (fun x => x != s) := by
  cases e <;> rfl

/-- Away from addresses whose low 32 bits are zero, a failing
`sessiontable_add` changes nothing: when `pktqueue_remove` fails, or an
indexed session has the (local6, remote6) or the (local4, remote4) of the
new one, and the address of every indexed session converts to a nonzero
`int`, the call returns a nonzero value (the error of `pktqueue_remove`, or
the address of the colliding session as an `int`), both trees hold the
sessions they held, in the same order, both expirers and `count` are as
they were, and every session keeps its reference count, its expirer and
its `update_time`. -/
theorem sessiontable_add_refused (k : kernel) (st : session_state) (s : Nat)
    (is_established : Bool) (pktqueue_error : Int)
    (h6 : rb_ordered (key6_lt st.mem) st.table.tree6)
    (h4 : rb_ordered (key4_lt st.mem) st.table.tree4)
    (hptr6 : ∀ p ∈ st.table.tree6.toList, pointer_to_int (some p) ≠ 0)
    (hptr4 : ∀ p ∈ st.table.tree4.toList, pointer_to_int (some p) ≠ 0)
    (hfail : pktqueue_error ≠ 0 ∨
      (∃ p ∈ st.table.tree6.toList,
        (st.mem p).local6 = (st.mem s).local6 ∧ (st.mem p).remote6 = (st.mem s).remote6) ∨
      (∃ p ∈ st.table.tree4.toList,
        (st.mem p).local4 = (st.mem s).local4 ∧ (st.mem p).remote4 = (st.mem s).remote4)) :
    (sessiontable_add k st s is_established pktqueue_error).1 ≠ 0 ∧
    (sessiontable_add k st s is_established pktqueue_error).2.table.tree6.toList =
      st.table.tree6.toList ∧
    (sessiontable_add k st s is_established pktqueue_error).2.table.tree4.toList =
      st.table.tree4.toList ∧
    (sessiontable_add k st s is_established pktqueue_error).2.table.est_timer =
      st.table.est_timer ∧
    (sessiontable_add k st s is_established pktqueue_error).2.table.trans_timer =
      st.table.trans_timer ∧
    (sessiontable_add k st s is_established pktqueue_error).2.table.count = st.table.count ∧
    (∀ q,
      ((sessiontable_add k st s is_established pktqueue_error).2.mem q).refcounter =
        (st.mem q).refcounter ∧
      ((sessiontable_add k st s is_established pktqueue_error).2.mem q).expirer =
        (st.mem q).expirer ∧
      ((sessiontable_add k st s is_established pktqueue_error).2.mem q).update_time =
        (st.mem q).update_time) := by
  by_cases hpq : pktqueue_error = 0
  · subst hpq
    cases hf6 : rbtree_find (fun p => compare_session6 (st.mem p) (st.mem s)) st.table.tree6 with
    | some c =>
      have hc := hptr6 c (rbtree_find_mem hf6).1
      rw [sessiontable_add_v6 k is_established hf6 hc]
      exact ⟨hc, rfl, rfl, rfl, rfl, rfl, fun q => ⟨rfl, rfl, rfl⟩⟩
    | none =>
      have hne := session_not_mem_of_find6_none h6 hf6
      cases hf4 : rbtree_find (fun p => compare_session4 (st.mem p) (st.mem s))
          st.table.tree4 with
      | none =>
        exfalso
        rcases hfail with h | ⟨p, hp, hk⟩ | ⟨p, hp, hk⟩
        · exact h rfl
        · exact rbtree_find_none h6 (key_mono_session6 st.mem _).sign_mono hf6 p hp
            ((compare_session6_eq_zero _ _).mpr hk)
        · exact rbtree_find_none h4 (key_mono_session4 st.mem _).sign_mono hf4 p hp
            ((compare_session4_eq_zero _ _).mpr hk)
      | some c =>
        have hc := hptr4 c (rbtree_find_mem hf4).1
        have hroll : rb_erase s (linked6 st s).table.tree6 = st.table.tree6 := by
          simp only [linked6]
          exact rb_erase_add hne (by rw [rbtree_add_fst]; exact hf6)
        rw [sessiontable_add_v4 k is_established hf6 hf4 hc, hroll]
        refine ⟨hc, rfl, rfl, rfl, rfl, rfl, fun q => ?_⟩
        by_cases hq : q = s
        · subst hq; simp [linked6]
        · simp [linked6, Function.update_noteq hq]
  · rw [sessiontable_add_pktqueue k st s is_established hpq]
    exact ⟨hpq, rfl, rfl, rfl, rfl, rfl, fun q => ⟨rfl, rfl, rfl⟩⟩

/-- An instance of `sessiontable_add_refused`: a second session with the
IPv4 pair of the session indexed at address 1 is refused with the value 1,
that address as an `int`, and the table is as before. -/
theorem sessiontable_add_refused_instance :
    (sessiontable_add (at_time 3) seed_duplicate 2 true 0).1 ≠ 0 ∧
    (sessiontable_add (at_time 3) seed_duplicate 2 true 0).1 = 1 ∧
    (sessiontable_add (at_time 3) seed_duplicate 2 true 0).2.table.tree6.toList = [1] ∧
    (sessiontable_add (at_time 3) seed_duplicate 2 true 0).2.table.tree4.toList = [1] ∧
    (sessiontable_add (at_time 3) seed_duplicate 2 true 0).2.table.est_timer.sessions = [1] ∧
    (sessiontable_add (at_time 3) seed_duplicate 2 true 0).2.table.count = 1 := by
  have h := sessiontable_add_refused (at_time 3) seed_duplicate 2 true 0
    (by decide) (by decide) (by decide) (by decide)
    (Or.inr (Or.inr ⟨1, by decide, by decide, by decide⟩))
  exact ⟨h.1, by decide, h.2.1, h.2.2.1, by rw [h.2.2.2.1]; decide, h.2.2.2.2.2.1⟩

/-- Claim C9 fails when the colliding session lies at an address whose low
32 bits are zero.  `add6` and `add4` return the pointer of `rbtree_add` as
an `int`, so the session indexed at address 2^32 is reported as 0 and
`sessiontable_add` takes the collision for a success.  A new session with
both key pairs of the indexed one is linked in no tree, yet the call
returns 0, stamps it, appends it to the established list, takes a reference
and increments `count`; with the IPv4 pair alone the insertion into `tree6`
is not rolled back; with the IPv6 pair alone the session is linked in
`tree4` only. -/
theorem sessiontable_add_collision_unnoticed :
    (valid_ptr (2 ^ 32) ∧ pointer_to_int (some (2 ^ 32)) = 0) ∧
    (seed_aligned.table.tree6.toList = [2 ^ 32] ∧ seed_aligned.table.tree4.toList = [2 ^ 32] ∧
      seed_aligned.table.est_timer.sessions = [2 ^ 32] ∧ seed_aligned.table.count = 1) ∧
    (rb_ordered (key6_lt seed_aligned_twin.mem) seed_aligned_twin.table.tree6 ∧
      rb_ordered (key4_lt seed_aligned_twin.mem) seed_aligned_twin.table.tree4 ∧
      (seed_aligned_twin.mem (2 ^ 32)).local6 = (seed_aligned_twin.mem 2).local6 ∧
      (seed_aligned_twin.mem (2 ^ 32)).remote6 = (seed_aligned_twin.mem 2).remote6 ∧
      (seed_aligned_twin.mem (2 ^ 32)).local4 = (seed_aligned_twin.mem 2).local4 ∧
      (seed_aligned_twin.mem (2 ^ 32)).remote4 = (seed_aligned_twin.mem 2).remote4) ∧
    ((seed_aligned_twin.mem 2).refcounter = 1 ∧ (seed_aligned_twin.mem 2).expirer = none ∧
      (seed_aligned_twin.mem 2).update_time = 0) ∧
    ((sessiontable_add (at_time 3) seed_aligned_twin 2 true 0).1 = 0 ∧
      (sessiontable_add (at_time 3) seed_aligned_twin 2 true 0).2.table.tree6.toList =
        [2 ^ 32] ∧
      (sessiontable_add (at_time 3) seed_aligned_twin 2 true 0).2.table.tree4.toList =
        [2 ^ 32] ∧
      (sessiontable_add (at_time 3) seed_aligned_twin 2 true 0).2.table.est_timer.sessions =
        [2 ^ 32, 2] ∧
      (sessiontable_add (at_time 3) seed_aligned_twin 2 true 0).2.table.count = 2) ∧
    (((sessiontable_add (at_time 3) seed_aligned_twin 2 true 0).2.mem 2).refcounter = 2 ∧
      ((sessiontable_add (at_time 3) seed_aligned_twin 2 true 0).2.mem 2).expirer =
        some expirer_id.est_timer ∧
      ((sessiontable_add (at_time 3) seed_aligned_twin 2 true 0).2.mem 2).update_time = 3) ∧
    ((seed_aligned_same4.mem (2 ^ 32)).local4 = (seed_aligned_same4.mem 2).local4 ∧
      (seed_aligned_same4.mem (2 ^ 32)).remote4 = (seed_aligned_same4.mem 2).remote4 ∧
      (sessiontable_add (at_time 3) seed_aligned_same4 2 true 0).1 = 0 ∧
      (sessiontable_add (at_time 3) seed_aligned_same4 2 true 0).2.table.tree6.toList =
        [2 ^ 32, 2] ∧
      (sessiontable_add (at_time 3) seed_aligned_same4 2 true 0).2.table.tree4.toList =
        [2 ^ 32] ∧
      (sessiontable_add (at_time 3) seed_aligned_same4 2 true 0).2.table.count = 2) ∧
    ((seed_aligned_same6.mem (2 ^ 32)).local6 = (seed_aligned_same6.mem 2).local6 ∧
      (seed_aligned_same6.mem (2 ^ 32)).remote6 = (seed_aligned_same6.mem 2).remote6 ∧
      (sessiontable_add (at_time 3) seed_aligned_same6 2 true 0).1 = 0 ∧
      (sessiontable_add (at_time 3) seed_aligned_same6 2 true 0).2.table.tree6.toList =
        [2 ^ 32] ∧
      (sessiontable_add (at_time 3) seed_aligned_same6 2 true 0).2.table.tree4.toList =
        [2 ^ 32, 2] ∧
      (sessiontable_add (at_time 3) seed_aligned_same6 2 true 0).2.table.count = 2) := by
  decide

/-- The state a successful `sessiontable_add` leaves. -/
theorem sessiontable_add_ok_mem (k : kernel) {st : session_state} {s : Nat} (est : Bool)
    (h6 : rbtree_find (fun p => compare_session6 (st.mem p) (st.mem s)) st.table.tree6 = none)
    (h4 : rbtree_find (fun p => compare_session4 (st.mem p) (st.mem s)) st.table.tree4 = none) :
    (sessiontable_add k st s est 0).2.mem =
      Function.update st.mem s
        { st.mem s with tree6_hook := true, tree4_hook := true, update_time := k.jiffies,
                        expirer := some (chosen est),
                        refcounter := (st.mem s).refcounter + 1 } := by
  rw [sessiontable_add_ok k est h6 h4]
  simp only [(commit_timer_frame _ _ _).1, session_get, store, set_timer_mem, linked4, linked6,
    Function.update_idem, Function.update_same]

theorem sessiontable_add_ok_table (k : kernel) {st : session_state} {s : Nat} (est : Bool)
    (h6 : rbtree_find (fun p => compare_session6 (st.mem p) (st.mem s)) st.table.tree6 = none)
    (h4 : rbtree_find (fun p => compare_session4 (st.mem p) (st.mem s)) st.table.tree4 = none) :
    (sessiontable_add k st s est 0).2.table.tree6 =
      (rbtree_add (fun p => compare_session6 (st.mem p) (st.mem s)) s st.table.tree6).2 ∧
    (sessiontable_add k st s est 0).2.table.tree4 =
      (rbtree_add (fun p => compare_session4 (st.mem p) (st.mem s)) s st.table.tree4).2 ∧
    (sessiontable_add k st s est 0).2.table.count = (st.table.count + 1) % WORD ∧
    (timer_of (sessiontable_add k st s est 0).2.table (chosen est)).sessions =
      (timer_of st.table (chosen est)).sessions.filter (fun x => x != s) ++ [s] ∧
    (timer_of (sessiontable_add k st s est 0).2.table (other (chosen est))).sessions =
      (timer_of st.table (other (chosen est))).sessions.filter (fun x => x != s) := by
  rw [sessiontable_add_ok k est h6 h4]
  have hc : (fun p => compare_session4 ((linked6 st s).mem p) ((linked6 st s).mem s)) =
      fun p => compare_session4 (st.mem p) (st.mem s) := by
    funext p
    rw [compare_session4_congr (linked6_keys4 st s p).1 (linked6_keys4 st s p).2,
      compare_session4_congr_right (linked6_keys4 st s s).1 (linked6_keys4 st s s).2]
  refine ⟨?_, ?_, ?_, ?_, ?_⟩
  · rw [(commit_timer_frame _ _ _).2.1]
    show (set_timer k (linked4 (linked6 st s) s) s (chosen est)).2.table.tree6 = _
    rw [(set_timer_trees _ _ _ _).1]
    rfl
  · rw [(commit_timer_frame _ _ _).2.2.1]
    show (set_timer k (linked4 (linked6 st s) s) s (chosen est)).2.table.tree4 = _
    rw [(set_timer_trees _ _ _ _).2.1]
    simp only [linked4, hc]
    rfl
  · rw [(commit_timer_frame _ _ _).2.2.2.1]
    show ((set_timer k (linked4 (linked6 st s) s) s (chosen est)).2.table.count + 1) % WORD = _
    rw [(set_timer_trees _ _ _ _).2.2]
    rfl
  · rw [(commit_timer_frame _ _ _).2.2.2.2]
    cases est <;> rfl
  · rw [(commit_timer_frame _ _ _).2.2.2.2]
    cases est <;> rfl

theorem find_none_of_absent6 {st : session_state} {s : Nat}
    (h : ∀ p ∈ st.table.tree6.toList,
      ¬((st.mem p).local6 = (st.mem s).local6 ∧ (st.mem p).remote6 = (st.mem s).remote6)) :
    rbtree_find (fun p => compare_session6 (st.mem p) (st.mem s)) st.table.tree6 = none := by
  cases hf : rbtree_find (fun p => compare_session6 (st.mem p) (st.mem s)) st.table.tree6 with
  | none => rfl
  | some q =>
    have hm := rbtree_find_mem hf
    exact absurd ((compare_session6_eq_zero _ _).mp hm.2) (h q hm.1)

theorem find_none_of_absent4 {st : session_state} {s : Nat}
    (h : ∀ p ∈ st.table.tree4.toList,
      ¬((st.mem p).local4 = (st.mem s).local4 ∧ (st.mem p).remote4 = (st.mem s).remote4)) :
    rbtree_find (fun p => compare_session4 (st.mem p) (st.mem s)) st.table.tree4 = none := by
  cases hf : rbtree_find (fun p => compare_session4 (st.mem p) (st.mem s)) st.table.tree4 with
  | none => rfl
  | some q =>
    have hm := rbtree_find_mem hf
    exact absurd ((compare_session4_eq_zero _ _).mp hm.2) (h q hm.1)

theorem update_keys (mem : Nat → session_entry) (s : Nat) (v : session_entry)
    (h6 : v.local6 = (mem s).local6 ∧ v.remote6 = (mem s).remote6)
    (h4 : v.local4 = (mem s).local4 ∧ v.remote4 = (mem s).remote4) (p : Nat) :
    ((Function.update mem s v p).local6 = (mem p).local6 ∧
      (Function.update mem s v p).remote6 = (mem p).remote6) ∧
    ((Function.update mem s v p).local4 = (mem p).local4 ∧
      (Function.update mem s v p).remote4 = (mem p).remote4) := by
  by_cases hp : p = s
  · subst hp; simp only [Function.update_same]; exact ⟨h6, h4⟩
  · simp [Function.update_noteq hp]

/-- Claim C10: the postcondition of a successful `sessiontable_add`.  For
every session table whose trees are ordered and every session `s` such that
`pktqueue_remove` succeeded and neither key of `s` is indexed,
`sessiontable_add` returns 0; afterwards `sessiontable_get` finds `s` by the
IPv6 tuple (dst = `s.local6`, src = `s.remote6`) and by the IPv4 tuple
(dst = `s.local4`, src = `s.remote4`); `count` has grown by one (as the
`__u64` it is), the refcount of `s` by exactly one, `s.update_time` is the
clock, `s.expirer` is the chosen expirer, `s` is the tail of that expirer's
list and is linked in no other list. -/
theorem sessiontable_add_success (k : kernel) (st : session_state) (s : Nat)
    (is_established : Bool)
    (h6 : rb_ordered (key6_lt st.mem) st.table.tree6)
    (h4 : rb_ordered (key4_lt st.mem) st.table.tree4)
    (hno6 : ∀ p ∈ st.table.tree6.toList,
      ¬((st.mem p).local6 = (st.mem s).local6 ∧ (st.mem p).remote6 = (st.mem s).remote6))
    (hno4 : ∀ p ∈ st.table.tree4.toList,
      ¬((st.mem p).local4 = (st.mem s).local4 ∧ (st.mem p).remote4 = (st.mem s).remote4)) :
    (sessiontable_add k st s is_established 0).1 = 0 ∧
    (∀ t : tuple, t.l3_proto = L3PROTO_IPV6 → t.dst.addr6 = (st.mem s).local6 →
      t.src.addr6 = (st.mem s).remote6 →
      sessiontable_get (sessiontable_add k st s is_established 0).2 t =
        (0, some s, session_get (sessiontable_add k st s is_established 0).2 s)) ∧
    (∀ t : tuple, t.l3_proto = L3PROTO_IPV4 → t.dst.addr4 = (st.mem s).local4 →
      t.src.addr4 = (st.mem s).remote4 →
      sessiontable_get (sessiontable_add k st s is_established 0).2 t =
        (0, some s, session_get (sessiontable_add k st s is_established 0).2 s)) ∧
    (sessiontable_add k st s is_established 0).2.table.count =
      (st.table.count + 1) % WORD ∧
    (st.table.count + 1 < WORD →
      (sessiontable_add k st s is_established 0).2.table.count = st.table.count + 1) ∧
    ((sessiontable_add k st s is_established 0).2.mem s).refcounter =
      (st.mem s).refcounter + 1 ∧
    ((sessiontable_add k st s is_established 0).2.mem s).update_time = k.jiffies ∧
    ((sessiontable_add k st s is_established 0).2.mem s).expirer =
      some (chosen is_established) ∧
    (timer_of (sessiontable_add k st s is_established 0).2.table
        (chosen is_established)).sessions =
      (timer_of st.table (chosen is_established)).sessions.filter (fun x => x != s) ++ [s] ∧
    s ∉ (timer_of (sessiontable_add k st s is_established 0).2.table
        (other (chosen is_established))).sessions := by
  have hf6 := find_none_of_absent6 hno6
  have hf4 := find_none_of_absent4 hno4
  have hmem := sessiontable_add_ok_mem k is_established hf6 hf4
  obtain ⟨ht6, ht4, hcnt, htgt, hoth⟩ := sessiontable_add_ok_table k is_established hf6 hf4
  have hkeys : ∀ p,
      (((sessiontable_add k st s is_established 0).2.mem p).local6 = (st.mem p).local6 ∧
       ((sessiontable_add k st s is_established 0).2.mem p).remote6 = (st.mem p).remote6) ∧
      (((sessiontable_add k st s is_established 0).2.mem p).local4 = (st.mem p).local4 ∧
       ((sessiontable_add k st s is_established 0).2.mem p).remote4 = (st.mem p).remote4) := by
    intro p
    rw [hmem]
    refine update_keys st.mem s _ ?_ ?_ p <;> exact ⟨rfl, rfl⟩
  have ho6 : rb_ordered (key6_lt (sessiontable_add k st s is_established 0).2.mem)
      (sessiontable_add k st s is_established 0).2.table.tree6 := by
    rw [session_key6_lt_congr (fun p => (hkeys p).1), ht6]
    exact rbtree_add_ordered h6 (key_mono_session6 st.mem _).sign_mono
      (by rw [rbtree_add_fst]; exact hf6) (fun x hx => hx) (fun x hx => session_key6_lt_of_pos hx)
  have ho4 : rb_ordered (key4_lt (sessiontable_add k st s is_established 0).2.mem)
      (sessiontable_add k st s is_established 0).2.table.tree4 := by
    rw [session_key4_lt_congr (fun p => (hkeys p).2), ht4]
    exact rbtree_add_ordered h4 (key_mono_session4 st.mem _).sign_mono
      (by rw [rbtree_add_fst]; exact hf4) (fun x hx => hx) (fun x hx => session_key4_lt_of_pos hx)
  have hm6 : s ∈ (sessiontable_add k st s is_established 0).2.table.tree6.toList := by
    rw [ht6]
    exact (rbtree_add_perm h6 (key_mono_session6 st.mem _).sign_mono
      (by rw [rbtree_add_fst]; exact hf6)).mem_iff.mpr (List.mem_cons_self _ _)
  have hm4 : s ∈ (sessiontable_add k st s is_established 0).2.table.tree4.toList := by
    rw [ht4]
    exact (rbtree_add_perm h4 (key_mono_session4 st.mem _).sign_mono
      (by rw [rbtree_add_fst]; exact hf4)).mem_iff.mpr (List.mem_cons_self _ _)
  refine ⟨by rw [sessiontable_add_ok k is_established hf6 hf4], ?_, ?_, hcnt, ?_, ?_, ?_, ?_,
    htgt, ?_⟩
  · intro t hp hd hs
    have : get_by_ipv6 (sessiontable_add k st s is_established 0).2 t = some s :=
      rbtree_find_eq_some ho6 (key_mono_full6 _ t) hm6
        ((session_compare_full6_eq_zero _ _).mpr
          ⟨(hkeys s).1.1.trans hd.symm, (hkeys s).1.2.trans hs.symm⟩)
    simp only [sessiontable_get, if_pos hp, this]
  · intro t hp hd hs
    have : get_by_ipv4 (sessiontable_add k st s is_established 0).2 t = some s :=
      rbtree_find_eq_some ho4 (key_mono_full4 _ t) hm4
        ((session_compare_full4_eq_zero _ _).mpr
          ⟨(hkeys s).2.1.trans hd.symm, (hkeys s).2.2.trans hs.symm⟩)
    have hne : ¬ t.l3_proto = L3PROTO_IPV6 := by rw [hp]; decide
    simp only [sessiontable_get, if_neg hne, if_pos hp, this]
  · intro hcount; rw [hcnt]; exact Nat.mod_eq_of_lt hcount
  · rw [hmem]; simp
  · rw [hmem]; simp
  · rw [hmem]; simp
  · rw [hoth]
    simp

/-- An instance of C10: the first session is added to the empty table as
established. -/
theorem sessiontable_add_success_witness :
    (rb_ordered (key6_lt seed_created.mem) seed_created.table.tree6 ∧
     rb_ordered (key4_lt seed_created.mem) seed_created.table.tree4) ∧
    (sessiontable_add (at_time 0) seed_created 1 true 0).1 = 0 ∧
    (sessiontable_get seed_one
      (tuple4 ⟨0xC0000205, 40000⟩ ⟨0xC6336407, 33333⟩)).2.1 = some 1 ∧
    (sessiontable_get seed_one
      (tuple6 ⟨0x0064ff9b0000000000000000c6336407, 33333⟩
        ⟨0x20010db8000000000000000000000001, 10000⟩)).2.1 = some 1 ∧
    seed_one.table.count = 1 ∧
    (seed_one.mem 1).refcounter = 2 ∧
    seed_one.table.est_timer.sessions = [1] ∧
    seed_one.table.trans_timer.sessions = [] := by
  have h := sessiontable_add_success (at_time 0) seed_created 1 true (by decide) (by decide)
    (by decide) (by decide)
  refine ⟨⟨by decide, by decide⟩, h.1, ?_, ?_, h.2.2.2.2.1 (by decide), h.2.2.2.2.2.1,
    by decide, by decide⟩
  · have := h.2.2.1 (tuple4 ⟨0xC0000205, 40000⟩ ⟨0xC6336407, 33333⟩) rfl (by decide) (by decide)
    exact congrArg (fun r => r.2.1) this
  · have := h.2.1 (tuple6 ⟨0x0064ff9b0000000000000000c6336407, 33333⟩
        ⟨0x20010db8000000000000000000000001, 10000⟩) rfl (by decide) (by decide)
    exact congrArg (fun r => r.2.1) this

end Session

end Jool

namespace Jool

namespace Session

/-! ## Expiry lists -/

theorem sorted_filter_append (f f' : Nat → Nat) (s now c : Nat) (L : List Nat)
    (hf : ∀ x, x ≠ s → f' x = f x) (hs : f' s = now)
    (hsorted : (L.map f).Pairwise (· ≤ ·)) (hb : ∀ x ∈ L, f x ≤ c) (hc : c ≤ now) :
    (((L.filter (fun x => x != s)) ++ [s]).map f').Pairwise (· ≤ ·) ∧
    (∀ x ∈ (L.filter (fun x => x != s)) ++ [s], f' x ≤ now) ∧
    ((L.filter (fun x => x != s)).map f').Pairwise (· ≤ ·) ∧
    (∀ x ∈ L.filter (fun x => x != s), f' x ≤ now) := by
  have hmem : ∀ x ∈ L.filter (fun x => x != s), x ∈ L ∧ x ≠ s := by
    intro x hx
    have := List.mem_filter.mp hx
    exact ⟨this.1, by simpa using this.2⟩
  have hle : ∀ x ∈ L.filter (fun x => x != s), f' x ≤ now := by
    intro x hx
    rw [hf x (hmem x hx).2]
    exact le_trans (hb x (hmem x hx).1) hc
  have hsub : (L.filter (fun x => x != s)).Pairwise (fun a b => f' a ≤ f' b) := by
    rw [List.pairwise_map] at hsorted
    have h1 := hsorted.sublist
      (List.filter_sublist L : (L.filter (fun x => x != s)).Sublist L)
    refine List.Pairwise.imp_of_mem ?_ h1
    intro a b ha hb' hab
    rw [hf a (hmem a ha).2, hf b (hmem b hb').2]
    exact hab
  refine ⟨?_, ?_, ?_, hle⟩
  · rw [List.pairwise_map, List.pairwise_append]
    refine ⟨hsub, List.pairwise_singleton _ _, ?_⟩
    intro a ha b hb'
    rw [List.mem_singleton.mp hb', hs]
    exact hle a ha
  · intro x hx
    rcases List.mem_append.mp hx with h | h
    · exact hle x h
    · rw [List.mem_singleton.mp h, hs]
  · rw [List.pairwise_map]; exact hsub

/-- Invariant S2 together with the bound the clock puts on every stamp. -/
theorem s2_step_set_timer (k : kernel) (st : session_state) (s : Nat) (e : expirer_id) (c : Nat)
    (hinv : ∀ e', expiry_sorted st e' ∧
      ∀ x ∈ (timer_of st.table e').sessions, (st.mem x).update_time ≤ c)
    (hc : c ≤ k.jiffies) :
    ∀ e', expiry_sorted (set_timer k st s e).2 e' ∧
      ∀ x ∈ (timer_of (set_timer k st s e).2.table e').sessions,
        ((set_timer k st s e).2.mem x).update_time ≤ k.jiffies := by
  have hf : ∀ x, x ≠ s →
      ((set_timer k st s e).2.mem x).update_time = (st.mem x).update_time := by
    intro x hx
    rw [set_timer_mem, Function.update_noteq hx]
  have hs : ((set_timer k st s e).2.mem s).update_time = k.jiffies := by
    rw [set_timer_mem, Function.update_same]
  intro e'
  have key := fun e'' => sorted_filter_append (fun x => (st.mem x).update_time)
    (fun x => ((set_timer k st s e).2.mem x).update_time) s k.jiffies c
    (timer_of st.table e'').sessions hf hs (hinv e'').1 (hinv e'').2 hc
  by_cases he : e' = e
  · subst he
    unfold expiry_sorted
    rw [set_timer_target]
    exact ⟨(key e').1, (key e').2.1⟩
  · have : e' = other e := by cases e <;> cases e' <;> simp_all [other]
    subst this
    unfold expiry_sorted
    rw [set_timer_other]
    exact ⟨(key (other e)).2.2.1, (key (other e)).2.2.2⟩

theorem s2_frame (st st' : session_state) (c : Nat)
    (hm : ∀ x, (st'.mem x).update_time = (st.mem x).update_time)
    (hl : ∀ e, (timer_of st'.table e).sessions = (timer_of st.table e).sessions)
    (hinv : ∀ e', expiry_sorted st e' ∧
      ∀ x ∈ (timer_of st.table e').sessions, (st.mem x).update_time ≤ c) :
    ∀ e', expiry_sorted st' e' ∧
      ∀ x ∈ (timer_of st'.table e').sessions, (st'.mem x).update_time ≤ c := by
  intro e'
  have hfun : (fun s => (st'.mem s).update_time) = fun s => (st.mem s).update_time :=
    funext hm
  unfold expiry_sorted
  rw [hl e', hfun]
  refine ⟨(hinv e').1, fun x hx => ?_⟩
  rw [hm x]
  exact (hinv e').2 x hx

theorem s2_mono {st : session_state} {c c' : Nat} (hc : c ≤ c')
    (hinv : ∀ e', expiry_sorted st e' ∧
      ∀ x ∈ (timer_of st.table e').sessions, (st.mem x).update_time ≤ c) :
    ∀ e', expiry_sorted st e' ∧
      ∀ x ∈ (timer_of st.table e').sessions, (st.mem x).update_time ≤ c' :=
  fun e' => ⟨(hinv e').1, fun x hx => le_trans ((hinv e').2 x hx) hc⟩

theorem linked_frame (st : session_state) (s : Nat) :
    (∀ x, ((linked6 st s).mem x).update_time = (st.mem x).update_time) ∧
    (∀ e, (timer_of (linked6 st s).table e).sessions = (timer_of st.table e).sessions) ∧
    (∀ x, ((linked4 st s).mem x).update_time = (st.mem x).update_time) ∧
    (∀ e, (timer_of (linked4 st s).table e).sessions = (timer_of st.table e).sessions) := by
  refine ⟨fun x => ?_, fun e => by cases e <;> rfl, fun x => ?_, fun e => by cases e <;> rfl⟩
  · by_cases hx : x = s
    · subst hx; simp [linked6]
    · simp [linked6, Function.update_noteq hx]
  · by_cases hx : x = s
    · subst hx; simp [linked4]
    · simp [linked4, Function.update_noteq hx]

theorem add6_frame (st : session_state) (s : Nat) :
    (∀ x, ((add6 st s).2.mem x).update_time = (st.mem x).update_time) ∧
    (∀ e, (timer_of (add6 st s).2.table e).sessions = (timer_of st.table e).sessions) := by
  cases hf : rbtree_find (fun p => compare_session6 (st.mem p) (st.mem s)) st.table.tree6 with
  | some c =>
    rw [session_add6_some hf]
    exact ⟨fun _ => rfl, fun _ => rfl⟩
  | none =>
    rw [session_add6_none hf]
    exact ⟨(linked_frame st s).1, (linked_frame st s).2.1⟩

theorem add4_frame (st : session_state) (s : Nat) :
    (∀ x, ((add4 st s).2.mem x).update_time = (st.mem x).update_time) ∧
    (∀ e, (timer_of (add4 st s).2.table e).sessions = (timer_of st.table e).sessions) := by
  cases hf : rbtree_find (fun p => compare_session4 (st.mem p) (st.mem s)) st.table.tree4 with
  | some c =>
    rw [session_add4_some hf]
    exact ⟨fun _ => rfl, fun _ => rfl⟩
  | none =>
    rw [session_add4_none hf]
    exact ⟨(linked_frame st s).2.2.1, (linked_frame st s).2.2.2⟩

theorem s2_step_add (k : kernel) (st : session_state) (s : Nat) (est : Bool) (pq : Int) (c : Nat)
    (hinv : ∀ e', expiry_sorted st e' ∧
      ∀ x ∈ (timer_of st.table e').sessions, (st.mem x).update_time ≤ c)
    (hc : c ≤ k.jiffies) :
    ∀ e', expiry_sorted (sessiontable_add k st s est pq).2 e' ∧
      ∀ x ∈ (timer_of (sessiontable_add k st s est pq).2.table e').sessions,
        ((sessiontable_add k st s est pq).2.mem x).update_time ≤ k.jiffies := by
  have h4inv : ∀ e', expiry_sorted (add4 (add6 st s).2 s).2 e' ∧
      ∀ x ∈ (timer_of (add4 (add6 st s).2 s).2.table e').sessions,
        ((add4 (add6 st s).2 s).2.mem x).update_time ≤ c :=
    s2_frame st _ c
      (fun x => ((add4_frame _ s).1 x).trans ((add6_frame st s).1 x))
      (fun e => ((add4_frame _ s).2 e).trans ((add6_frame st s).2 e)) hinv
  by_cases hpq : pq ≠ 0
  · rw [sessiontable_add_pktqueue k st s est hpq]
    exact s2_mono hc hinv
  · by_cases h6 : (add6 st s).1 ≠ 0
    · have : sessiontable_add k st s est pq = ((add6 st s).1, (add6 st s).2) := by
        simp only [sessiontable_add, if_neg hpq, if_pos h6]
      rw [this]
      exact s2_mono hc (s2_frame st _ c (add6_frame st s).1 (add6_frame st s).2 hinv)
    · by_cases h4 : (add4 (add6 st s).2 s).1 ≠ 0
      · have : sessiontable_add k st s est pq =
            ((add4 (add6 st s).2 s).1,
              { (add4 (add6 st s).2 s).2 with table := { (add4 (add6 st s).2 s).2.table with
                  tree6 := rb_erase s (add4 (add6 st s).2 s).2.table.tree6 } }) := by
          simp only [sessiontable_add, if_neg hpq, if_neg h6, if_pos h4]
        rw [this]
        refine s2_mono hc (s2_frame (add4 (add6 st s).2 s).2 _ c (fun _ => rfl) ?_ h4inv)
        intro e; cases e <;> rfl
      · have : sessiontable_add k st s est pq =
            (0, commit_timer k
              { (session_get (set_timer k (add4 (add6 st s).2 s).2 s (chosen est)).2 s) with
                table := { (session_get (set_timer k (add4 (add6 st s).2 s).2 s
                    (chosen est)).2 s).table with
                  count := ((session_get (set_timer k (add4 (add6 st s).2 s).2 s
                    (chosen est)).2 s).table.count + 1) % WORD } }
              (set_timer k (add4 (add6 st s).2 s).2 s (chosen est)).1) := by
          simp only [sessiontable_add, if_neg hpq, if_neg h6, if_neg h4, chosen]
        rw [this]
        have hT := s2_step_set_timer k (add4 (add6 st s).2 s).2 s (chosen est) c h4inv hc
        refine s2_frame (set_timer k (add4 (add6 st s).2 s).2 s (chosen est)).2 _ k.jiffies
          ?_ ?_ hT
        · intro x
          rw [(commit_timer_frame _ _ _).1]
          by_cases hx : x = s
          · subst hx; simp [session_get, store]
          · simp [session_get, store, Function.update_noteq hx]
        · intro e
          rw [(commit_timer_frame _ _ _).2.2.2.2]
          cases e <;> rfl

theorem refreshed_inv {c : Nat} {st : session_state} (h : refreshed c st) :
    ∀ e', expiry_sorted st e' ∧
      ∀ x ∈ (timer_of st.table e').sessions, (st.mem x).update_time ≤ c := by
  induction h with
  | init st c h0 =>
    intro e'
    rw [← h0]
    cases e' <;> exact ⟨List.Pairwise.nil, fun x hx => absurd hx (List.not_mem_nil _)⟩
  | add k st s est pq c _ hc ih => exact s2_step_add k st s est pq c ih hc
  | refresh k st s e c _ hc ih => exact s2_step_set_timer k st s e c ih hc

/-- Claim C7: the expiry-order invariant S2.  In every state reached from an
initialised table by `sessiontable_add` and `set_timer` calls (to either
expirer) whose clock readings never decrease, walking the list of either
expirer head to tail yields non-decreasing `update_time`; and `set_timer`
stamps `update_time` with the clock, unlinks the session from the list it
was in and appends it at the tail of the target list. -/
theorem expiry_order_invariant (c : Nat) (st : session_state) (h : refreshed c st) :
    (∀ e, expiry_sorted st e) ∧
    (∀ (k : kernel) (s : Nat) (e : expirer_id),
      ((set_timer k st s e).2.mem s).update_time = k.jiffies ∧
      (timer_of (set_timer k st s e).2.table e).sessions =
        (timer_of st.table e).sessions.filter (fun x => x != s) ++ [s] ∧
      (timer_of (set_timer k st s e).2.table (other e)).sessions =
        (timer_of st.table (other e)).sessions.filter (fun x => x != s)) :=
  ⟨fun e => (refreshed_inv h e).1, fun k s e =>
    ⟨by rw [set_timer_mem, Function.update_same], set_timer_target k st s e,
      set_timer_other k st s e⟩⟩

/-- Seed scenario 3 as an instance of C7: A, B, C added at t = 0, 1, 2 and A
refreshed at t = 5 give the order [B, C, A]. -/
theorem expiry_order_invariant_witness :
    refreshed 5 seed_abc_refreshed ∧
    expiry_sorted seed_abc_refreshed expirer_id.est_timer ∧
    seed_abc.table.est_timer.sessions = [1, 2, 3] ∧
    seed_abc_refreshed.table.est_timer.sessions = [2, 3, 1] ∧
    (seed_abc_refreshed.mem 1).update_time = 5 := by
  have hr : refreshed 5 seed_abc_refreshed :=
    refreshed.refresh (at_time 5) seed_abc 1 expirer_id.est_timer 2
      (refreshed.add (at_time 2) _ 3 true 0 1
        (refreshed.add (at_time 1) _ 2 true 0 0
          (refreshed.add (at_time 0) _ 1 true 0 0
            (refreshed.init _ 0 rfl) (by decide)) (by decide)) (by decide)) (by decide)
  exact ⟨hr, (expiry_order_invariant 5 seed_abc_refreshed hr).1 expirer_id.est_timer,
    by decide, by decide, by decide⟩

theorem time_before_iff {a b : Nat} (ha : a < WORD) (hb : b < WORD)
    (h1 : a < b + 2 ^ 63) (h2 : b ≤ a + 2 ^ 63) : time_before a b = true ↔ a < b := by
  unfold time_before
  rw [decide_eq_true_iff, Nat.mod_eq_of_lt ha, Nat.mod_eq_of_lt hb]
  unfold WORD at *
  constructor
  · intro h
    by_contra hn
    have hge : b ≤ a := by omega
    have : (a + 2 ^ 64 - b) % 2 ^ 64 = a - b := by
      rw [show a + 2 ^ 64 - b = (a - b) + 2 ^ 64 by omega, Nat.add_mod_right]
      exact Nat.mod_eq_of_lt (by omega)
    omega
  · intro h
    rw [Nat.mod_eq_of_lt (by omega)]
    omega

theorem takeWhile_eq_filter {p : Nat → Bool} {L : List Nat}
    (h : L.Pairwise (fun a b => p b = true → p a = true)) : L.takeWhile p = L.filter p := by
  induction L with
  | nil => rfl
  | cons x xs ih =>
    rw [List.pairwise_cons] at h
    by_cases hx : p x = true
    · rw [List.takeWhile_cons_of_pos hx, List.filter_cons_of_pos hx, ih h.2]
    · rw [List.takeWhile_cons_of_neg hx, List.filter_cons_of_neg hx]
      symm
      rw [List.filter_eq_nil_iff]
      intro y hy hpy
      exact hx (h.1 y hy hpy)

theorem takeWhile_congr_mem {p q : Nat → Bool} {L : List Nat}
    (h : ∀ x ∈ L, p x = q x) : L.takeWhile p = L.takeWhile q := by
  induction L with
  | nil => rfl
  | cons x xs ih =>
    simp only [List.takeWhile_cons, h x (List.mem_cons_self _ _),
      ih (fun y hy => h y (List.mem_cons_of_mem _ hy))]

theorem cleaner_loop_takeWhile
    (callback : Nat → List Nat × List Nat → session_state →
      (List Nat × List Nat) × session_state)
    (e : expirer_id) (timeout jiffies : Nat) (ut : Nat → Nat)
    (hcb : ∀ s lists st1,
      (timer_of (callback s lists st1).2.table e).sessions =
        (timer_of st1.table e).sessions.filter (fun x => x != s) ∧
      ∀ q, q ≠ s → ((callback s lists st1).2.mem q).update_time = (st1.mem q).update_time) :
    ∀ (L : List Nat) (fuel : Nat) (lists : List Nat × List Nat) (st1 : session_state),
      (timer_of st1.table e).sessions = L → L.Nodup → L.length ≤ fuel →
      (∀ q ∈ L, (st1.mem q).update_time = ut q) →
      ∃ lists' st', cleaner_loop callback e timeout jiffies fuel L.head? lists st1 =
        Except.ok (L.takeWhile (fun s => !time_before jiffies ((ut s + timeout) % WORD)),
          lists', st') := by
  intro L
  induction L with
  | nil =>
    intro fuel lists st1 _ _ _ _
    exact ⟨lists, st1, by cases fuel <;> rfl⟩
  | cons x rest ih =>
    intro fuel lists st1 hL hnd hfuel hut
    have hx := hut x (List.mem_cons_self _ _)
    cases fuel with
    | zero => simp at hfuel
    | succ f =>
      simp only [List.head?_cons, cleaner_loop, hx]
      by_cases hb : time_before jiffies ((ut x + timeout) % WORD) = true
      · rw [if_pos hb]
        refine ⟨lists, st1, ?_⟩
        rw [List.takeWhile_cons_of_neg (by simp [hb])]
      · rw [if_neg hb]
        have hxr : x ∉ rest := (List.nodup_cons.mp hnd).1
        have hnext : list_next (timer_of st1.table e).sessions x = rest.head? := by
          rw [hL]; simp [list_next]
        have hL2 : (timer_of (callback x lists st1).2.table e).sessions = rest := by
          rw [(hcb x lists st1).1, hL, List.filter_cons_of_neg (by simp)]
          rw [List.filter_eq_self]
          intro a ha
          have : a ≠ x := fun h => hxr (h ▸ ha)
          simpa using this
        obtain ⟨lists', st', hres⟩ := ih f (callback x lists st1).1 (callback x lists st1).2
          hL2 (List.nodup_cons.mp hnd).2 (by simpa using hfuel)
          (fun q hq => by
            rw [(hcb x lists st1).2 q (fun h => hxr (h ▸ hq))]
            exact hut q (List.mem_cons_of_mem _ hq))
        rw [hnext, hres]
        refine ⟨lists', st', ?_⟩
        rw [List.takeWhile_cons_of_pos (by simpa using hb)]

/-- Claim C8, as amended: `cleaner_timer` selects the expired sessions.
For every expirer whose list satisfies S2 and holds no session twice, with
the timeout sampled once and the clock `now`, and a callback that takes the
session it is handed off the walked list and leaves the `update_time` of the
other sessions alone: provided that, for every session of the list,
`update_time + timeout` does not wrap and lies within `2 ^ 63` ticks of
`now` (so that `time_before` agrees with the plain order), the callback is
invoked, in head-to-tail order, on exactly the sessions with
`update_time + timeout ≤ now`. -/
theorem cleaner_timer_selects_expired
    (callback : Nat → List Nat × List Nat → session_state →
      (List Nat × List Nat) × session_state)
    (k : kernel) (st : session_state) (e : expirer_id)
    (hS2 : expiry_sorted st e)
    (hnodup : (timer_of st.table e).sessions.Nodup)
    (hcb : ∀ s lists st1,
      (timer_of (callback s lists st1).2.table e).sessions =
        (timer_of st1.table e).sessions.filter (fun x => x != s) ∧
      ∀ q, q ≠ s → ((callback s lists st1).2.mem q).update_time = (st1.mem q).update_time)
    (hnow : k.jiffies < WORD)
    (hwin : ∀ s ∈ (timer_of st.table e).sessions,
      (st.mem s).update_time + get_timeout k e < WORD ∧
      k.jiffies < (st.mem s).update_time + get_timeout k e + 2 ^ 63 ∧
      (st.mem s).update_time + get_timeout k e ≤ k.jiffies + 2 ^ 63) :
    ∃ lists st', cleaner_walk callback k st e =
      Except.ok
        ((timer_of st.table e).sessions.filter
          (fun s => decide ((st.mem s).update_time + get_timeout k e ≤ k.jiffies)),
         lists, st') := by
  obtain ⟨lists, st', h⟩ := cleaner_loop_takeWhile callback e (get_timeout k e) k.jiffies
    (fun s => (st.mem s).update_time) hcb (timer_of st.table e).sessions
    (timer_of st.table e).sessions.length ([], []) st rfl hnodup (le_refl _) (fun _ _ => rfl)
  refine ⟨lists, st', ?_⟩
  unfold cleaner_walk
  rw [h]
  have hp : ∀ s ∈ (timer_of st.table e).sessions,
      (!time_before k.jiffies (((st.mem s).update_time + get_timeout k e) % WORD)) =
        decide ((st.mem s).update_time + get_timeout k e ≤ k.jiffies) := by
    intro s hs
    obtain ⟨h1, h2, h3⟩ := hwin s hs
    rw [Nat.mod_eq_of_lt h1]
    by_cases hlt : k.jiffies < (st.mem s).update_time + get_timeout k e
    · rw [(time_before_iff hnow h1 h2 h3).mpr hlt]
      simp [hlt]
    · have : time_before k.jiffies ((st.mem s).update_time + get_timeout k e) = false := by
        cases hb : time_before k.jiffies ((st.mem s).update_time + get_timeout k e) with
        | false => rfl
        | true => exact absurd ((time_before_iff hnow h1 h2 h3).mp hb) hlt
      rw [this]
      simp [Nat.le_of_not_lt hlt]
  rw [takeWhile_congr_mem hp, takeWhile_eq_filter]
  unfold expiry_sorted at hS2
  rw [List.pairwise_map] at hS2
  refine hS2.imp ?_
  intro a b hab hb
  simp only [decide_eq_true_eq] at hb ⊢
  omega

theorem die_callback_unlinks (e : expirer_id) (s : Nat) (lists : List Nat × List Nat)
    (st1 : session_state) :
    (timer_of (die_callback s lists st1).2.table e).sessions =
      (timer_of st1.table e).sessions.filter (fun x => x != s) ∧
    ∀ q, q ≠ s → ((die_callback s lists st1).2.mem q).update_time = (st1.mem q).update_time := by
  constructor
  · cases e <;> rfl
  · intro q hq
    simp [die_callback, remove, store, list_del, Function.update_noteq hq]

/-- Seed scenario 3 as an instance of C8: with timeout 5, nothing is
classified at t = 4; after A is refreshed at t = 5, B then C are classified
at t = 7 and A is not. -/
theorem cleaner_timer_selects_expired_witness :
    (expiry_sorted seed_abc_refreshed expirer_id.est_timer ∧
     seed_abc_refreshed.table.est_timer.sessions = [2, 3, 1] ∧
     (seed_abc_refreshed.mem 2).update_time = 1 ∧
     (seed_abc_refreshed.mem 3).update_time = 2 ∧
     (seed_abc_refreshed.mem 1).update_time = 5) ∧
    (cleaner_walk die_callback (at_time 7) seed_abc_refreshed
      expirer_id.est_timer).toOption.map (fun r => r.1) = some [2, 3] ∧
    (cleaner_walk die_callback (at_time 4) seed_abc
      expirer_id.est_timer).toOption.map (fun r => r.1) = some [] := by
  obtain ⟨lists, st', h⟩ := cleaner_timer_selects_expired die_callback (at_time 7)
    seed_abc_refreshed expirer_id.est_timer (by decide) (by decide)
    (die_callback_unlinks expirer_id.est_timer) (by decide) (by decide)
  refine ⟨⟨by decide, by decide, by decide, by decide, by decide⟩, ?_, by decide⟩
  rw [h]
  simp only [Except.toOption, Option.map_some']
  decide

/-- Claim C8 as stated fails when the clock has wrapped: a session stamped at
`2 ^ 64 - 8` with timeout 5 is handed to the callback at clock 2, although
`update_time + timeout ≤ now` is false of the stored numbers. -/
theorem cleaner_timer_wraparound_counterexample :
    expiry_sorted seed_before_wrap expirer_id.est_timer ∧
    seed_before_wrap.table.est_timer.sessions = [1] ∧
    (seed_before_wrap.mem 1).update_time = 2 ^ 64 - 8 ∧
    ¬ ((seed_before_wrap.mem 1).update_time + 5 ≤ 2) ∧
    (cleaner_walk die_callback
      { jiffies := 2, est_timeout := 5, trans_timeout := 5, MIN_TIMER_SLEEP := 1 }
      seed_before_wrap expirer_id.est_timer).toOption.map (fun r => r.1) = some [1] := by
  decide

/-- Claim C5 at its own witness: with the three sessions of 192.0.2.5#40000
indexed (B at the root, A and C its children), `sessiontable_delete_by_bib`
returns 0 and leaves session A, whose `local4` is 192.0.2.5#40000, in both
trees and in the expirer list; with that session alone in the table,
nothing is removed. -/
theorem sessiontable_delete_by_bib_skips_first :
    (seed_three.table.tree4 =
      rb_node.node (rb_node.node rb_node.nil 1 rb_node.nil) 2
        (rb_node.node rb_node.nil 3 rb_node.nil) ∧
     (seed_three.mem 1).local4 = ⟨0xC0000205, 40000⟩ ∧
     (seed_three.mem 2).local4 = ⟨0xC0000205, 40000⟩ ∧
     (seed_three.mem 3).local4 = ⟨0xC0000205, 40000⟩) ∧
    (sessiontable_delete_by_bib seed_three ⟨0xC0000205, 40000⟩).toOption.map
      (fun r => (r.1, r.2.table.tree4.toList, r.2.table.tree6.toList,
        r.2.table.est_timer.sessions)) = some (0, [1], [1], [1]) ∧
    (sessiontable_delete_by_bib seed_one ⟨0xC0000205, 40000⟩).toOption.map
      (fun r => (r.1, r.2.table.tree4.toList, r.2.table.tree6.toList,
        r.2.table.est_timer.sessions)) = some (0, [1], [1], [1]) := by
  decide

end Session

end Jool

namespace Jool

namespace Bib

/-! ## BIB table: bulk walks and invariants -/

/-- Claim C6 at a static entry held by two lookups (refcount 3): one
`bibtable_flush` leaves the refcount at 2 and two leave it at 1; a third
one releases the entry, which leaves the table and is freed under its two
holders. -/
theorem bibtable_flush_not_idempotent :
    (seed_static_held.mem 1).is_static = true ∧
    (seed_static_held.mem 1).refcounter = 3 ∧
    (bibtable_flush seed_static_held).map
      (fun st => ((st.mem 1).refcounter, st.table.tree4.toList, st.table.count)) =
      some (2, [1], 1) ∧
    ((bibtable_flush seed_static_held).bind bibtable_flush).map
      (fun st => ((st.mem 1).refcounter, st.table.tree4.toList, st.table.count)) =
      some (1, [1], 1) ∧
    (((bibtable_flush seed_static_held).bind bibtable_flush).bind bibtable_flush).map
      (fun st => ((st.mem 1).freed, st.table.tree4.toList, st.table.count)) =
      some (true, [], 0) := by
  decide

theorem list_next_append {l1 l2 : List Nat} {n : Nat} (h : n ∉ l1) :
    list_next (l1 ++ n :: l2) n = l2.head? := by
  induction l1 with
  | nil => simp [list_next]
  | cons x xs ih =>
    simp only [List.mem_cons, not_or] at h
    simp only [List.cons_append, list_next]
    rw [if_neg (fun hx => h.1 hx.symm)]
    exact ih h.2

theorem list_next_mem {l : List Nat} {n m : Nat} (h : list_next l n = some m) : m ∈ l := by
  induction l with
  | nil => simp [list_next] at h
  | cons x xs ih =>
    simp only [list_next] at h
    split_ifs at h with hx
    · exact List.mem_cons_of_mem _ (List.mem_of_mem_head? h)
    · exact List.mem_cons_of_mem _ (ih h)

theorem erase_middle {l1 l2 : List Nat} {n : Nat} (h : n ∉ l1) :
    (l1 ++ n :: l2).erase n = l1 ++ l2 := by
  rw [List.erase_append_right _ h, List.erase_cons_head]

theorem rbtree_find_node_parent (cmp : Nat → Int) (t : rb_node) (par : Option Nat) (q : Nat)
    (h : (rbtree_find_node cmp t par).2 = some q) : q ∈ t.toList ∨ par = some q := by
  induction t generalizing par with
  | nil => exact Or.inr h
  | node l x r ihl ihr =>
    simp only [rbtree_find_node] at h
    simp only [rb_node.toList, List.mem_append, List.mem_cons]
    split_ifs at h with h1 h2
    · rcases ihr _ h with hq | hq
      · exact Or.inl (Or.inr (Or.inr hq))
      · exact Or.inl (Or.inr (Or.inl (Option.some.inj hq).symm))
    · rcases ihl _ h with hq | hq
      · exact Or.inl (Or.inl hq)
      · exact Or.inl (Or.inr (Or.inl (Option.some.inj hq).symm))
    · exact Or.inl (Or.inr (Or.inl (Option.some.inj h).symm))

theorem length_lt_of_valid {l : List Nat} (hn : l.Nodup) (hv : ∀ p ∈ l, valid_ptr p) :
    l.length + 1 < WORD + 1 := by
  have hsub : l.toFinset ⊆ (Finset.range WORD).erase 0 := by
    intro p hp
    have := hv p (List.mem_toFinset.mp hp)
    simp only [Finset.mem_erase, Finset.mem_range]
    exact ⟨Nat.pos_iff_ne_zero.mp this.1, this.2⟩
  have hc := Finset.card_le_card hsub
  rw [List.toFinset_card_of_nodup hn, Finset.card_erase_of_mem (by simp [WORD]),
    Finset.card_range] at hc
  have : 0 < WORD := by unfold WORD; positivity
  omega

theorem key4_lt_irrefl (mem : Nat → bib_entry) (a : Nat) : ¬ key4_lt mem a a := by
  unfold key4_lt
  rw [(compare_full4_eq_zero _ _).mpr rfl]
  decide

theorem key6_lt_irrefl (mem : Nat → bib_entry) (a : Nat) : ¬ key6_lt mem a a := by
  unfold key6_lt
  rw [(compare_full6_eq_zero _ _).mpr rfl]
  decide

theorem nodup_of_ordered4 {mem : Nat → bib_entry} {t : rb_node}
    (h : rb_ordered (key4_lt mem) t) : t.toList.Nodup :=
  List.Pairwise.imp (fun {a b} (hab : key4_lt mem a b) (heq : a = b) =>
    key4_lt_irrefl mem a (by rw [← heq] at hab; exact hab)) h

theorem nodup_of_ordered6 {mem : Nat → bib_entry} {t : rb_node}
    (h : rb_ordered (key6_lt mem) t) : t.toList.Nodup :=
  List.Pairwise.imp (fun {a b} (hab : key6_lt mem a b) (heq : a = b) =>
    key6_lt_irrefl mem a (by rw [← heq] at hab; exact hab)) h

/-- The loop of `__foreach` finishes within its fuel and keeps every
invariant that one call of `func` keeps, provided `func` unlinks at most the
entry it is handed. -/
theorem foreach_loop_inv {α : Type} (func : Nat → α → bib_state → Int × α × bib_state)
    (P : bib_state → Prop)
    (hnodup : ∀ st, P st → st.table.tree4.toList.Nodup)
    (hstep : ∀ node arg st, P st → node ∈ st.table.tree4.toList →
      P (func node arg st).2.2 ∧
      ((func node arg st).2.2.table.tree4.toList = st.table.tree4.toList ∨
       (func node arg st).2.2.table.tree4.toList = st.table.tree4.toList.erase node)) :
    ∀ (fuel : Nat) (node : Option Nat) (error : Int) (arg : α) (st : bib_state), P st →
      (∀ n, node = some n →
        ∃ l1 l2, st.table.tree4.toList = l1 ++ n :: l2 ∧ l2.length < fuel) →
      ∃ r, foreach_loop func fuel node error arg st = some r ∧ P r.2.2 := by
  intro fuel
  induction fuel with
  | zero =>
    intro node error arg st hP hpos
    cases node with
    | none => exact ⟨_, rfl, hP⟩
    | some n =>
      obtain ⟨l1, l2, -, hlt⟩ := hpos n rfl
      exact absurd hlt (Nat.not_lt_zero _)
  | succ f ih =>
    intro node error arg st hP hpos
    cases node with
    | none => exact ⟨_, rfl, hP⟩
    | some n =>
      obtain ⟨l1, l2, hl, hlt⟩ := hpos n rfl
      simp only [foreach_loop]
      by_cases herr : error ≠ 0
      · rw [if_pos herr]; exact ⟨_, rfl, hP⟩
      · rw [if_neg herr]
        have hnd := hnodup st hP
        rw [hl] at hnd
        have hn1 : n ∉ l1 := fun h =>
          (List.nodup_append.mp hnd).2.2 h (List.mem_cons_self _ _)
        have hnext : rb_next st.table.tree4 n = l2.head? := by
          unfold rb_next; rw [hl]; exact list_next_append hn1
        have hmem : n ∈ st.table.tree4.toList := by rw [hl]; simp
        obtain ⟨hP2, hlist⟩ := hstep n arg st hP hmem
        apply ih _ _ _ _ hP2
        intro m hm
        rw [hnext] at hm
        cases l2 with
        | nil => simp at hm
        | cons x l3 =>
          simp only [List.head?_cons, Option.some.injEq] at hm
          subst hm
          rcases hlist with h | h
          · refine ⟨l1 ++ [n], l3, ?_, by simpa using hlt⟩
            rw [h, hl]; simp
          · refine ⟨l1, l3, ?_, by simp at hlt; omega⟩
            rw [h, hl, erase_middle hn1]

theorem inv_frame {st st' : bib_state} (h : table_inv st ∧ mem_inv st)
    (ht6 : st'.table.tree6.toList = st.table.tree6.toList)
    (ht4 : st'.table.tree4.toList = st.table.tree4.toList)
    (hc : st'.table.count = st.table.count)
    (hm : ∀ p, (st'.mem p).ipv4 = (st.mem p).ipv4 ∧ (st'.mem p).ipv6 = (st.mem p).ipv6 ∧
      (st'.mem p).freed = (st.mem p).freed ∧ (st'.mem p).table = (st.mem p).table ∧
      ((st.mem p).tree6_hook = true → (st'.mem p).tree6_hook = true) ∧
      ((st.mem p).tree4_hook = true → (st'.mem p).tree4_hook = true)) :
    table_inv st' ∧ mem_inv st' := by
  obtain ⟨⟨o6, o4, pm, ce⟩, ⟨ix, br, lv⟩⟩ := h
  refine ⟨⟨?_, ?_, ?_, ?_⟩, ⟨?_, ?_, ?_⟩⟩
  · unfold rb_ordered; rw [ht6, key6_lt_congr (fun p => (hm p).2.1)]; exact o6
  · unfold rb_ordered; rw [ht4, key4_lt_congr (fun p => (hm p).1)]; exact o4
  · rw [ht6, ht4]; exact pm
  · rw [hc, ht4]; exact ce
  · intro p hp
    rw [ht4] at hp
    obtain ⟨a, b, c, d⟩ := ix p hp
    exact ⟨(hm p).2.2.1.trans a, (hm p).2.2.2.1.trans b, (hm p).2.2.2.2.1 c,
      (hm p).2.2.2.2.2 d⟩
  · intro p hf htb
    rw [ht4]
    exact br p ((hm p).2.2.1.symm.trans hf) ((hm p).2.2.2.1.symm.trans htb)
  · intro p hf
    exact lv p ((hm p).2.2.1.symm.trans hf)

theorem bibentry_get_frame (st : bib_state) (c p : Nat) :
    ((bibentry_get st c).mem p).ipv4 = (st.mem p).ipv4 ∧
    ((bibentry_get st c).mem p).ipv6 = (st.mem p).ipv6 ∧
    ((bibentry_get st c).mem p).freed = (st.mem p).freed ∧
    ((bibentry_get st c).mem p).table = (st.mem p).table ∧
    ((st.mem p).tree6_hook = true → ((bibentry_get st c).mem p).tree6_hook = true) ∧
    ((st.mem p).tree4_hook = true → ((bibentry_get st c).mem p).tree4_hook = true) := by
  by_cases hp : p = c
  · subst hp; simp [bibentry_get, store]
  · simp [bibentry_get, store, Function.update_noteq hp]

theorem inv_get {st : bib_state} (h : table_inv st ∧ mem_inv st) (c : Nat) :
    table_inv (bibentry_get st c) ∧ mem_inv (bibentry_get st c) :=
  inv_frame h rfl rfl rfl (bibentry_get_frame st c)

theorem inv_add_exists {st : bib_state} (h : table_inv st ∧ mem_inv st) (c : Nat) (old : Bool) :
    table_inv (add_exists st c old).2.2 ∧ mem_inv (add_exists st c old).2.2 := by
  unfold add_exists
  split
  · exact inv_get h c
  · exact h

theorem inv_get6 {st : bib_state} (h : table_inv st ∧ mem_inv st) (a : ipv6_transport_addr) :
    table_inv (bibtable_get6 st a).2.2 ∧ mem_inv (bibtable_get6 st a).2.2 := by
  unfold bibtable_get6
  split
  · exact inv_get h _
  · exact h

theorem inv_get4 {st : bib_state} (h : table_inv st ∧ mem_inv st) (a : ipv4_transport_addr) :
    table_inv (bibtable_get4 st a).2.2 ∧ mem_inv (bibtable_get4 st a).2.2 := by
  unfold bibtable_get4
  split
  · exact inv_get h _
  · exact h

theorem inv_create {st : bib_state} (h : table_inv st ∧ mem_inv st) (p : Nat)
    (addr4 : ipv4_transport_addr) (addr6 : ipv6_transport_addr) (is_static : Bool)
    (proto : Nat) (hv : valid_ptr p) (hf : (st.mem p).freed = true) :
    table_inv (bibentry_create st (some p) addr4 addr6 is_static proto).2 ∧
    mem_inv (bibentry_create st (some p) addr4 addr6 is_static proto).2 := by
  obtain ⟨⟨o6, o4, pm, ce⟩, ⟨ix, br, lv⟩⟩ := h
  have hp4 : p ∉ st.table.tree4.toList := fun hm => by
    have := (ix p hm).1; rw [hf] at this; exact Bool.noConfusion this
  have hp6 : p ∉ st.table.tree6.toList := fun hm => hp4 (pm.mem_iff.mp hm)
  have hne4 : ∀ q ∈ st.table.tree4.toList, q ≠ p := fun q hq he => hp4 (he ▸ hq)
  have hne6 : ∀ q ∈ st.table.tree6.toList, q ≠ p := fun q hq he => hp6 (he ▸ hq)
  simp only [bibentry_create, store]
  refine ⟨⟨?_, ?_, pm, ce⟩, ⟨?_, ?_, ?_⟩⟩
  · refine List.Pairwise.imp_of_mem ?_ o6
    intro a b ha hb hab
    simp only [key6_lt, Function.update_noteq (hne6 a ha), Function.update_noteq (hne6 b hb)]
    exact hab
  · refine List.Pairwise.imp_of_mem ?_ o4
    intro a b ha hb hab
    simp only [key4_lt, Function.update_noteq (hne4 a ha), Function.update_noteq (hne4 b hb)]
    exact hab
  · intro q hq
    simp only [Function.update_noteq (hne4 q hq)]
    exact ix q hq
  · intro q hfq htq
    by_cases hq : q = p
    · subst hq; simp at htq
    · simp only [Function.update_noteq hq] at hfq htq
      exact br q hfq htq
  · intro q hfq
    by_cases hq : q = p
    · subst hq; exact hv
    · simp only [Function.update_noteq hq] at hfq
      exact lv q hfq

theorem not_mem_of_find4_none {st : bib_state} {e : Nat}
    (ho : rb_ordered (key4_lt st.mem) st.table.tree4)
    (h : find_by_addr4 st (st.mem e).ipv4 = none) : e ∉ st.table.tree4.toList := fun hm =>
  rbtree_find_none ho (key_mono4 st.mem _).sign_mono h e hm
    ((compare_full4_eq_zero _ _).mpr rfl)

theorem inv_add {st : bib_state} (h : table_inv st ∧ mem_inv st) (e : Nat) (old : Bool)
    (hlive : (st.mem e).freed = false) :
    table_inv (bibtable_add st e old).2.2 ∧ mem_inv (bibtable_add st e old).2.2 := by
  have h0 := h
  obtain ⟨⟨o6, o4, pm, ce⟩, ⟨ix, br, lv⟩⟩ := h
  cases hf6 : find_by_addr6 st (st.mem e).ipv6 with
  | some c =>
    rw [bibtable_add_v6 old hf6]
    exact inv_add_exists h0 c old
  | none =>
    have hne6 := not_mem_of_find6_none o6 hf6
    have hne4 : e ∉ st.table.tree4.toList := fun hm => hne6 (pm.mem_iff.mpr hm)
    cases hf4 : find_by_addr4 st (st.mem e).ipv4 with
    | some c =>
      rw [bibtable_add_v4 old hf6 hf4]
      apply inv_add_exists
      have hroll : rb_erase e (linked6 st e).table.tree6 = st.table.tree6 := by
        simp only [linked6]
        exact rb_erase_add hne6 (by rw [rbtree_add_fst]; exact hf6)
      refine inv_frame h0 (by rw [hroll]) rfl rfl ?_
      intro p
      by_cases hp : p = e
      · subst hp; simp [linked6]
      · simp [linked6, Function.update_noteq hp]
    | none =>
      rw [bibtable_add_ok' old hf6 hf4]
      have hp6 := added_perm6 o6 hf6
      have hp4 := added_perm4 o4 hf4
      have hnd : (e :: st.table.tree4.toList).Nodup :=
        List.nodup_cons.mpr ⟨hne4, nodup_of_ordered4 o4⟩
      have hval : ∀ p ∈ e :: st.table.tree4.toList, valid_ptr p := by
        intro p hp
        rcases List.mem_cons.mp hp with rfl | hp
        · exact lv _ hlive
        · exact lv p (ix p hp).1
      have hlen := length_lt_of_valid hnd hval
      refine ⟨⟨added_ordered6 o6 hf6, added_ordered4 o4 hf4, ?_, ?_⟩, ⟨?_, ?_, ?_⟩⟩
      · exact hp6.trans ((List.Perm.cons e pm).trans hp4.symm)
      · rw [hp4.length_eq]
        simp only [added, List.length_cons] at hlen ⊢
        rw [ce, Nat.mod_eq_of_lt (by omega)]
      · intro p hp
        rcases List.mem_cons.mp (hp4.mem_iff.mp hp) with rfl | hp'
        · simp [added, hlive]
        · have hpe : p ≠ e := fun he => hne4 (he ▸ hp')
          simp only [added, Function.update_noteq hpe]
          exact ix p hp'
      · intro p hfp htp
        rw [hp4.mem_iff]
        by_cases hpe : p = e
        · subst hpe; exact List.mem_cons_self _ _
        · simp only [added, Function.update_noteq hpe] at hfp htp
          exact List.mem_cons_of_mem _ (br p hfp htp)
      · intro p hfp
        by_cases hpe : p = e
        · subst hpe; exact lv _ hlive
        · simp only [added, Function.update_noteq hpe] at hfp
          exact lv p hfp

theorem release_locked_eq : release_locked = release := rfl

/-- One reference drop keeps the invariants and unlinks at most the entry
itself. -/
theorem inv_kref_put {st : bib_state} (h : table_inv st ∧ mem_inv st) (e : Nat)
    (hlive : (st.mem e).freed = false) :
    (table_inv (kref_put st e release).2 ∧ mem_inv (kref_put st e release).2) ∧
    ((kref_put st e release).2.table.tree4.toList = st.table.tree4.toList ∨
     (kref_put st e release).2.table.tree4.toList = st.table.tree4.toList.erase e) := by
  have h0 := h
  obtain ⟨⟨o6, o4, pm, ce⟩, ⟨ix, br, lv⟩⟩ := h
  unfold kref_put
  by_cases hz : (st.mem e).refcounter - 1 = 0
  · rw [if_pos hz]
    simp only [release, bibtable_rm, store, Function.update_same]
    by_cases ht : (st.mem e).table = true
    · -- the entry is indexed: it leaves both trees
      have he4 : e ∈ st.table.tree4.toList := br e hlive ht
      have he6 : e ∈ st.table.tree6.toList := pm.mem_iff.mpr he4
      obtain ⟨-, -, hk6, hk4⟩ := ix e he4
      have hnd4 := nodup_of_ordered4 o4
      have hnd6 := nodup_of_ordered6 o6
      have hlen := length_lt_of_valid hnd4 (fun p hp => lv p (ix p hp).1)
      have hpos : 0 < st.table.tree4.toList.length := List.length_pos_of_mem he4
      simp only [ht, if_true, rm, kmem_cache_free, store, Function.update_same, hk6, hk4,
        Function.update_idem]
      refine ⟨⟨⟨?_, ?_, ?_, ?_⟩, ⟨?_, ?_, ?_⟩⟩, Or.inr (rb_erase_toList hnd4)⟩
      · unfold rb_ordered
        rw [rb_erase_toList hnd6]
        refine List.Pairwise.imp_of_mem ?_ (o6.sublist (List.erase_sublist e _))
        intro a b ha hb hab
        have hae : a ≠ e := fun h => (List.Nodup.mem_erase_iff hnd6).mp ha |>.1 h
        have hbe : b ≠ e := fun h => (List.Nodup.mem_erase_iff hnd6).mp hb |>.1 h
        simp only [key6_lt, Function.update_noteq hae, Function.update_noteq hbe]
        exact hab
      · unfold rb_ordered
        rw [rb_erase_toList hnd4]
        refine List.Pairwise.imp_of_mem ?_ (o4.sublist (List.erase_sublist e _))
        intro a b ha hb hab
        have hae : a ≠ e := fun h => (List.Nodup.mem_erase_iff hnd4).mp ha |>.1 h
        have hbe : b ≠ e := fun h => (List.Nodup.mem_erase_iff hnd4).mp hb |>.1 h
        simp only [key4_lt, Function.update_noteq hae, Function.update_noteq hbe]
        exact hab
      · rw [rb_erase_toList hnd6, rb_erase_toList hnd4]
        exact pm.erase e
      · rw [rb_erase_toList hnd4, List.length_erase_of_mem he4, ce]
        show (st.table.tree4.toList.length + WORD - 1) % WORD = _
        rw [show st.table.tree4.toList.length + WORD - 1 =
          (st.table.tree4.toList.length - 1) + WORD by omega, Nat.add_mod_right]
        exact Nat.mod_eq_of_lt (by omega)
      · intro p hp
        rw [rb_erase_toList hnd4] at hp
        obtain ⟨hpe, hp'⟩ := (List.Nodup.mem_erase_iff hnd4).mp hp
        simp only [Function.update_noteq hpe]
        exact ix p hp'
      · intro p hfp htp
        rw [rb_erase_toList hnd4]
        by_cases hpe : p = e
        · subst hpe; simp at hfp
        · simp only [Function.update_noteq hpe] at hfp htp
          exact (List.Nodup.mem_erase_iff hnd4).mpr ⟨hpe, br p hfp htp⟩
      · intro p hfp
        by_cases hpe : p = e
        · subst hpe; simp at hfp
        · simp only [Function.update_noteq hpe] at hfp
          exact lv p hfp
    · -- the entry was never indexed: only its memory goes
      have ht' : (st.mem e).table = false := by simpa using ht
      have he4 : e ∉ st.table.tree4.toList := fun hm => by
        have := (ix e hm).2.1; rw [ht'] at this; exact Bool.noConfusion this
      have he6 : e ∉ st.table.tree6.toList := fun hm => he4 (pm.mem_iff.mp hm)
      simp only [ht', Bool.false_eq_true, if_false, kmem_cache_free, store,
        Function.update_same, Function.update_idem]
      refine ⟨⟨⟨?_, ?_, pm, ce⟩, ⟨?_, ?_, ?_⟩⟩, Or.inl trivial⟩
      · refine List.Pairwise.imp_of_mem ?_ o6
        intro a b ha hb hab
        have hae : a ≠ e := fun h => he6 (h ▸ ha)
        have hbe : b ≠ e := fun h => he6 (h ▸ hb)
        simp only [key6_lt, Function.update_noteq hae, Function.update_noteq hbe]
        exact hab
      · refine List.Pairwise.imp_of_mem ?_ o4
        intro a b ha hb hab
        have hae : a ≠ e := fun h => he4 (h ▸ ha)
        have hbe : b ≠ e := fun h => he4 (h ▸ hb)
        simp only [key4_lt, Function.update_noteq hae, Function.update_noteq hbe]
        exact hab
      · intro p hp
        have hpe : p ≠ e := fun h => he4 (h ▸ hp)
        simp only [Function.update_noteq hpe]
        exact ix p hp
      · intro p hfp htp
        by_cases hpe : p = e
        · subst hpe; simp at hfp
        · simp only [Function.update_noteq hpe] at hfp htp
          exact br p hfp htp
      · intro p hfp
        by_cases hpe : p = e
        · subst hpe; simp at hfp
        · simp only [Function.update_noteq hpe] at hfp
          exact lv p hfp
  · rw [if_neg hz]
    refine ⟨inv_frame h0 rfl rfl rfl ?_, Or.inl rfl⟩
    intro p
    by_cases hp : p = e
    · subst hp; simp [store]
    · simp [store, Function.update_noteq hp]

theorem inv_put {st : bib_state} (h : table_inv st ∧ mem_inv st) (e : Nat)
    (hlive : (st.mem e).freed = false) :
    table_inv (bibentry_put st e) ∧ mem_inv (bibentry_put st e) :=
  (inv_kref_put h e hlive).1

theorem inv_flush_step (node : Nat) (args : iteration_args) (st : bib_state)
    (h : table_inv st ∧ mem_inv st) (hn : node ∈ st.table.tree4.toList) :
    (table_inv (__flush node args st).2.2 ∧ mem_inv (__flush node args st).2.2) ∧
    ((__flush node args st).2.2.table.tree4.toList = st.table.tree4.toList ∨
     (__flush node args st).2.2.table.tree4.toList = st.table.tree4.toList.erase node) := by
  unfold __flush
  split
  · rw [release_locked_eq]
    exact inv_kref_put h node (h.2.indexed node hn).1
  · exact ⟨h, Or.inl rfl⟩

theorem inv_delete_step (node : Nat) (args : iteration_args) (st : bib_state)
    (h : table_inv st ∧ mem_inv st) (hn : node ∈ st.table.tree4.toList) :
    (table_inv (__delete_taddr4s node args st).2.2 ∧
      mem_inv (__delete_taddr4s node args st).2.2) ∧
    ((__delete_taddr4s node args st).2.2.table.tree4.toList = st.table.tree4.toList ∨
     (__delete_taddr4s node args st).2.2.table.tree4.toList =
       st.table.tree4.toList.erase node) := by
  unfold __delete_taddr4s
  split
  · exact ⟨h, Or.inl rfl⟩
  · split
    · exact ⟨h, Or.inl rfl⟩
    · exact inv_flush_step node args st h hn

theorem find_starting_point_mem (st : bib_state) (offset : Option ipv4_transport_addr)
    (include_offset : Bool) (n : Nat)
    (h : find_starting_point st offset include_offset = some n) :
    n ∈ st.table.tree4.toList := by
  unfold find_starting_point at h
  cases offset with
  | none =>
    simp only at h
    rw [rb_first_eq_head] at h
    exact List.mem_of_mem_head? h
  | some off =>
    simp only at h
    rcases hr : rbtree_find_node (fun p => compare_full4 (st.mem p) off) st.table.tree4 none
      with ⟨node, parent⟩
    rw [hr] at h
    cases node with
    | some nd =>
      have hnd : nd ∈ st.table.tree4.toList := by
        have := rbtree_find_node_fst (fun p => compare_full4 (st.mem p) off)
          st.table.tree4 none
        rw [hr] at this
        exact (rbtree_find_mem this.symm).1
      simp only at h
      split_ifs at h
      · exact (Option.some.inj h) ▸ hnd
      · exact list_next_mem h
    | none =>
      cases parent with
      | none => simp at h
      | some par =>
        have hpar : par ∈ st.table.tree4.toList := by
          have := rbtree_find_node_parent (fun p => compare_full4 (st.mem p) off)
            st.table.tree4 none par (by rw [hr])
          rcases this with h1 | h1
          · exact h1
          · simp at h1
        simp only at h
        split_ifs at h
        · exact list_next_mem h
        · exact (Option.some.inj h) ▸ hpar

/-- A walk whose callback unlinks at most the entry it is handed returns,
and keeps the invariants. -/
theorem foreach_inv {α : Type} (func : Nat → α → bib_state → Int × α × bib_state)
    (hstep : ∀ node arg st, (table_inv st ∧ mem_inv st) → node ∈ st.table.tree4.toList →
      (table_inv (func node arg st).2.2 ∧ mem_inv (func node arg st).2.2) ∧
      ((func node arg st).2.2.table.tree4.toList = st.table.tree4.toList ∨
       (func node arg st).2.2.table.tree4.toList = st.table.tree4.toList.erase node))
    (st : bib_state) (h : table_inv st ∧ mem_inv st) (arg : α)
    (offset : Option ipv4_transport_addr) (include_offset : Bool) :
    ∃ r, __foreach st func arg offset include_offset = some r ∧
      table_inv r.2.2 ∧ mem_inv r.2.2 := by
  unfold __foreach
  apply foreach_loop_inv func (fun s => table_inv s ∧ mem_inv s)
    (fun s hs => nodup_of_ordered4 hs.1.ordered4) hstep _ _ _ _ _ h
  intro n hn
  have hm := find_starting_point_mem st offset include_offset n hn
  obtain ⟨l1, l2, hl⟩ := List.append_of_mem hm
  refine ⟨l1, l2, hl, ?_⟩
  rw [hl]
  simp
  omega

theorem inv_flush {st : bib_state} (h : table_inv st ∧ mem_inv st) :
    ∃ st', bibtable_flush st = some st' ∧ table_inv st' ∧ mem_inv st' := by
  obtain ⟨r, hr, hinv⟩ := foreach_inv __flush inv_flush_step st h
    { prefix4 := ⟨0, 0⟩, ports := ⟨0, 0⟩, deleted := 0 } none false
  exact ⟨r.2.2, by unfold bibtable_flush; rw [hr]; rfl, hinv⟩

theorem inv_delete_taddr4s {st : bib_state} (h : table_inv st ∧ mem_inv st)
    (prefix4 : ipv4_prefix) (ports : port_range) :
    ∃ st', bibtable_delete_taddr4s st prefix4 ports = some st' ∧
      table_inv st' ∧ mem_inv st' := by
  obtain ⟨r, hr, hinv⟩ := foreach_inv __delete_taddr4s inv_delete_step st h
    { prefix4 := prefix4, ports := ports, deleted := 0 }
    (some { l3 := prefix4.address, l4 := ports.min }) true
  exact ⟨r.2.2, by unfold bibtable_delete_taddr4s; rw [hr]; rfl, hinv⟩

theorem inv_reader {α : Type} (f : bib_entry → α → Int × α) (st : bib_state)
    (h : table_inv st ∧ mem_inv st) (arg : α) (offset : Option ipv4_transport_addr) :
    ∃ r, bibtable_foreach st (reader f) arg offset = some r ∧
      table_inv r.2.2 ∧ mem_inv r.2.2 :=
  foreach_inv (reader f) (fun _ _ _ hs _ => ⟨hs, Or.inl rfl⟩) st h arg offset false

theorem inv_init (log_changes : Bool) :
    table_inv (bibtable_init
      { mem := fun _ => blank,
        table := { tree6 := RB_ROOT, tree4 := RB_ROOT, count := 0, log_changes := false } }
      log_changes) ∧
    mem_inv (bibtable_init
      { mem := fun _ => blank,
        table := { tree6 := RB_ROOT, tree4 := RB_ROOT, count := 0, log_changes := false } }
      log_changes) := by
  refine ⟨⟨List.Pairwise.nil, List.Pairwise.nil, List.Perm.refl _, rfl⟩, ⟨?_, ?_, ?_⟩⟩
  · intro p hp; exact absurd hp (List.not_mem_nil _)
  · intro p hf; simp [bibtable_init, blank] at hf
  · intro p hf; simp [bibtable_init, blank] at hf

theorem reachable_inv {st : bib_state} (h : reachable st) : table_inv st ∧ mem_inv st := by
  induction h with
  | init log_changes => exact inv_init log_changes
  | create st p a4 a6 s proto _ hv hf ih => exact inv_create ih p a4 a6 s proto hv hf
  | add st bib old _ hl ih => exact inv_add ih bib old hl
  | get st bib _ _ ih => exact inv_get ih bib
  | put st bib _ hl ih => exact inv_put ih bib hl
  | get6 st a _ ih => exact inv_get6 ih a
  | get4 st a _ ih => exact inv_get4 ih a
  | flush st st' _ hfl ih =>
    obtain ⟨st2, h2, hinv⟩ := inv_flush ih
    rw [hfl] at h2
    exact (Option.some.inj h2) ▸ hinv
  | delete_taddr4s st st' p r _ hd ih =>
    obtain ⟨st2, h2, hinv⟩ := inv_delete_taddr4s ih p r
    rw [hd] at h2
    exact (Option.some.inj h2) ▸ hinv
  | foreach st f arg offset r _ hfe ih =>
    obtain ⟨r2, h2, hinv⟩ := inv_reader f st ih arg offset
    rw [hfe] at h2
    exact (Option.some.inj h2) ▸ hinv
  | rebalance st t6 t4 _ h6 h4 ih =>
    exact inv_frame ih h6 h4 rfl (fun p => ⟨rfl, rfl, rfl, rfl, id, id⟩)

/-- Claim C3, as amended: the BIB invariants B1 and B2.  In every state
reached from an initialised table over empty memory by `bibentry_create`,
`bibtable_add`, `bibentry_get`, `bibentry_put`, the lookups,
`bibtable_flush`, `bibtable_delete_taddr4s` and `bibtable_foreach` with a
reading callback (`bibtable_rm` running only inside the drop that releases
an entry), `tree6` and `tree4` link the same entries, none twice; no two
indexed entries have the same `ipv6` and no two the same `ipv4`; `count` is
the number of indexed entries; and `bibtable_flush` and
`bibtable_delete_taddr4s` return from that state. -/
theorem bib_invariants (st : bib_state) (h : reachable st) :
    (∀ p, p ∈ st.table.tree6.toList ↔ p ∈ st.table.tree4.toList) ∧
    st.table.tree6.toList.Nodup ∧ st.table.tree4.toList.Nodup ∧
    (∀ p ∈ st.table.tree6.toList, ∀ q ∈ st.table.tree6.toList,
      (st.mem p).ipv6 = (st.mem q).ipv6 → p = q) ∧
    (∀ p ∈ st.table.tree4.toList, ∀ q ∈ st.table.tree4.toList,
      (st.mem p).ipv4 = (st.mem q).ipv4 → p = q) ∧
    st.table.count = st.table.tree4.toList.length ∧
    (bibtable_flush st).isSome = true ∧
    (∀ (prefix4 : ipv4_prefix) (ports : port_range),
      (bibtable_delete_taddr4s st prefix4 ports).isSome = true) := by
  have hinv := reachable_inv h
  obtain ⟨o6, o4, pm, ce⟩ := hinv.1
  refine ⟨fun p => pm.mem_iff, nodup_of_ordered6 o6, nodup_of_ordered4 o4, ?_, ?_, ce, ?_, ?_⟩
  · intro p hp q hq hk
    exact pairwise_zero_unique o6 (key_mono6 st.mem (st.mem q).ipv6) hp hq
      ((compare_full6_eq_zero _ _).mpr hk) ((compare_full6_eq_zero _ _).mpr rfl)
  · intro p hp q hq hk
    exact pairwise_zero_unique o4 (key_mono4 st.mem (st.mem q).ipv4) hp hq
      ((compare_full4_eq_zero _ _).mpr hk) ((compare_full4_eq_zero _ _).mpr rfl)
  · obtain ⟨st', h', -⟩ := inv_flush hinv
    rw [h']; rfl
  · intro prefix4 ports
    obtain ⟨st', h', -⟩ := inv_delete_taddr4s hinv prefix4 ports
    rw [h']; rfl

/-- An instance of C3: entry 1 is created and indexed, entry 2 is created,
refused as a duplicate and dropped. -/
theorem bib_invariants_witness :
    reachable (bibentry_put (bibtable_add seed_duplicate 2 true).2.2 2) ∧
    (bibentry_put (bibtable_add seed_duplicate 2 true).2.2 2).table.tree6.toList = [1] ∧
    (bibentry_put (bibtable_add seed_duplicate 2 true).2.2 2).table.tree4.toList = [1] ∧
    (bibentry_put (bibtable_add seed_duplicate 2 true).2.2 2).table.count = 1 := by
  have hr : reachable (bibentry_put (bibtable_add seed_duplicate 2 true).2.2 2) :=
    reachable.put _ 2
      (reachable.add _ 2 true
        (reachable.create _ 2 seed_addr4 seed_addr6_2 false 17
          (reachable.add _ 1 false
            (reachable.create _ 1 seed_addr4 seed_addr6_1 false 17
              (reachable.init false) (by decide) (by decide))
            (by decide))
          (by decide) (by decide))
        (by decide))
      (by decide)
  have h := bib_invariants _ hr
  exact ⟨hr, by decide, by decide, h.2.2.2.2.2.1.trans (by decide)⟩

/-- Claim C3 as stated fails: after `bibtable_add`, a direct `bibtable_rm` of
the indexed entry leaves its back-reference set, so the `bibentry_put` that
releases the entry runs `rm` again and `count` wraps to `2 ^ 64 - 1` over an
empty table. -/
theorem bib_invariants_counterexample :
    seed_created.table.tree4.toList = [] ∧
    (bibtable_add seed_created 1 false).1 = 0 ∧
    1 ∈ (bibtable_add seed_created 1 false).2.2.table.tree4.toList ∧
    ((bibtable_rm (bibtable_add seed_created 1 false).2.2 1).mem 1).table = true ∧
    (bibtable_rm (bibtable_add seed_created 1 false).2.2 1).table.count = 0 ∧
    seed_rm_then_put.table.tree6.toList = [] ∧
    seed_rm_then_put.table.tree4.toList = [] ∧
    seed_rm_then_put.table.count = 2 ^ 64 - 1 ∧
    seed_rm_then_put.table.count ≠ seed_rm_then_put.table.tree4.toList.length := by
  decide

end Bib

end Jool

namespace Jool

/-! ## Start node of a walk -/

/-- Where the walk of `rbtree_find_node` ends in an ordered tree, seen
inside the in-order sequence `A ++ t.toList ++ B` of the whole tree: either
on the entry that compares as equal, or on the last entry below the key or
the first entry above it. -/
theorem rbtree_find_node_spec {R : Nat → Nat → Prop} {cmp : Nat → Int} (hm : key_mono R cmp) :
    ∀ (t : rb_node) (A B : List Nat) (par : Option Nat),
      (A ++ t.toList ++ B).Pairwise R → (∀ a ∈ A, cmp a < 0) → (∀ b ∈ B, 0 < cmp b) →
      ((par = none ∧ A = [] ∧ B = []) ∨
        ∃ q, par = some q ∧
          ((cmp q < 0 ∧ ∃ A', A = A' ++ [q]) ∨ (0 < cmp q ∧ ∃ B', B = q :: B'))) →
      ∃ L1 L2, (∀ a ∈ L1, cmp a < 0) ∧ (∀ b ∈ L2, 0 < cmp b) ∧
        ((∃ n, rbtree_find_node cmp t par = (some n, some n) ∧ cmp n = 0 ∧
            A ++ t.toList ++ B = L1 ++ n :: L2) ∨
         (rbtree_find_node cmp t par = (none, none) ∧ A ++ t.toList ++ B = []) ∨
         (∃ q, rbtree_find_node cmp t par = (none, some q) ∧
            A ++ t.toList ++ B = L1 ++ L2 ∧
            ((cmp q < 0 ∧ ∃ L1', L1 = L1' ++ [q]) ∨ (0 < cmp q ∧ ∃ L2', L2 = q :: L2')))) := by
  intro t
  induction t with
  | nil =>
    intro A B par _ hA hB hpar
    refine ⟨A, B, hA, hB, ?_⟩
    rcases hpar with ⟨rfl, rfl, rfl⟩ | ⟨q, rfl, hq⟩
    · exact Or.inr (Or.inl ⟨rfl, rfl⟩)
    · exact Or.inr (Or.inr ⟨q, rfl, by simp [rb_node.toList], hq⟩)
  | node l x r ihl ihr =>
    intro A B par ho hA hB _
    have hlx : ∀ a ∈ l.toList, R a x := by
      intro a ha
      have h1 := (List.pairwise_append.mp ho).1
      have h2 := (List.pairwise_append.mp h1).2.1
      simp only [rb_node.toList] at h2
      exact (List.pairwise_append.mp h2).2.2 a ha x (List.mem_cons_self _ _)
    have hxr : ∀ b ∈ r.toList, R x b := by
      intro b hb
      have h1 := (List.pairwise_append.mp ho).1
      have h2 := (List.pairwise_append.mp h1).2.1
      simp only [rb_node.toList] at h2
      exact (List.pairwise_cons.mp (List.pairwise_append.mp h2).2.1).1 b hb
    simp only [rbtree_find_node]
    by_cases h1 : cmp x < 0
    · rw [if_pos h1]
      have e : (A ++ l.toList ++ [x]) ++ r.toList ++ B = A ++ (rb_node.node l x r).toList ++ B := by
        simp [rb_node.toList]
      have := ihr (A ++ l.toList ++ [x]) B (some x) (by rw [e]; exact ho)
        (by
          intro a ha
          simp only [List.mem_append, List.mem_singleton] at ha
          rcases ha with (ha | ha) | rfl
          · exact hA a ha
          · exact (hm a x (hlx a ha)).1 (le_of_lt h1)
          · exact h1)
        hB (Or.inr ⟨x, rfl, Or.inl ⟨h1, A ++ l.toList, rfl⟩⟩)
      rw [e] at this
      exact this
    · rw [if_neg h1]
      by_cases h2 : 0 < cmp x
      · rw [if_pos h2]
        have e : A ++ l.toList ++ (x :: r.toList ++ B) = A ++ (rb_node.node l x r).toList ++ B := by
          simp [rb_node.toList]
        have := ihl A (x :: r.toList ++ B) (some x) (by rw [e]; exact ho) hA
          (by
            intro b hb
            simp only [List.cons_append, List.mem_cons, List.mem_append] at hb
            rcases hb with rfl | hb | hb
            · exact h2
            · exact (hm x b (hxr b hb)).2 (le_of_lt h2)
            · exact hB b hb)
          (Or.inr ⟨x, rfl, Or.inr ⟨h2, r.toList ++ B, rfl⟩⟩)
        rw [e] at this
        exact this
      · rw [if_neg h2]
        refine ⟨A ++ l.toList, r.toList ++ B, ?_, ?_, Or.inl ⟨x, rfl, by omega, ?_⟩⟩
        · intro a ha
          rcases List.mem_append.mp ha with ha | ha
          · exact hA a ha
          · exact (hm a x (hlx a ha)).1 (by omega)
        · intro b hb
          rcases List.mem_append.mp hb with hb | hb
          · exact (hm x b (hxr b hb)).2 (by omega)
          · exact hB b hb
        · simp [rb_node.toList]

/-- The same for a whole tree. -/
theorem rbtree_find_node_root {R : Nat → Nat → Prop} {cmp : Nat → Int} (hm : key_mono R cmp)
    (t : rb_node) (ho : rb_ordered R t) :
    ∃ L1 L2, (∀ a ∈ L1, cmp a < 0) ∧ (∀ b ∈ L2, 0 < cmp b) ∧
      ((∃ n, rbtree_find_node cmp t none = (some n, some n) ∧ cmp n = 0 ∧
          t.toList = L1 ++ n :: L2) ∨
       (rbtree_find_node cmp t none = (none, none) ∧ t.toList = []) ∨
       (∃ q, rbtree_find_node cmp t none = (none, some q) ∧ t.toList = L1 ++ L2 ∧
          ((cmp q < 0 ∧ ∃ L1', L1 = L1' ++ [q]) ∨ (0 < cmp q ∧ ∃ L2', L2 = q :: L2')))) := by
  have := rbtree_find_node_spec hm t [] [] none (by simpa using ho) (by simp) (by simp)
    (Or.inl ⟨rfl, rfl, rfl⟩)
  simpa using this

namespace Bib

/-! ## Lookups -/

/-- Claim C11: `bibtable_get6` returns 0 with the indexed entry whose `ipv6`
is the address, its reference count one higher and nothing else changed,
when there is such an entry, and returns `-ESRCH` with a null result and the
state as it was when there is none; `bibtable_get4` does the same on `ipv4`;
`bibtable_contains4` is true exactly when `bibtable_get4` succeeds; the
trees and `count` are those of the state the call started from. -/
theorem bibtable_lookups (st : bib_state) (a6 : ipv6_transport_addr)
    (a4 : ipv4_transport_addr)
    (h6 : rb_ordered (key6_lt st.mem) st.table.tree6)
    (h4 : rb_ordered (key4_lt st.mem) st.table.tree4) :
    (∀ p ∈ st.table.tree6.toList, (st.mem p).ipv6 = a6 →
      ∃ st', bibtable_get6 st a6 = (0, some p, st') ∧ st'.table = st.table ∧
        st'.mem p = { st.mem p with refcounter := (st.mem p).refcounter + 1 } ∧
        ∀ q, q ≠ p → st'.mem q = st.mem q) ∧
    ((∀ p ∈ st.table.tree6.toList, (st.mem p).ipv6 ≠ a6) →
      bibtable_get6 st a6 = (-ESRCH, none, st)) ∧
    ((bibtable_get6 st a6).1 = 0 ↔ ∃ p ∈ st.table.tree6.toList, (st.mem p).ipv6 = a6) ∧
    (∀ p ∈ st.table.tree4.toList, (st.mem p).ipv4 = a4 →
      ∃ st', bibtable_get4 st a4 = (0, some p, st') ∧ st'.table = st.table ∧
        st'.mem p = { st.mem p with refcounter := (st.mem p).refcounter + 1 } ∧
        ∀ q, q ≠ p → st'.mem q = st.mem q) ∧
    ((∀ p ∈ st.table.tree4.toList, (st.mem p).ipv4 ≠ a4) →
      bibtable_get4 st a4 = (-ESRCH, none, st)) ∧
    ((bibtable_get4 st a4).1 = 0 ↔ ∃ p ∈ st.table.tree4.toList, (st.mem p).ipv4 = a4) ∧
    (bibtable_contains4 st a4 = true ↔ (bibtable_get4 st a4).1 = 0) := by
  have hit6 : ∀ p ∈ st.table.tree6.toList, (st.mem p).ipv6 = a6 →
      find_by_addr6 st a6 = some p := fun p hp hk => hk ▸ find6_of_mem h6 hp
  have hit4 : ∀ p ∈ st.table.tree4.toList, (st.mem p).ipv4 = a4 →
      find_by_addr4 st a4 = some p := fun p hp hk => hk ▸ find4_of_mem h4 hp
  have hE : -ESRCH ≠ 0 := by decide
  refine ⟨?_, ?_, ?_, ?_, ?_, ?_, ?_⟩
  · intro p hp hk
    refine ⟨bibentry_get st p, ?_, rfl, ?_, ?_⟩
    · simp only [bibtable_get6, hit6 p hp hk]
    · simp [bibentry_get, store]
    · intro q hq
      simp [bibentry_get, store, Function.update_noteq hq]
  · intro h
    simp only [bibtable_get6, find6_none_of_absent h]
  · constructor
    · intro h
      by_contra hne
      have habs : ∀ p ∈ st.table.tree6.toList, (st.mem p).ipv6 ≠ a6 :=
        fun p hp hk => hne ⟨p, hp, hk⟩
      simp only [bibtable_get6, find6_none_of_absent habs] at h
      exact hE h
    · rintro ⟨p, hp, hk⟩
      simp only [bibtable_get6, hit6 p hp hk]
  · intro p hp hk
    refine ⟨bibentry_get st p, ?_, rfl, ?_, ?_⟩
    · simp only [bibtable_get4, hit4 p hp hk]
    · simp [bibentry_get, store]
    · intro q hq
      simp [bibentry_get, store, Function.update_noteq hq]
  · intro h
    simp only [bibtable_get4, find4_none_of_absent h]
  · constructor
    · intro h
      by_contra hne
      have habs : ∀ p ∈ st.table.tree4.toList, (st.mem p).ipv4 ≠ a4 :=
        fun p hp hk => hne ⟨p, hp, hk⟩
      simp only [bibtable_get4, find4_none_of_absent habs] at h
      exact hE h
    · rintro ⟨p, hp, hk⟩
      simp only [bibtable_get4, hit4 p hp hk]
  · simp only [bibtable_contains4, bibtable_get4]
    cases find_by_addr4 st a4 with
    | none => simp [hE]
    | some r => simp

/-- Seed scenario 1 as an instance of C11: the indexed entry is found by
either key and a reference is taken; foreign keys are not found. -/
theorem bibtable_lookups_witness :
    (rb_ordered (key6_lt seed_indexed.mem) seed_indexed.table.tree6 ∧
     rb_ordered (key4_lt seed_indexed.mem) seed_indexed.table.tree4) ∧
    ((bibtable_get6 seed_indexed seed_addr6_1).1 = 0 ↔
      ∃ p ∈ seed_indexed.table.tree6.toList, (seed_indexed.mem p).ipv6 = seed_addr6_1) ∧
    (bibtable_contains4 seed_indexed seed_addr4 = true ↔
      (bibtable_get4 seed_indexed seed_addr4).1 = 0) ∧
    bibtable_get6 seed_indexed seed_addr6_1 = (0, some 1, bibentry_get seed_indexed 1) ∧
    ((bibtable_get6 seed_indexed seed_addr6_1).2.2.mem 1).refcounter = 2 ∧
    bibtable_get6 seed_indexed seed_addr6_2 = (-ESRCH, none, seed_indexed) := by
  have h := bibtable_lookups seed_indexed seed_addr6_1 seed_addr4 (by decide) (by decide)
  exact ⟨⟨by decide, by decide⟩, h.2.2.1, h.2.2.2.2.2.2, rfl, by decide, rfl⟩

/-! ## Collision reporting -/

theorem add_exists_refs (st : bib_state) (c : Nat) :
    (add_exists st c true).2.1 = some c ∧
    ((add_exists st c true).2.2.mem c).refcounter = (st.mem c).refcounter + 1 ∧
    (∀ q, q ≠ c → (add_exists st c true).2.2.mem q = st.mem q) ∧
    (add_exists st c false).2.1 = none ∧ (add_exists st c false).2.2 = st := by
  refine ⟨rfl, by simp [add_exists, bibentry_get, store], ?_, rfl, rfl⟩
  intro q hq
  simp [add_exists, bibentry_get, store, Function.update_noteq hq]

theorem linked6_refcounter (st : bib_state) (e q : Nat) :
    ((linked6 st e).mem q).refcounter = (st.mem q).refcounter := by
  simp only [linked6]
  by_cases h : q = e
  · subst h; simp
  · simp [Function.update_noteq h]

/-- Claim C16: when `bibtable_add` returns `-EEXIST`, there is an indexed
entry that collides with the new one, the one with the same `ipv6` if there
is one and the one with the same `ipv4` otherwise; with an out-pointer that
entry is what the call hands out and its reference count has gone up by
exactly one, every other count being unchanged; without an out-pointer
nothing is handed out and no reference count changes. -/
theorem bibtable_add_collision_report (st : bib_state) (e : Nat) (old : Bool)
    (h6 : rb_ordered (key6_lt st.mem) st.table.tree6)
    (hret : (bibtable_add st e old).1 = -EEXIST) :
    ∃ c, ((c ∈ st.table.tree6.toList ∧ (st.mem c).ipv6 = (st.mem e).ipv6) ∨
          ((∀ p ∈ st.table.tree6.toList, (st.mem p).ipv6 ≠ (st.mem e).ipv6) ∧
            c ∈ st.table.tree4.toList ∧ (st.mem c).ipv4 = (st.mem e).ipv4)) ∧
      (bibtable_add st e true).1 = -EEXIST ∧
      (bibtable_add st e true).2.1 = some c ∧
      ((bibtable_add st e true).2.2.mem c).refcounter = (st.mem c).refcounter + 1 ∧
      (∀ q, q ≠ c →
        ((bibtable_add st e true).2.2.mem q).refcounter = (st.mem q).refcounter) ∧
      (bibtable_add st e false).1 = -EEXIST ∧
      (bibtable_add st e false).2.1 = none ∧
      (∀ q, ((bibtable_add st e false).2.2.mem q).refcounter = (st.mem q).refcounter) := by
  cases hf6 : find_by_addr6 st (st.mem e).ipv6 with
  | some c =>
    have hm := rbtree_find_mem hf6
    have hr := add_exists_refs st c
    refine ⟨c, Or.inl ⟨hm.1, (compare_full6_eq_zero _ _).mp hm.2⟩, ?_⟩
    rw [bibtable_add_v6 true hf6, bibtable_add_v6 false hf6]
    refine ⟨add_exists_fst _ _ _, hr.1, hr.2.1, ?_, add_exists_fst _ _ _, hr.2.2.2.1, ?_⟩
    · intro q hq; rw [hr.2.2.1 q hq]
    · intro q; rw [hr.2.2.2.2]
  | none =>
    have hno6 : ∀ p ∈ st.table.tree6.toList, (st.mem p).ipv6 ≠ (st.mem e).ipv6 := by
      intro p hp hk
      have := find6_of_mem h6 hp
      rw [hk, hf6] at this
      exact Option.noConfusion this
    cases hf4 : find_by_addr4 st (st.mem e).ipv4 with
    | some c =>
      have hm := rbtree_find_mem hf4
      refine ⟨c, Or.inr ⟨hno6, hm.1, (compare_full4_eq_zero _ _).mp hm.2⟩, ?_⟩
      rw [bibtable_add_v4 true hf6 hf4, bibtable_add_v4 false hf6 hf4]
      have hr := add_exists_refs
        { linked6 st e with table := { (linked6 st e).table with
            tree6 := rb_erase e (linked6 st e).table.tree6 } } c
      refine ⟨add_exists_fst _ _ _, hr.1, ?_, ?_, add_exists_fst _ _ _, hr.2.2.2.1, ?_⟩
      · rw [hr.2.1]; exact congrArg (· + 1) (linked6_refcounter st e c)
      · intro q hq; rw [hr.2.2.1 q hq]; exact linked6_refcounter st e q
      · intro q; rw [hr.2.2.2.2]; exact linked6_refcounter st e q
    | none =>
      exfalso
      have hE : (0 : Int) ≠ -EEXIST := by decide
      rw [bibtable_add_ok old hf6 hf4] at hret
      exact hE hret

/-- Seed scenario 2 as an instance of C16: adding
([2001:db8::2]#10000, 192.0.2.5#40000) after
([2001:db8::1]#10000, 192.0.2.5#40000) reports the first entry, whose
reference count goes from 1 to 2. -/
theorem bibtable_add_collision_report_witness :
    (rb_ordered (key6_lt seed_duplicate.mem) seed_duplicate.table.tree6 ∧
     (bibtable_add seed_duplicate 2 true).1 = -EEXIST) ∧
    (∃ c, ((c ∈ seed_duplicate.table.tree6.toList ∧
            (seed_duplicate.mem c).ipv6 = (seed_duplicate.mem 2).ipv6) ∨
          ((∀ p ∈ seed_duplicate.table.tree6.toList,
              (seed_duplicate.mem p).ipv6 ≠ (seed_duplicate.mem 2).ipv6) ∧
            c ∈ seed_duplicate.table.tree4.toList ∧
            (seed_duplicate.mem c).ipv4 = (seed_duplicate.mem 2).ipv4)) ∧
      (bibtable_add seed_duplicate 2 true).1 = -EEXIST ∧
      (bibtable_add seed_duplicate 2 true).2.1 = some c ∧
      ((bibtable_add seed_duplicate 2 true).2.2.mem c).refcounter =
        (seed_duplicate.mem c).refcounter + 1 ∧
      (∀ q, q ≠ c → ((bibtable_add seed_duplicate 2 true).2.2.mem q).refcounter =
        (seed_duplicate.mem q).refcounter) ∧
      (bibtable_add seed_duplicate 2 false).1 = -EEXIST ∧
      (bibtable_add seed_duplicate 2 false).2.1 = none ∧
      (∀ q, ((bibtable_add seed_duplicate 2 false).2.2.mem q).refcounter =
        (seed_duplicate.mem q).refcounter)) ∧
    (bibtable_add seed_duplicate 2 true).2.1 = some 1 ∧
    (seed_duplicate.mem 1).refcounter = 1 ∧
    ((bibtable_add seed_duplicate 2 true).2.2.mem 1).refcounter = 2 :=
  ⟨⟨by decide, by decide⟩,
    bibtable_add_collision_report seed_duplicate 2 true (by decide) (by decide),
    by decide, by decide, by decide⟩

/-! ## Dropping a reference -/

theorem kref_put_keep {st : bib_state} {e : Nat} (rel : bib_state → Nat → bib_state)
    (h : (st.mem e).refcounter - 1 ≠ 0) :
    kref_put st e rel =
      (false, store st e { st.mem e with refcounter := (st.mem e).refcounter - 1 }) := by
  simp only [kref_put, if_neg h]

theorem kref_put_release_indexed {st : bib_state} {e : Nat}
    (h : (st.mem e).refcounter - 1 = 0) (ht : (st.mem e).table = true)
    (h6 : (st.mem e).tree6_hook = true) (h4 : (st.mem e).tree4_hook = true) :
    kref_put st e release =
      (true,
       { mem := Function.update st.mem e
           { st.mem e with refcounter := (st.mem e).refcounter - 1, freed := true },
         table := { st.table with
           tree6 := rb_erase e st.table.tree6,
           tree4 := rb_erase e st.table.tree4,
           count := (st.table.count + WORD - 1) % WORD } }) := by
  simp [kref_put, h, release, bibtable_rm, rm, kmem_cache_free, store, ht, h6, h4]

theorem kref_put_release_unindexed {st : bib_state} {e : Nat}
    (h : (st.mem e).refcounter - 1 = 0) (ht : (st.mem e).table = false) :
    kref_put st e release =
      (true,
       { mem := Function.update st.mem e
           { st.mem e with refcounter := (st.mem e).refcounter - 1, freed := true },
         table := st.table }) := by
  simp [kref_put, h, release, kmem_cache_free, store, ht]

/-- Claim C13, amended: in a table that satisfies its invariants (both trees
ordered and linking the same entries, `count` the number of linked
entries, the back-reference set exactly on the linked entries, as in every
state reached without a direct `bibtable_rm`), `bibentry_put` of an
allocated entry with reference count n leaves the count at n - 1 and
touches no other entry; when n = 1 and the entry points back at the table it
is taken out of both trees, `count` goes down by one and the entry is
freed; when n = 1 and the entry points at no table, the table is untouched
and the entry is freed; when n > 1 the table is untouched and the entry
stays allocated; `kref_put` with `release_locked` leaves the same state. -/
theorem bibentry_put_contract (st : bib_state) (e : Nat)
    (ht : table_inv st) (hm : mem_inv st) (hlive : (st.mem e).freed = false) :
    ((bibentry_put st e).mem e).refcounter = (st.mem e).refcounter - 1 ∧
    (∀ q, q ≠ e → (bibentry_put st e).mem q = st.mem q) ∧
    ((st.mem e).refcounter = 1 → (st.mem e).table = true →
      e ∈ st.table.tree6.toList ∧ e ∈ st.table.tree4.toList ∧
      (bibentry_put st e).table.tree6.toList = st.table.tree6.toList.erase e ∧
      (bibentry_put st e).table.tree4.toList = st.table.tree4.toList.erase e ∧
      e ∉ (bibentry_put st e).table.tree6.toList ∧
      e ∉ (bibentry_put st e).table.tree4.toList ∧
      (bibentry_put st e).table.count + 1 = st.table.count ∧
      ((bibentry_put st e).mem e).freed = true) ∧
    ((st.mem e).refcounter = 1 → (st.mem e).table = false →
      (bibentry_put st e).table = st.table ∧ ((bibentry_put st e).mem e).freed = true) ∧
    (1 < (st.mem e).refcounter →
      (bibentry_put st e).table = st.table ∧ ((bibentry_put st e).mem e).freed = false) ∧
    (kref_put st e release_locked).2 = bibentry_put st e := by
  have hn6 := nodup_of_ordered6 ht.ordered6
  have hn4 := nodup_of_ordered4 ht.ordered4
  refine ⟨?_, ?_, ?_, ?_, ?_, rfl⟩
  · simp only [bibentry_put]
    by_cases h : (st.mem e).refcounter - 1 = 0
    · cases hb : (st.mem e).table with
      | true =>
        have hi := hm.indexed e (hm.backref e hlive hb)
        rw [kref_put_release_indexed h hb hi.2.2.1 hi.2.2.2]
        simp
      | false =>
        rw [kref_put_release_unindexed h hb]
        simp
    · rw [kref_put_keep _ h]
      simp [store]
  · intro q hq
    simp only [bibentry_put]
    by_cases h : (st.mem e).refcounter - 1 = 0
    · cases hb : (st.mem e).table with
      | true =>
        have hi := hm.indexed e (hm.backref e hlive hb)
        rw [kref_put_release_indexed h hb hi.2.2.1 hi.2.2.2]
        simp [Function.update_noteq hq]
      | false =>
        rw [kref_put_release_unindexed h hb]
        simp [Function.update_noteq hq]
    · rw [kref_put_keep _ h]
      simp [store, Function.update_noteq hq]
  · intro h1 hb
    have h : (st.mem e).refcounter - 1 = 0 := by omega
    have he4 := hm.backref e hlive hb
    have he6 : e ∈ st.table.tree6.toList := ht.perm.mem_iff.mpr he4
    have hi := hm.indexed e he4
    have hlen := length_lt_of_valid hn4
      (fun p hp => hm.live_valid p (hm.indexed p hp).1)
    have hpos : 0 < st.table.tree4.toList.length := List.length_pos_of_mem he4
    simp only [bibentry_put]
    rw [kref_put_release_indexed h hb hi.2.2.1 hi.2.2.2]
    refine ⟨he6, he4, rb_erase_toList hn6, rb_erase_toList hn4, ?_, ?_, ?_, by simp⟩
    · show e ∉ (rb_erase e st.table.tree6).toList
      rw [rb_erase_toList hn6]
      exact fun hx => (List.Nodup.mem_erase_iff hn6).mp hx |>.1 rfl
    · show e ∉ (rb_erase e st.table.tree4).toList
      rw [rb_erase_toList hn4]
      exact fun hx => (List.Nodup.mem_erase_iff hn4).mp hx |>.1 rfl
    · show (st.table.count + WORD - 1) % WORD + 1 = st.table.count
      rw [ht.count_eq]
      simp only [WORD] at hlen ⊢
      omega
  · intro h1 hb
    have h : (st.mem e).refcounter - 1 = 0 := by omega
    simp only [bibentry_put]
    rw [kref_put_release_unindexed h hb]
    exact ⟨rfl, by simp⟩
  · intro h1
    have h : (st.mem e).refcounter - 1 ≠ 0 := by omega
    simp only [bibentry_put]
    rw [kref_put_keep _ h]
    exact ⟨rfl, by simpa [store] using hlive⟩

/-- Seed scenario 1 as an instance of the amended C13: the creator drops the only
reference of the indexed entry, which leaves both trees and is freed. -/
theorem bibentry_put_contract_witness :
    (table_inv seed_indexed ∧ mem_inv seed_indexed ∧ (seed_indexed.mem 1).freed = false) ∧
    (seed_indexed.mem 1).refcounter = 1 ∧ (seed_indexed.mem 1).table = true ∧
    seed_indexed.table.tree4.toList = [1] ∧
    1 ∉ (bibentry_put seed_indexed 1).table.tree6.toList ∧
    1 ∉ (bibentry_put seed_indexed 1).table.tree4.toList ∧
    (bibentry_put seed_indexed 1).table.count + 1 = seed_indexed.table.count ∧
    ((bibentry_put seed_indexed 1).mem 1).freed = true ∧
    ((bibentry_put seed_indexed 1).mem 1).refcounter = 0 := by
  have hr : reachable seed_indexed :=
    reachable.add _ 1 false
      (reachable.create _ 1 seed_addr4 seed_addr6_1 false 17
        (reachable.init false) (by decide) (by decide))
      (by decide)
  have hi := reachable_inv hr
  have h := bibentry_put_contract seed_indexed 1 hi.1 hi.2 (by decide)
  have h1 := h.2.2.1 (by decide) (by decide)
  exact ⟨⟨hi.1, hi.2, by decide⟩, by decide, by decide, by decide, h1.2.2.2.2.1,
    h1.2.2.2.2.2.1, h1.2.2.2.2.2.2.1, h1.2.2.2.2.2.2.2, h.1.trans (by decide)⟩

/-- Claim C13 as stated fails: after `bibentry_create`, `bibtable_add` and a
direct `bibtable_rm`, the entry is allocated with reference count 1 and
still points back at the table, which links no entry and has `count` 0;
`bibentry_put` then runs `rm` again and leaves `count` at 2^64 - 1 instead
of one lower. -/
theorem bibentry_put_counterexample :
    (bibtable_add seed_created 1 false).1 = 0 ∧
    ((bibtable_rm seed_indexed 1).mem 1).freed = false ∧
    ((bibtable_rm seed_indexed 1).mem 1).refcounter = 1 ∧
    ((bibtable_rm seed_indexed 1).mem 1).table = true ∧
    (bibtable_rm seed_indexed 1).table.tree6.toList = [] ∧
    (bibtable_rm seed_indexed 1).table.tree4.toList = [] ∧
    (bibtable_rm seed_indexed 1).table.count = 0 ∧
    ((bibentry_put (bibtable_rm seed_indexed 1) 1).mem 1).freed = true ∧
    (bibentry_put (bibtable_rm seed_indexed 1) 1).table.count = 2 ^ 64 - 1 ∧
    (bibentry_put (bibtable_rm seed_indexed 1) 1).table.count + 1 ≠
      (bibtable_rm seed_indexed 1).table.count := by
  decide

/-! ## The back-reference -/

theorem linked6_table (st : bib_state) (e q : Nat) :
    ((linked6 st e).mem q).table = (st.mem q).table := by
  simp only [linked6]
  by_cases h : q = e
  · subst h; simp
  · simp [Function.update_noteq h]

theorem not_mem_erase_self {l : List Nat} (h : l.Nodup) (e : Nat) : e ∉ l.erase e :=
  fun hx => ((List.Nodup.mem_erase_iff h).mp hx).1 rfl

/-- Claim C17, amended: in every state reached by `bibentry_create`,
`bibtable_add`, lookups and reference drops (`bibtable_rm` running inside
the drop that releases an entry), an allocated entry points back at the
table exactly when it is linked in both trees.  The back-reference is
unset by `bibentry_create`, set by a successful `bibtable_add` on the added
entry only, left alone by a failing `bibtable_add`, and left alone by
`bibtable_rm`, which takes an indexed entry out of both trees while the
entry keeps pointing at the table. -/
theorem bib_backref_invariant (st : bib_state) (h : reachable st) :
    (∀ e, (st.mem e).freed = false →
      ((st.mem e).table = true ↔ e ∈ st.table.tree6.toList ∧ e ∈ st.table.tree4.toList)) ∧
    (∀ (p : Nat) (addr4 : ipv4_transport_addr) (addr6 : ipv6_transport_addr)
      (is_static : Bool) (proto : Nat),
      ((bibentry_create st (some p) addr4 addr6 is_static proto).2.mem p).table = false) ∧
    (∀ e old, (bibtable_add st e old).1 ≠ 0 →
      ∀ p, ((bibtable_add st e old).2.2.mem p).table = (st.mem p).table) ∧
    (∀ e old, (bibtable_add st e old).1 = 0 →
      ((bibtable_add st e old).2.2.mem e).table = true ∧
      ∀ p, p ≠ e → ((bibtable_add st e old).2.2.mem p).table = (st.mem p).table) ∧
    (∀ e p, ((bibtable_rm st e).mem p).table = (st.mem p).table) ∧
    (∀ e ∈ st.table.tree4.toList,
      e ∉ (bibtable_rm st e).table.tree6.toList ∧
      e ∉ (bibtable_rm st e).table.tree4.toList ∧
      ((bibtable_rm st e).mem e).table = true) := by
  obtain ⟨ht, hm⟩ := reachable_inv h
  have hE : -EEXIST ≠ 0 := by decide
  refine ⟨?_, ?_, ?_, ?_, ?_, ?_⟩
  · intro e hlive
    constructor
    · intro hb
      have h4 := hm.backref e hlive hb
      exact ⟨ht.perm.mem_iff.mpr h4, h4⟩
    · intro hx
      exact (hm.indexed e hx.2).2.1
  · intro p addr4 addr6 is_static proto
    simp [bibentry_create, store]
  · intro e old hne p
    cases hf6 : find_by_addr6 st (st.mem e).ipv6 with
    | some c =>
      rw [bibtable_add_v6 old hf6]
      exact (add_exists_mem st c old p).2.2.1
    | none =>
      cases hf4 : find_by_addr4 st (st.mem e).ipv4 with
      | some c =>
        rw [bibtable_add_v4 old hf6 hf4]
        exact ((add_exists_mem _ c old p).2.2.1).trans (linked6_table st e p)
      | none =>
        rw [bibtable_add_ok old hf6 hf4] at hne
        exact absurd rfl hne
  · intro e old h0
    cases hf6 : find_by_addr6 st (st.mem e).ipv6 with
    | some c =>
      rw [bibtable_add_v6 old hf6, add_exists_fst] at h0
      exact absurd h0 hE
    | none =>
      cases hf4 : find_by_addr4 st (st.mem e).ipv4 with
      | some c =>
        rw [bibtable_add_v4 old hf6 hf4, add_exists_fst] at h0
        exact absurd h0 hE
      | none =>
        rw [bibtable_add_ok' old hf6 hf4]
        refine ⟨by simp [added], ?_⟩
        intro p hp
        simp [added, Function.update_noteq hp]
  · intro e p
    rfl
  · intro e he
    have hi := hm.indexed e he
    have hn6 := nodup_of_ordered6 ht.ordered6
    have hn4 := nodup_of_ordered4 ht.ordered4
    refine ⟨?_, ?_, hi.2.1⟩
    · show e ∉ (if (st.mem e).tree6_hook then rb_erase e st.table.tree6
        else st.table.tree6).toList
      rw [hi.2.2.1, if_pos rfl, rb_erase_toList hn6]
      exact not_mem_erase_self hn6 e
    · show e ∉ (if (st.mem e).tree4_hook then rb_erase e st.table.tree4
        else st.table.tree4).toList
      rw [hi.2.2.2, if_pos rfl, rb_erase_toList hn4]
      exact not_mem_erase_self hn4 e

/-- Seed scenario 1 as an instance of the amended C17: the indexed entry
points back at the table and is linked in both trees; `bibtable_rm` takes
it out of both and leaves the back-reference. -/
theorem bib_backref_invariant_witness :
    reachable seed_indexed ∧
    ((seed_indexed.mem 1).table = true ↔
      1 ∈ seed_indexed.table.tree6.toList ∧ 1 ∈ seed_indexed.table.tree4.toList) ∧
    (1 ∉ (bibtable_rm seed_indexed 1).table.tree6.toList ∧
     1 ∉ (bibtable_rm seed_indexed 1).table.tree4.toList ∧
     ((bibtable_rm seed_indexed 1).mem 1).table = true) := by
  have hr : reachable seed_indexed :=
    reachable.add _ 1 false
      (reachable.create _ 1 seed_addr4 seed_addr6_1 false 17
        (reachable.init false) (by decide) (by decide))
      (by decide)
  have h := bib_backref_invariant seed_indexed hr
  exact ⟨hr, h.1 1 (by decide), h.2.2.2.2.2 1 (by decide)⟩

/-- Claim C17 as stated fails: after `bibentry_create`, `bibtable_add` and
`bibtable_rm` the entry is allocated and in neither tree, and it still
points back at the table. -/
theorem bib_backref_counterexample :
    (bibtable_add seed_created 1 false).1 = 0 ∧
    ((bibtable_rm (bibtable_add seed_created 1 false).2.2 1).mem 1).freed = false ∧
    1 ∉ (bibtable_rm (bibtable_add seed_created 1 false).2.2 1).table.tree6.toList ∧
    1 ∉ (bibtable_rm (bibtable_add seed_created 1 false).2.2 1).table.tree4.toList ∧
    ((bibtable_rm (bibtable_add seed_created 1 false).2.2 1).mem 1).table = true ∧
    ¬(((bibtable_rm (bibtable_add seed_created 1 false).2.2 1).mem 1).table = true ↔
      1 ∈ (bibtable_rm (bibtable_add seed_created 1 false).2.2 1).table.tree6.toList ∧
      1 ∈ (bibtable_rm (bibtable_add seed_created 1 false).2.2 1).table.tree4.toList) := by
  decide

/-! ## Reference accounting -/

theorem bibentry_get_refs (st : bib_state) (c q : Nat) :
    ((bibentry_get st c).mem q).refcounter =
      credit (fun p => (st.mem p).refcounter) (some c) q ∧
    ((bibentry_get st c).mem q).freed = (st.mem q).freed := by
  simp only [bibentry_get, store, credit]
  by_cases h : q = c
  · subst h; simp
  · simp [Function.update_noteq h]

theorem add_exists_credit (st : bib_state) (c : Nat) (old : Bool) (q : Nat) :
    ((add_exists st c old).2.2.mem q).refcounter =
      credit (fun p => (st.mem p).refcounter) (add_exists st c old).2.1 q ∧
    ((add_exists st c old).2.2.mem q).freed = (st.mem q).freed := by
  cases old
  · exact ⟨rfl, rfl⟩
  · exact bibentry_get_refs st c q

theorem linked6_freed (st : bib_state) (e q : Nat) :
    ((linked6 st e).mem q).freed = (st.mem q).freed := by
  simp only [linked6]
  by_cases h : q = e
  · subst h; simp
  · simp [Function.update_noteq h]

theorem credit_congr {f g : Nat → Int} (h : ∀ p, f p = g p) (o : Option Nat) (q : Nat) :
    credit f o q = credit g o q := by
  have : f = g := funext h
  rw [this]

theorem bibtable_add_credit (st : bib_state) (e : Nat) (old : Bool) (q : Nat) :
    ((bibtable_add st e old).2.2.mem q).refcounter =
      credit (fun p => (st.mem p).refcounter) (bibtable_add st e old).2.1 q ∧
    ((bibtable_add st e old).2.2.mem q).freed = (st.mem q).freed := by
  cases hf6 : find_by_addr6 st (st.mem e).ipv6 with
  | some c =>
    rw [bibtable_add_v6 old hf6]
    exact add_exists_credit st c old q
  | none =>
    cases hf4 : find_by_addr4 st (st.mem e).ipv4 with
    | some c =>
      rw [bibtable_add_v4 old hf6 hf4]
      have := add_exists_credit
        { linked6 st e with table := { (linked6 st e).table with
            tree6 := rb_erase e (linked6 st e).table.tree6 } } c old q
      refine ⟨this.1.trans (credit_congr (fun p => linked6_refcounter st e p) _ q),
        this.2.trans (linked6_freed st e q)⟩
    | none =>
      rw [bibtable_add_ok' old hf6 hf4]
      simp only [added, credit]
      by_cases h : q = e
      · subst h; simp
      · simp [Function.update_noteq h]

theorem bibtable_get6_credit (st : bib_state) (a : ipv6_transport_addr) (q : Nat) :
    ((bibtable_get6 st a).2.2.mem q).refcounter =
      credit (fun p => (st.mem p).refcounter) (bibtable_get6 st a).2.1 q ∧
    ((bibtable_get6 st a).2.2.mem q).freed = (st.mem q).freed := by
  simp only [bibtable_get6]
  cases find_by_addr6 st a with
  | none => exact ⟨rfl, rfl⟩
  | some r => exact bibentry_get_refs st r q

theorem bibtable_get4_credit (st : bib_state) (a : ipv4_transport_addr) (q : Nat) :
    ((bibtable_get4 st a).2.2.mem q).refcounter =
      credit (fun p => (st.mem p).refcounter) (bibtable_get4 st a).2.1 q ∧
    ((bibtable_get4 st a).2.2.mem q).freed = (st.mem q).freed := by
  simp only [bibtable_get4]
  cases find_by_addr4 st a with
  | none => exact ⟨rfl, rfl⟩
  | some r => exact bibentry_get_refs st r q

theorem bibentry_put_mem (st : bib_state) (e : Nat) :
    (bibentry_put st e).mem = Function.update st.mem e
      { st.mem e with
        refcounter := (st.mem e).refcounter - 1,
        freed := (st.mem e).freed || decide ((st.mem e).refcounter - 1 = 0) } := by
  simp only [bibentry_put, kref_put]
  by_cases h : (st.mem e).refcounter - 1 = 0
  · rw [if_pos h]
    cases hb : (st.mem e).table <;>
      simp [release, bibtable_rm, rm, kmem_cache_free, store, hb, h]
  · rw [if_neg h]
    simp [store, h]

/-- A live entry's count follows the ledger through a call that hands out
a reference for the entry it returns. -/
theorem credit_step {mem mem' : Nat → bib_entry} {h : Nat → Int} (o : Option Nat)
    (hinv : ∀ p, (mem p).freed = false → (mem p).refcounter = h p ∧ 1 ≤ (mem p).refcounter)
    (hstep : ∀ q, (mem' q).refcounter = credit (fun p => (mem p).refcounter) o q ∧
      (mem' q).freed = (mem q).freed) :
    ∀ p, (mem' p).freed = false →
      (mem' p).refcounter = credit h o p ∧ 1 ≤ (mem' p).refcounter := by
  intro p hp
  rw [(hstep p).2] at hp
  have hi := hinv p hp
  rw [(hstep p).1]
  cases o with
  | none => exact hi
  | some c =>
    simp only [credit]
    by_cases hpc : p = c
    · subst hpc
      simp only [Function.update_same]
      exact ⟨by rw [hi.1], by omega⟩
    · simp only [Function.update_noteq hpc]
      exact hi

/-- Claim C18, amended: in every state reached by `bibentry_create`,
`bibtable_add`, `bibentry_get`, the lookups and `bibentry_put`, the
reference count of each allocated entry is the number of references handed
out for it and not yet dropped (the creator's, one per lookup hit, per
`bibentry_get` and per reported collision, less one per `bibentry_put`), and
is at least 1; being indexed adds nothing to it. -/
theorem refcount_accounting (st : bib_state) (h : Nat → Int) (hr : accounted st h) :
    ∀ p, (st.mem p).freed = false →
      (st.mem p).refcounter = h p ∧ 1 ≤ (st.mem p).refcounter := by
  induction hr with
  | init log_changes =>
    intro p hp
    exact absurd hp (by simp [bibtable_init, blank])
  | create st h p addr4 addr6 is_static proto _ _ _ ih =>
    intro q hq
    simp only [bibentry_create, store] at hq ⊢
    by_cases hqp : q = p
    · subst hqp; simp
    · simp only [Function.update_noteq hqp] at hq ⊢
      exact ih q hq
  | add st h bib old _ _ ih => exact credit_step _ ih (bibtable_add_credit st bib old)
  | get st h bib _ _ ih => exact credit_step _ ih (bibentry_get_refs st bib)
  | get6 st h addr _ ih => exact credit_step _ ih (bibtable_get6_credit st addr)
  | get4 st h addr _ ih => exact credit_step _ ih (bibtable_get4_credit st addr)
  | put st h bib _ hlive ih =>
    intro q hq
    rw [bibentry_put_mem] at hq ⊢
    by_cases hqb : q = bib
    · subst hqb
      simp only [Function.update_same] at hq ⊢
      have hi := ih q hlive
      have hne : (st.mem q).refcounter - 1 ≠ 0 := by
        intro h0
        simp [h0] at hq
      exact ⟨by rw [hi.1], by omega⟩
    · simp only [Function.update_noteq hqb] at hq ⊢
      exact ih q hq

/-- An instance of the amended C18: the static entry of
`seed_static_indexed` has been created and indexed; the one reference is
the creator's. -/
theorem refcount_accounting_witness :
    accounted seed_static_indexed (Function.update (fun _ => 0) 1 1) ∧
    (seed_static_indexed.mem 1).freed = false ∧
    (seed_static_indexed.mem 1).is_static = true ∧
    1 ∈ seed_static_indexed.table.tree4.toList ∧
    (seed_static_indexed.mem 1).refcounter = (Function.update (fun _ => (0 : Int)) 1 1) 1 ∧
    (seed_static_indexed.mem 1).refcounter = 1 := by
  have hr : accounted seed_static_indexed (Function.update (fun _ => 0) 1 1) :=
    accounted.add _ _ 1 false
      (accounted.create _ _ 1 seed_addr4 seed_addr6_1 true 17
        (accounted.init false) (by decide) (by decide))
      (by decide)
  have h := refcount_accounting _ _ hr 1 (by decide)
  exact ⟨hr, by decide, by decide, by decide, h.1, h.1.trans (by decide)⟩

/-- Claim C18 as stated fails: a static entry that has just been created
and successfully added, with no lookup made and no session, is indexed in
both trees and has reference count 1, below the bound 1 + 1 + 0. -/
theorem refcount_bound_counterexample :
    (bibtable_add
      (bibentry_create empty_state (some 1) seed_addr4 seed_addr6_1 true 17).2 1 false).1 = 0 ∧
    (seed_static_indexed.mem 1).is_static = true ∧
    (seed_static_indexed.mem 1).freed = false ∧
    1 ∈ seed_static_indexed.table.tree6.toList ∧
    1 ∈ seed_static_indexed.table.tree4.toList ∧
    (seed_static_indexed.mem 1).refcounter = 1 ∧
    ¬ (2 ≤ (seed_static_indexed.mem 1).refcounter) := by
  decide

end Bib

end Jool

namespace Jool

namespace Bib

/-! ## Walks -/

theorem filter_split {f : Nat → Bool} :
    ∀ {l1 l2 : List Nat}, (∀ a ∈ l1, f a = false) → (∀ b ∈ l2, f b = true) →
      (l1 ++ l2).filter f = l2 := by
  intro l1
  induction l1 with
  | nil =>
    intro l2 _ h2
    exact List.filter_eq_self.mpr h2
  | cons a l1 ih =>
    intro l2 h1 h2
    rw [List.cons_append, List.filter_cons_of_neg (by simp [h1 a (List.mem_cons_self _ _)])]
    exact ih (fun x hx => h1 x (List.mem_cons_of_mem _ hx)) h2

theorem foreach_loop_error {α : Type} (func : Nat → α → bib_state → Int × α × bib_state)
    (fuel : Nat) (node : Option Nat) {error : Int} (arg : α) (st : bib_state)
    (h : error ≠ 0) : foreach_loop func fuel node error arg st = some (error, arg, st) := by
  cases node with
  | none => cases fuel <;> simp [foreach_loop]
  | some n => cases fuel <;> simp [foreach_loop, h]

/-- The loop of `__foreach` does what `foreach_spec` says on the entries
from its start node on, whenever the callback unlinks no entry but
possibly the one it is handed. -/
theorem foreach_loop_eq_spec {α : Type} (func : Nat → α → bib_state → Int × α × bib_state)
    (P : bib_state → Prop)
    (hnodup : ∀ st, P st → st.table.tree4.toList.Nodup)
    (hstep : ∀ node arg st, P st → node ∈ st.table.tree4.toList →
      P (func node arg st).2.2 ∧
      ((func node arg st).2.2.table.tree4.toList = st.table.tree4.toList ∨
       (func node arg st).2.2.table.tree4.toList = st.table.tree4.toList.erase node)) :
    ∀ (rest kept : List Nat) (fuel : Nat) (arg : α) (st : bib_state), P st →
      st.table.tree4.toList = kept ++ rest → rest.length ≤ fuel →
      foreach_loop func fuel rest.head? 0 arg st = some (foreach_spec func rest arg st) := by
  intro rest
  induction rest with
  | nil =>
    intro kept fuel arg st _ _ _
    cases fuel <;> simp [foreach_loop, foreach_spec]
  | cons p ps ih =>
    intro kept fuel arg st hP hl hf
    cases fuel with
    | zero => simp at hf
    | succ f =>
      have hnd := hnodup st hP
      rw [hl] at hnd
      have hpk : p ∉ kept := fun hx =>
        (List.nodup_append.mp hnd).2.2 hx (List.mem_cons_self _ _)
      have hnext : rb_next st.table.tree4 p = ps.head? := by
        simp only [rb_next, hl]
        exact list_next_append hpk
      have hs := hstep p arg st hP (by rw [hl]; simp)
      simp only [List.head?_cons, foreach_loop, foreach_spec, hnext]
      by_cases he : (func p arg st).1 = 0
      · simp only [he, ne_eq, not_true_eq_false, if_false]
        rcases hs.2 with h' | h'
        · have := ih (kept ++ [p]) f (func p arg st).2.1 (func p arg st).2.2 hs.1
            (by rw [h', hl]; simp) (by simpa using hf)
          simpa using this
        · have := ih kept f (func p arg st).2.1 (func p arg st).2.2 hs.1
            (by rw [h', hl, erase_middle hpk]) (by simpa using hf)
          simpa using this
      · simp only [ne_eq, not_false_eq_true, if_true, he]
        exact foreach_loop_error func f _ _ _ he

theorem find_starting_point_none (st : bib_state) (b : Bool) :
    find_starting_point st none b = st.table.tree4.toList.head? := by
  simp only [find_starting_point]
  exact rb_first_eq_head _

/-- The start node of a walk from an offset, in an ordered tree: the first
entry whose key is greater than the offset, or, when the offset itself is
wanted, the first entry whose key is not below it. -/
theorem find_starting_point_some (st : bib_state) (off : ipv4_transport_addr)
    (h4 : rb_ordered (key4_lt st.mem) st.table.tree4) :
    (∃ kept, st.table.tree4.toList = kept ++
        st.table.tree4.toList.filter (fun p => decide (0 < compare_full4 (st.mem p) off)) ∧
      find_starting_point st (some off) false =
        (st.table.tree4.toList.filter
          (fun p => decide (0 < compare_full4 (st.mem p) off))).head?) ∧
    (∃ kept, st.table.tree4.toList = kept ++
        st.table.tree4.toList.filter (fun p => decide (0 ≤ compare_full4 (st.mem p) off)) ∧
      find_starting_point st (some off) true =
        (st.table.tree4.toList.filter
          (fun p => decide (0 ≤ compare_full4 (st.mem p) off))).head?) := by
  have hnd := nodup_of_ordered4 h4
  obtain ⟨L1, L2, hL1, hL2, hc⟩ := rbtree_find_node_root (key_mono4 st.mem off) _ h4
  have hL1a : ∀ a ∈ L1, decide (0 < compare_full4 (st.mem a) off) = false := by
    intro a ha; have := hL1 a ha; simp; omega
  have hL1b : ∀ a ∈ L1, decide (0 ≤ compare_full4 (st.mem a) off) = false := by
    intro a ha; have := hL1 a ha; simp; omega
  have hL2a : ∀ a ∈ L2, decide (0 < compare_full4 (st.mem a) off) = true := by
    intro a ha; have := hL2 a ha; simp; omega
  have hL2b : ∀ a ∈ L2, decide (0 ≤ compare_full4 (st.mem a) off) = true := by
    intro a ha; have := hL2 a ha; simp; omega
  rcases hc with ⟨n, hfn, hn0, hl⟩ | ⟨hfn, hl⟩ | ⟨q, hfn, hl, hq⟩
  · have hn1 : n ∉ L1 := by
      rw [hl] at hnd
      exact fun hx => (List.nodup_append.mp hnd).2.2 hx (List.mem_cons_self _ _)
    have e1 : st.table.tree4.toList.filter
        (fun p => decide (0 < compare_full4 (st.mem p) off)) = L2 := by
      rw [hl, show L1 ++ n :: L2 = (L1 ++ [n]) ++ L2 by simp]
      refine filter_split ?_ hL2a
      intro a ha
      rcases List.mem_append.mp ha with ha | ha
      · exact hL1a a ha
      · rw [List.mem_singleton.mp ha]; simp [hn0]
    have e2 : st.table.tree4.toList.filter
        (fun p => decide (0 ≤ compare_full4 (st.mem p) off)) = n :: L2 := by
      rw [hl]
      refine filter_split hL1b ?_
      intro a ha
      rcases List.mem_cons.mp ha with rfl | ha
      · simp [hn0]
      · exact hL2b a ha
    rw [e1, e2]
    refine ⟨⟨L1 ++ [n], by rw [hl]; simp, ?_⟩, ⟨L1, hl, ?_⟩⟩
    · simp only [find_starting_point, hfn, Bool.false_eq_true, if_false, rb_next, hl]
      exact list_next_append hn1
    · simp only [find_starting_point, hfn, if_true, List.head?_cons]
  · rw [hl]
    refine ⟨⟨[], rfl, ?_⟩, ⟨[], rfl, ?_⟩⟩ <;> simp only [find_starting_point, hfn] <;> rfl
  · have e1 : st.table.tree4.toList.filter
        (fun p => decide (0 < compare_full4 (st.mem p) off)) = L2 := by
      rw [hl]; exact filter_split hL1a hL2a
    have e2 : st.table.tree4.toList.filter
        (fun p => decide (0 ≤ compare_full4 (st.mem p) off)) = L2 := by
      rw [hl]; exact filter_split hL1b hL2b
    rw [e1, e2]
    have hres : ∀ b, find_starting_point st (some off) b = L2.head? := by
      intro b
      rcases hq with ⟨hq0, L1', rfl⟩ | ⟨hq0, L2', rfl⟩
      · have hq1 : q ∉ L1' := by
          rw [hl] at hnd
          have := (List.nodup_append.mp hnd).1
          exact fun hx => (List.nodup_append.mp this).2.2 hx (List.mem_singleton_self _)
        simp only [find_starting_point, hfn, if_pos hq0, rb_next, hl]
        rw [show L1' ++ [q] ++ L2 = L1' ++ q :: L2 by simp]
        exact list_next_append hq1
      · have : ¬ compare_full4 (st.mem q) off < 0 := by omega
        simp only [find_starting_point, hfn, if_neg this, List.head?_cons]
    exact ⟨⟨L1, hl, hres false⟩, ⟨L1, hl, hres true⟩⟩

theorem after_offset_suffix (st : bib_state) (offset : Option ipv4_transport_addr)
    (h4 : rb_ordered (key4_lt st.mem) st.table.tree4) :
    ∃ kept, st.table.tree4.toList = kept ++ after_offset st offset ∧
      find_starting_point st offset false = (after_offset st offset).head? := by
  cases offset with
  | none => exact ⟨[], rfl, find_starting_point_none st false⟩
  | some off => exact (find_starting_point_some st off h4).1

/-- Claim C19: `bibtable_foreach` calls `func` on the indexed entries whose
IPv4 key is strictly greater than the offset (on all of them without an
offset), in ascending key order, stops after the first call that returns
nonzero and returns that value, and returns 0 otherwise; this is so whether
or not an entry with the key of the offset is indexed; on an empty table it
calls nothing and returns 0.  The callback may unlink the entry it is
handed and no other. -/
theorem bibtable_foreach_walk {α : Type} (st : bib_state)
    (func : Nat → α → bib_state → Int × α × bib_state) (arg : α)
    (offset : Option ipv4_transport_addr)
    (h4 : rb_ordered (key4_lt st.mem) st.table.tree4)
    (hfn : ∀ node a s, s.table.tree4.toList.Nodup → node ∈ s.table.tree4.toList →
      ((func node a s).2.2.table.tree4.toList = s.table.tree4.toList ∨
       (func node a s).2.2.table.tree4.toList = s.table.tree4.toList.erase node)) :
    bibtable_foreach st func arg offset =
      some (foreach_spec func (after_offset st offset) arg st) ∧
    (after_offset st offset).Pairwise (key4_lt st.mem) ∧
    (∀ p, p ∈ after_offset st none ↔ p ∈ st.table.tree4.toList) ∧
    (∀ off p, p ∈ after_offset st (some off) ↔
      p ∈ st.table.tree4.toList ∧
        (off.l3 < (st.mem p).ipv4.l3 ∨
          ((st.mem p).ipv4.l3 = off.l3 ∧ off.l4 < (st.mem p).ipv4.l4))) ∧
    (st.table.tree4.toList = [] → bibtable_foreach st func arg offset = some (0, arg, st)) := by
  obtain ⟨kept, hl, hs⟩ := after_offset_suffix st offset h4
  have hrun : bibtable_foreach st func arg offset =
      some (foreach_spec func (after_offset st offset) arg st) := by
    simp only [bibtable_foreach, __foreach, hs]
    refine foreach_loop_eq_spec func (fun s => s.table.tree4.toList.Nodup) (fun _ h => h) ?_
      (after_offset st offset) kept _ arg st (nodup_of_ordered4 h4) hl ?_
    · intro node a s hP hn
      rcases hfn node a s hP hn with h | h
      · exact ⟨by show (func node a s).2.2.table.tree4.toList.Nodup; rw [h]; exact hP, Or.inl h⟩
      · exact ⟨by show (func node a s).2.2.table.tree4.toList.Nodup; rw [h]; exact hP.erase _,
          Or.inr h⟩
    · rw [hl]; simp
  refine ⟨hrun, ?_, fun p => Iff.rfl, ?_, ?_⟩
  · have : (kept ++ after_offset st offset).Pairwise (key4_lt st.mem) := hl ▸ h4
    exact (List.pairwise_append.mp this).2.1
  · intro off p
    simp only [after_offset, List.mem_filter, decide_eq_true_eq, compare_full4_lex]
    refine and_congr_right (fun _ => ?_)
    split_ifs <;> constructor <;> intro h <;> omega
  · intro he
    rw [hrun]
    have : after_offset st offset = [] := by
      cases offset <;> simp [after_offset, he]
    rw [this]
    rfl

/-- An instance of C19 on the three entries of `seed_walk`: from the offset
192.0.2.5#40000, which is indexed, and from 192.0.2.5#39999, which is not,
the callback sees the entries above the offset in ascending order, and the
walk stops at the entry where the callback returns 7. -/
theorem bibtable_foreach_walk_witness :
    rb_ordered (key4_lt seed_walk.mem) seed_walk.table.tree4 ∧
    seed_walk.table.tree4.toList = [1, 2, 3] ∧
    bibtable_foreach seed_walk (note_port false) [] (some ⟨0xC0000205, 40000⟩) =
      some (foreach_spec (note_port false)
        (after_offset seed_walk (some ⟨0xC0000205, 40000⟩)) [] seed_walk) ∧
    after_offset seed_walk (some ⟨0xC0000205, 40000⟩) = [2, 3] ∧
    after_offset seed_walk (some ⟨0xC0000205, 39999⟩) = [1, 2, 3] ∧
    (bibtable_foreach seed_walk (note_port false) [] (some ⟨0xC0000205, 40000⟩)).map
      (fun r => (r.1, r.2.1)) = some (0, [40001, 40000]) ∧
    (bibtable_foreach seed_walk (note_port true) [] (some ⟨0xC0000205, 39999⟩)).map
      (fun r => (r.1, r.2.1)) = some (7, [40000, 40001]) := by
  have h := bibtable_foreach_walk seed_walk (note_port false) []
    (some ⟨0xC0000205, 40000⟩) (by decide) (fun _ _ _ _ _ => Or.inl rfl)
  exact ⟨by decide, by decide, h.1, by decide, by decide, by decide, by decide⟩

/-! ## Walks that drop references -/

theorem kref_put_mem (st : bib_state) (e : Nat) :
    (kref_put st e release).2.mem = Function.update st.mem e (dropped (st.mem e)) :=
  bibentry_put_mem st e

theorem kref_put_trees {st : bib_state} (ht : table_inv st) (hm : mem_inv st) {e : Nat}
    (he : e ∈ st.table.tree4.toList) :
    (kref_put st e release).2.table.tree4.toList =
      (if (st.mem e).refcounter = 1 then st.table.tree4.toList.erase e
       else st.table.tree4.toList) ∧
    (kref_put st e release).2.table.tree6.toList =
      (if (st.mem e).refcounter = 1 then st.table.tree6.toList.erase e
       else st.table.tree6.toList) := by
  have hi := hm.indexed e he
  by_cases h : (st.mem e).refcounter - 1 = 0
  · have h1 : (st.mem e).refcounter = 1 := by omega
    rw [kref_put_release_indexed h hi.2.1 hi.2.2.1 hi.2.2.2, if_pos h1, if_pos h1]
    exact ⟨rb_erase_toList (nodup_of_ordered4 ht.ordered4),
      rb_erase_toList (nodup_of_ordered6 ht.ordered6)⟩
  · have h1 : ¬ (st.mem e).refcounter = 1 := by omega
    rw [kref_put_keep _ h, if_neg h1, if_neg h1]
    exact ⟨rfl, rfl⟩

theorem erase_filter {l : List Nat} (hn : l.Nodup) (f : Nat → Bool) (p : Nat) :
    (l.filter f).erase p = l.filter (fun x => f x && decide (x ≠ p)) := by
  induction l with
  | nil => rfl
  | cons a l ih =>
    have hn' := (List.nodup_cons.mp hn)
    by_cases hap : a = p
    · subst hap
      have hrest : l.filter (fun x => f x && decide (x ≠ a)) = l.filter f := by
        apply List.filter_congr
        intro x hx
        have : x ≠ a := fun h => hn'.1 (h ▸ hx)
        simp [this]
      cases hfa : f a with
      | true =>
        rw [List.filter_cons_of_pos (by simpa using hfa), List.erase_cons_head,
          List.filter_cons_of_neg (by simp), hrest]
      | false =>
        rw [List.filter_cons_of_neg (by simp [hfa]), List.filter_cons_of_neg (by simp [hfa]),
          hrest]
        exact List.erase_of_not_mem (fun hx => hn'.1 (List.mem_of_mem_filter hx))
    · cases hfa : f a with
      | true =>
        rw [List.filter_cons_of_pos (by simpa using hfa),
          List.filter_cons_of_pos (by simp [hfa, hap]),
          List.erase_cons_tail (by simpa using hap), ih hn'.2]
      | false =>
        rw [List.filter_cons_of_neg (by simp [hfa]), List.filter_cons_of_neg (by simp [hfa]),
          ih hn'.2]

theorem drop_effect_congr {st0 st : bib_state} {D D' : List Nat}
    (h : ∀ x, x ∈ D ↔ x ∈ D') (he : drop_effect st0 D st) : drop_effect st0 D' st := by
  have hd : ∀ x, decide (x ∈ D) = decide (x ∈ D') := fun x => by simp [h x]
  refine ⟨?_, ?_, ?_⟩
  · intro p
    rw [he.mem_eq p]
    by_cases hp : p ∈ D
    · rw [if_pos hp, if_pos ((h p).mp hp)]
    · rw [if_neg hp, if_neg (fun hx => hp ((h p).mpr hx))]
  · rw [he.tree4_eq]
    exact List.filter_congr (fun x _ => by rw [hd x])
  · rw [he.tree6_eq]
    exact List.filter_congr (fun x _ => by rw [hd x])

theorem drop_effect_refl (st : bib_state) : drop_effect st [] st :=
  ⟨fun _ => by simp, by simp, by simp⟩

/-- One more drop, of an indexed entry not dropped so far. -/
theorem drop_effect_step {st0 st : bib_state} {D : List Nat} {p : Nat}
    (ht0 : table_inv st0) (ht : table_inv st) (hm : mem_inv st)
    (he : drop_effect st0 D st) (hp : p ∈ st0.table.tree4.toList) (hpD : p ∉ D) :
    drop_effect st0 (p :: D) (kref_put st p release).2 := by
  have hmp : st.mem p = st0.mem p := by rw [he.mem_eq p, if_neg hpD]
  have hp4 : p ∈ st.table.tree4.toList := by
    rw [he.tree4_eq]
    exact List.mem_filter.mpr ⟨hp, by simp [hpD]⟩
  obtain ⟨e4, e6⟩ := kref_put_trees ht hm hp4
  have hn4 := nodup_of_ordered4 ht0.ordered4
  have hn6 := nodup_of_ordered6 ht0.ordered6
  have key : ∀ {l : List Nat}, l.Nodup →
      (if (st.mem p).refcounter = 1 then
        (l.filter (fun x => !(decide (x ∈ D) &&
          decide ((st0.mem x).refcounter = 1)))).erase p
       else l.filter (fun x => !(decide (x ∈ D) && decide ((st0.mem x).refcounter = 1)))) =
      l.filter (fun x => !(decide (x ∈ p :: D) && decide ((st0.mem x).refcounter = 1))) := by
    intro l hl
    by_cases h1 : (st.mem p).refcounter = 1
    · rw [if_pos h1, erase_filter hl]
      apply List.filter_congr
      intro x _
      by_cases hx : x = p
      · subst hx
        rw [hmp] at h1
        simp [h1, hpD]
      · simp [hx]
    · rw [if_neg h1]
      apply List.filter_congr
      intro x _
      by_cases hx : x = p
      · subst hx
        rw [hmp] at h1
        simp [h1, hpD]
      · simp [hx]
  refine ⟨?_, ?_, ?_⟩
  · intro q
    rw [kref_put_mem]
    by_cases hq : q = p
    · subst hq
      simp [hmp]
    · rw [Function.update_noteq hq, he.mem_eq q]
      simp [hq]
  · rw [e4, he.tree4_eq]
    exact key hn4
  · rw [e6, he.tree6_eq]
    exact key hn6

/-- A walk whose callback stops at the entries picked by `stops`, drops one
reference of those picked by `drops` and skips the others: it drops one
reference of each entry picked by `drops` that comes before the first entry
picked by `stops`, and does nothing else. -/
theorem drop_walk {α : Type} (cb : Nat → α → bib_state → Int × α × bib_state)
    (stops drops : bib_entry → Bool) (Q : α → Prop)
    (hQ : ∀ p a s, Q a → Q (cb p a s).2.1)
    (hstop : ∀ p a s, Q a → stops (s.mem p) = true →
      (cb p a s).1 ≠ 0 ∧ (cb p a s).2.2 = s)
    (hskip : ∀ p a s, Q a → stops (s.mem p) = false → drops (s.mem p) = false →
      (cb p a s).1 = 0 ∧ (cb p a s).2.2 = s)
    (hdrop : ∀ p a s, Q a → stops (s.mem p) = false → drops (s.mem p) = true →
      (cb p a s).1 = 0 ∧ (cb p a s).2.2 = (kref_put s p release).2)
    (st0 : bib_state) (ht0 : table_inv st0) :
    ∀ (L D : List Nat) (a : α) (st : bib_state), Q a → table_inv st → mem_inv st →
      drop_effect st0 D st → L.Nodup →
      (∀ p ∈ L, p ∈ st0.table.tree4.toList ∧ p ∉ D) →
      table_inv (foreach_spec cb L a st).2.2 ∧ mem_inv (foreach_spec cb L a st).2.2 ∧
      drop_effect st0
        (((L.takeWhile (fun p => !stops (st0.mem p))).filter
          (fun p => drops (st0.mem p))) ++ D)
        (foreach_spec cb L a st).2.2 := by
  intro L
  induction L with
  | nil =>
    intro D a st _ ht hm he _ _
    exact ⟨ht, hm, by simpa [foreach_spec] using he⟩
  | cons p ps ih =>
    intro D a st hq ht hm he hnd hL
    have hp := hL p (List.mem_cons_self _ _)
    have hmp : st.mem p = st0.mem p := by rw [he.mem_eq p, if_neg hp.2]
    have hnd' := List.nodup_cons.mp hnd
    cases hs : stops (st0.mem p) with
    | true =>
      have h := hstop p a st hq (by rw [hmp]; exact hs)
      simp only [foreach_spec, if_pos h.1, h.2]
      refine ⟨ht, hm, ?_⟩
      simpa [List.takeWhile_cons, hs] using he
    | false =>
      cases hd : drops (st0.mem p) with
      | false =>
        have h := hskip p a st hq (by rw [hmp]; exact hs) (by rw [hmp]; exact hd)
        have := ih D (cb p a st).2.1 st (hQ p a st hq) ht hm he hnd'.2
          (fun x hx => hL x (List.mem_cons_of_mem _ hx))
        simp only [foreach_spec, h.1, ne_eq, not_true_eq_false, if_false, h.2]
        simpa [List.takeWhile_cons, hs, hd] using this
      | true =>
        have h := hdrop p a st hq (by rw [hmp]; exact hs) (by rw [hmp]; exact hd)
        have hp4 : p ∈ st.table.tree4.toList := by
          rw [he.tree4_eq]
          exact List.mem_filter.mpr ⟨hp.1, by simp [hp.2]⟩
        have hinv := (inv_kref_put ⟨ht, hm⟩ p (hm.indexed p hp4).1).1
        have he' := drop_effect_step ht0 ht hm he hp.1 hp.2
        have := ih (p :: D) (cb p a st).2.1 (kref_put st p release).2 (hQ p a st hq)
          hinv.1 hinv.2 he' hnd'.2
          (fun x hx => ⟨(hL x (List.mem_cons_of_mem _ hx)).1, fun hxD => by
            rcases List.mem_cons.mp hxD with rfl | hxD
            · exact hnd'.1 hx
            · exact (hL x (List.mem_cons_of_mem _ hx)).2 hxD⟩)
        simp only [foreach_spec, h.1, ne_eq, not_true_eq_false, if_false, h.2]
        refine ⟨this.1, this.2.1, drop_effect_congr ?_ this.2.2⟩
        intro x
        simp only [List.takeWhile_cons, hs, Bool.not_false, if_true, List.filter_cons, hd,
          List.mem_append, List.mem_cons]
        tauto

theorem drop_effect_facts {st0 st : bib_state} {D : List Nat} (he : drop_effect st0 D st) :
    (∀ p ∈ D, st.mem p = dropped (st0.mem p)) ∧ (∀ p, p ∉ D → st.mem p = st0.mem p) ∧
    (∀ p, p ∈ st.table.tree4.toList ↔
      p ∈ st0.table.tree4.toList ∧ ¬(p ∈ D ∧ (st0.mem p).refcounter = 1)) ∧
    (∀ p, p ∈ st.table.tree6.toList ↔
      p ∈ st0.table.tree6.toList ∧ ¬(p ∈ D ∧ (st0.mem p).refcounter = 1)) := by
  refine ⟨?_, ?_, ?_, ?_⟩
  · intro p hp; rw [he.mem_eq p, if_pos hp]
  · intro p hp; rw [he.mem_eq p, if_neg hp]
  · intro p; rw [he.tree4_eq]; simp only [List.mem_filter]
    refine and_congr_right (fun _ => ?_); simp; tauto
  · intro p; rw [he.tree6_eq]; simp only [List.mem_filter]
    refine and_congr_right (fun _ => ?_); simp; tauto

theorem takeWhile_all {l : List Nat} {f : Nat → Bool} (h : ∀ x ∈ l, f x = true) :
    l.takeWhile f = l := by
  induction l with
  | nil => rfl
  | cons a l ih =>
    rw [List.takeWhile_cons, h a (List.mem_cons_self _ _)]
    simp only [if_true]
    rw [ih (fun x hx => h x (List.mem_cons_of_mem _ hx))]

theorem flush_spec (st : bib_state) (ht : table_inv st) (hm : mem_inv st)
    (args : iteration_args) :
    __foreach st __flush args none false =
      some (foreach_spec __flush st.table.tree4.toList args st) := by
  simp only [__foreach, find_starting_point_none]
  exact foreach_loop_eq_spec __flush (fun s => table_inv s ∧ mem_inv s)
    (fun s h => nodup_of_ordered4 h.1.ordered4)
    (fun node a s h hn => inv_flush_step node a s h hn)
    st.table.tree4.toList [] _ args st ⟨ht, hm⟩ rfl (le_refl _)

/-- Claim C14: in a table that satisfies its invariants `bibtable_flush`
returns, and in the state it leaves every indexed static entry has had
exactly one reference dropped (its count is one lower, and it is freed when
the count was 1), every other entry is as it was, both trees have lost
exactly the indexed static entries whose count was 1, the survivors keep
their order, and `count` is the number of entries left: no entry is skipped
or visited twice although visited entries are unlinked during the walk. -/
theorem bibtable_flush_effect (st : bib_state) (ht : table_inv st) (hm : mem_inv st) :
    ∃ st', bibtable_flush st = some st' ∧
      (∀ p, p ∈ st.table.tree4.toList → (st.mem p).is_static = true →
        st'.mem p = dropped (st.mem p) ∧
        (st'.mem p).refcounter = (st.mem p).refcounter - 1 ∧
        ((st'.mem p).freed = true ↔ (st.mem p).refcounter = 1)) ∧
      (∀ p, ¬(p ∈ st.table.tree4.toList ∧ (st.mem p).is_static = true) →
        st'.mem p = st.mem p) ∧
      (∀ p, p ∈ st'.table.tree4.toList ↔
        p ∈ st.table.tree4.toList ∧
          ¬((st.mem p).is_static = true ∧ (st.mem p).refcounter = 1)) ∧
      (∀ p, p ∈ st'.table.tree6.toList ↔
        p ∈ st.table.tree6.toList ∧
          ¬((st.mem p).is_static = true ∧ (st.mem p).refcounter = 1)) ∧
      st'.table.tree4.toList = st.table.tree4.toList.filter
        (fun p => !((st.mem p).is_static && decide ((st.mem p).refcounter = 1))) ∧
      st'.table.count = st'.table.tree4.toList.length := by
  have hw := drop_walk __flush (fun _ => false) (fun e => e.is_static) (fun _ => True)
    (fun _ _ _ _ => trivial)
    (fun p a s _ h => Bool.noConfusion h)
    (fun p a s _ _ h => by simp [__flush, h])
    (fun p a s _ _ h => by simp [__flush, h, release_locked_eq])
    st ht st.table.tree4.toList []
    { prefix4 := ⟨0, 0⟩, ports := ⟨0, 0⟩, deleted := 0 } st trivial ht hm
    (drop_effect_refl st) (nodup_of_ordered4 ht.ordered4) (fun p hp => ⟨hp, by simp⟩)
  obtain ⟨ht', _, he⟩ := hw
  have hD : ∀ x, x ∈ ((st.table.tree4.toList.takeWhile (fun _ => !false)).filter
      (fun p => (st.mem p).is_static)) ++ [] ↔
      x ∈ st.table.tree4.toList.filter (fun p => (st.mem p).is_static) := by
    intro x
    rw [takeWhile_all (f := fun _ => !false) (fun _ _ => rfl), List.append_nil]
  have he' := drop_effect_congr hD he
  obtain ⟨f1, f2, f3, f4⟩ := drop_effect_facts he'
  refine ⟨(foreach_spec __flush st.table.tree4.toList
    { prefix4 := ⟨0, 0⟩, ports := ⟨0, 0⟩, deleted := 0 } st).2.2, ?_, ?_, ?_, ?_, ?_, ?_,
    ht'.count_eq⟩
  · simp only [bibtable_flush, flush_spec st ht hm, Option.map_some']
  · intro p hp hs
    have hmem := f1 p (List.mem_filter.mpr ⟨hp, hs⟩)
    refine ⟨hmem, by rw [hmem]; rfl, ?_⟩
    rw [hmem]
    have hlive := (hm.indexed p hp).1
    simp only [dropped, hlive, Bool.false_or, decide_eq_true_eq]
    omega
  · intro p hp
    exact f2 p (fun hx => hp (by simpa [List.mem_filter] using hx))
  · intro p
    rw [f3 p]
    simp only [List.mem_filter]
    tauto
  · intro p
    rw [f4 p]
    simp only [List.mem_filter, ← ht.perm.mem_iff]
    tauto
  · rw [he'.tree4_eq]
    apply List.filter_congr
    intro x hx
    simp [List.mem_filter, hx]

theorem seed_walk_reachable : reachable seed_walk :=
  reachable.add _ 3 false
    (reachable.add _ 1 false
      (reachable.add _ 2 false
        (reachable.get _ 3
          (reachable.create _ 3 ⟨0xC0000206, 40000⟩
            ⟨0x20010db8000000000000000000000002, 10000⟩ true 17
            (reachable.create _ 2 ⟨0xC0000205, 40001⟩
              ⟨0x20010db8000000000000000000000001, 10001⟩ true 17
              (reachable.create _ 1 ⟨0xC0000205, 40000⟩
                ⟨0x20010db8000000000000000000000001, 10000⟩ false 17
                (reachable.init false) (by decide) (by decide))
              (by decide) (by decide))
            (by decide) (by decide))
          (by decide))
        (by decide))
      (by decide))
    (by decide)

/-- An instance of C14 on the three entries of `seed_walk`: the static entry
held once is dropped, unlinked and freed, the static entry held twice is
dropped and stays, the dynamic entry is left alone. -/
theorem bibtable_flush_effect_witness :
    (table_inv seed_walk ∧ mem_inv seed_walk) ∧
    seed_walk.table.tree4.toList = [1, 2, 3] ∧
    (∃ st', bibtable_flush seed_walk = some st' ∧
      st'.mem 1 = seed_walk.mem 1 ∧
      st'.mem 2 = dropped (seed_walk.mem 2) ∧ (st'.mem 2).freed = true ∧
      (st'.mem 3).refcounter = (seed_walk.mem 3).refcounter - 1 ∧
      st'.table.tree4.toList = [1, 3] ∧ 2 ∉ st'.table.tree6.toList ∧
      st'.table.count = st'.table.tree4.toList.length) := by
  have hi := reachable_inv seed_walk_reachable
  obtain ⟨st', h0, h1, h2, _, h4, h5, h6⟩ := bibtable_flush_effect seed_walk hi.1 hi.2
  exact ⟨hi, by decide, st', h0, h2 1 (by decide), (h1 2 (by decide) (by decide)).1,
    (h1 2 (by decide) (by decide)).2.2.mpr (by decide),
    (h1 3 (by decide) (by decide)).2.1, h5.trans (by decide),
    fun hx => ((h4 2).mp hx).2 (by decide), h6⟩

theorem in_prefix_ge {pfx : ipv4_prefix} {a : Nat}
    (hbase : pfx.address % 2 ^ (32 - pfx.len) = 0)
    (h : prefix4_contains pfx a = true) : pfx.address ≤ a := by
  simp only [prefix4_contains, decide_eq_true_eq] at h
  have h1 := Nat.div_add_mod pfx.address (2 ^ (32 - pfx.len))
  have h2 := Nat.mul_div_le a (2 ^ (32 - pfx.len))
  rw [hbase, ← h] at h1
  omega

theorem in_prefix_between {pfx : ipv4_prefix} {a b : Nat}
    (h : prefix4_contains pfx b = true) (h1 : pfx.address ≤ a) (h2 : a ≤ b) :
    prefix4_contains pfx a = true := by
  simp only [prefix4_contains, decide_eq_true_eq] at h ⊢
  have e1 := Nat.div_le_div_right (c := 2 ^ (32 - pfx.len)) h1
  have e2 := Nat.div_le_div_right (c := 2 ^ (32 - pfx.len)) h2
  omega

theorem mem_takeWhile_of_sorted {R : Nat → Nat → Prop} {P : Nat → Bool} :
    ∀ {l : List Nat} {p : Nat}, l.Pairwise R → p ∈ l → P p = true →
      (∀ q ∈ l, R q p → P q = true) → p ∈ l.takeWhile P := by
  intro l
  induction l with
  | nil => intro p _ hp; simp at hp
  | cons x xs ih =>
    intro p ho hp hP hq
    rcases List.mem_cons.mp hp with rfl | hp'
    · rw [List.takeWhile_cons, hP]; simp
    · have hx : P x = true :=
        hq x (List.mem_cons_self _ _) ((List.pairwise_cons.mp ho).1 p hp')
      rw [List.takeWhile_cons, hx]
      simp only [if_true]
      exact List.mem_cons_of_mem _
        (ih (List.pairwise_cons.mp ho).2 hp' hP
          (fun q hq' hr => hq q (List.mem_cons_of_mem _ hq') hr))

theorem mem_takeWhile {P : Nat → Bool} :
    ∀ {l : List Nat} {p : Nat}, p ∈ l.takeWhile P → p ∈ l ∧ P p = true := by
  intro l
  induction l with
  | nil => intro p hp; simp at hp
  | cons x xs ih =>
    intro p hp
    rw [List.takeWhile_cons] at hp
    cases hx : P x with
    | false => simp [hx] at hp
    | true =>
      simp only [hx, if_true] at hp
      rcases List.mem_cons.mp hp with rfl | hp'
      · exact ⟨List.mem_cons_self _ _, hx⟩
      · exact ⟨List.mem_cons_of_mem _ (ih hp').1, (ih hp').2⟩

theorem key4_lt_l3 {mem : Nat → bib_entry} {a b : Nat} (h : key4_lt mem a b) :
    (mem a).ipv4.l3 ≤ (mem b).ipv4.l3 := by
  simp only [key4_lt, compare_full4_lex] at h
  split_ifs at h <;> omega

theorem compare_full4_nonneg (e : bib_entry) (off : ipv4_transport_addr) :
    0 ≤ compare_full4 e off ↔ off.l3 < e.ipv4.l3 ∨ (e.ipv4.l3 = off.l3 ∧ off.l4 ≤ e.ipv4.l4) := by
  rw [compare_full4_lex]
  split_ifs <;> constructor <;> intro h <;> omega

theorem delete_spec (st : bib_state) (ht : table_inv st) (hm : mem_inv st)
    (args : iteration_args) (off : ipv4_transport_addr) :
    __foreach st __delete_taddr4s args (some off) true =
      some (foreach_spec __delete_taddr4s
        (st.table.tree4.toList.filter (fun p => decide (0 ≤ compare_full4 (st.mem p) off)))
        args st) := by
  obtain ⟨kept, hl, hs⟩ := (find_starting_point_some st off ht.ordered4).2
  simp only [__foreach, hs]
  refine foreach_loop_eq_spec __delete_taddr4s (fun s => table_inv s ∧ mem_inv s)
    (fun s h => nodup_of_ordered4 h.1.ordered4)
    (fun node a s h hn => inv_delete_step node a s h hn)
    _ kept _ args st ⟨ht, hm⟩ hl ?_
  exact List.length_filter_le _ _

/-- Claim C15: in a table that satisfies its invariants, for a prefix whose
`address` is its base address, `bibtable_delete_taddr4s` returns, and in the
state it leaves exactly the indexed static entries whose `ipv4.l3` is in the
prefix and whose `ipv4.l4` is in `[ports.min, ports.max]` have had one
reference dropped (count one lower; unlinked from both trees and freed when
the count was 1); every other entry is as it was and keeps its place.  The
walk is the one over the entries whose key is at least
(`prefix4.address`, `ports.min`), in ascending order, ended by the callback
at the first entry outside the prefix. -/
theorem bibtable_delete_taddr4s_effect (st : bib_state) (prefix4 : ipv4_prefix)
    (ports : port_range) (ht : table_inv st) (hm : mem_inv st)
    (hbase : prefix4.address % 2 ^ (32 - prefix4.len) = 0) :
    ∃ st', bibtable_delete_taddr4s st prefix4 ports = some st' ∧
      (∀ p, p ∈ st.table.tree4.toList → (st.mem p).is_static = true →
        prefix4_contains prefix4 (st.mem p).ipv4.l3 = true →
        port_range_contains ports (st.mem p).ipv4.l4 = true →
        st'.mem p = dropped (st.mem p) ∧
        (st'.mem p).refcounter = (st.mem p).refcounter - 1 ∧
        ((st'.mem p).freed = true ↔ (st.mem p).refcounter = 1)) ∧
      (∀ p, ¬(p ∈ st.table.tree4.toList ∧ (st.mem p).is_static = true ∧
          prefix4_contains prefix4 (st.mem p).ipv4.l3 = true ∧
          port_range_contains ports (st.mem p).ipv4.l4 = true) →
        st'.mem p = st.mem p) ∧
      (∀ p, p ∈ st'.table.tree4.toList ↔
        p ∈ st.table.tree4.toList ∧
          ¬((st.mem p).is_static = true ∧
            prefix4_contains prefix4 (st.mem p).ipv4.l3 = true ∧
            port_range_contains ports (st.mem p).ipv4.l4 = true ∧
            (st.mem p).refcounter = 1)) ∧
      (∀ p, p ∈ st'.table.tree6.toList ↔
        p ∈ st.table.tree6.toList ∧
          ¬((st.mem p).is_static = true ∧
            prefix4_contains prefix4 (st.mem p).ipv4.l3 = true ∧
            port_range_contains ports (st.mem p).ipv4.l4 = true ∧
            (st.mem p).refcounter = 1)) ∧
      st'.table.count = st'.table.tree4.toList.length ∧
      st' = (foreach_spec __delete_taddr4s
        (st.table.tree4.toList.filter (fun p => decide
          (prefix4.address < (st.mem p).ipv4.l3 ∨
            ((st.mem p).ipv4.l3 = prefix4.address ∧ ports.min ≤ (st.mem p).ipv4.l4))))
        { prefix4 := prefix4, ports := ports, deleted := 0 } st).2.2 := by
  have hL : st.table.tree4.toList.filter (fun p => decide
      (prefix4.address < (st.mem p).ipv4.l3 ∨
        ((st.mem p).ipv4.l3 = prefix4.address ∧ ports.min ≤ (st.mem p).ipv4.l4))) =
      st.table.tree4.toList.filter (fun p => decide
        (0 ≤ compare_full4 (st.mem p) ⟨prefix4.address, ports.min⟩)) := by
    apply List.filter_congr
    intro x _
    simp only [compare_full4_nonneg]
  rw [hL]
  generalize hLdef : st.table.tree4.toList.filter (fun p => decide
        (0 ≤ compare_full4 (st.mem p) ⟨prefix4.address, ports.min⟩)) = L
  have hLsub : ∀ x ∈ L, x ∈ st.table.tree4.toList ∧
      0 ≤ compare_full4 (st.mem x) ⟨prefix4.address, ports.min⟩ := by
    intro x hx
    rw [← hLdef] at hx
    simpa [List.mem_filter] using hx
  have hLnd : L.Nodup := by
    rw [← hLdef]; exact (nodup_of_ordered4 ht.ordered4).filter _
  have hLord : L.Pairwise (key4_lt st.mem) := by
    rw [← hLdef]; exact List.Pairwise.filter _ ht.ordered4
  have hw := drop_walk __delete_taddr4s
    (fun e => !prefix4_contains prefix4 e.ipv4.l3)
    (fun e => port_range_contains ports e.ipv4.l4 && e.is_static)
    (fun a => a.prefix4 = prefix4 ∧ a.ports = ports)
    (fun p a s h => by
      simp only [__delete_taddr4s, __flush]
      split_ifs <;> exact h)
    (fun p a s h hs => by
      have hs' : (!prefix4_contains prefix4 (s.mem p).ipv4.l3) = true := hs
      simp only [__delete_taddr4s, h.1]
      rw [if_pos hs']
      exact ⟨one_ne_zero, rfl⟩)
    (fun p a s h hs hd => by
      have hs' : (!prefix4_contains prefix4 (s.mem p).ipv4.l3) = false := hs
      have hd' : (port_range_contains ports (s.mem p).ipv4.l4 && (s.mem p).is_static) = false :=
        hd
      simp only [__delete_taddr4s, h.1, h.2, hs', Bool.false_eq_true, if_false]
      cases hr : port_range_contains ports (s.mem p).ipv4.l4 with
      | false => simp
      | true =>
        rw [hr, Bool.true_and] at hd'
        simp [__flush, hd'])
    (fun p a s h hs hd => by
      have hs' : (!prefix4_contains prefix4 (s.mem p).ipv4.l3) = false := hs
      have hd' : (port_range_contains ports (s.mem p).ipv4.l4 && (s.mem p).is_static) = true :=
        hd
      simp only [Bool.and_eq_true] at hd'
      simp [__delete_taddr4s, h.1, h.2, hs', hd'.1, __flush, hd'.2, release_locked_eq])
    st ht L [] { prefix4 := prefix4, ports := ports, deleted := 0 } st ⟨rfl, rfl⟩ ht hm
    (drop_effect_refl st) hLnd (fun p hp => ⟨(hLsub p hp).1, by simp⟩)
  obtain ⟨ht', _, he⟩ := hw
  have hD : ∀ x, x ∈ ((L.takeWhile
        (fun p => !!prefix4_contains prefix4 (st.mem p).ipv4.l3)).filter
        (fun p => port_range_contains ports (st.mem p).ipv4.l4 && (st.mem p).is_static)) ++ [] ↔
      (x ∈ st.table.tree4.toList ∧ (st.mem x).is_static = true ∧
        prefix4_contains prefix4 (st.mem x).ipv4.l3 = true ∧
        port_range_contains ports (st.mem x).ipv4.l4 = true) := by
    intro x
    simp only [List.append_nil, List.mem_filter, Bool.not_not, Bool.and_eq_true]
    constructor
    · rintro ⟨hx, hr, hs⟩
      exact ⟨(hLsub x (mem_takeWhile hx).1).1, hs, (mem_takeWhile hx).2, hr⟩
    · rintro ⟨hx, hs, hp, hr⟩
      refine ⟨?_, hr, hs⟩
      have hge := in_prefix_ge hbase hp
      have hrr : ports.min ≤ (st.mem x).ipv4.l4 := by
        simp only [port_range_contains, decide_eq_true_eq] at hr
        exact hr.1
      have hxL : x ∈ L := by
        rw [← hLdef]
        refine List.mem_filter.mpr ⟨hx, ?_⟩
        simp only [decide_eq_true_eq, compare_full4_nonneg]
        omega
      refine mem_takeWhile_of_sorted hLord hxL hp ?_
      intro q hq hqx
      have h1 := key4_lt_l3 hqx
      have h2 := (compare_full4_nonneg _ _).mp (hLsub q hq).2
      exact in_prefix_between hp (by simp only at h2; omega) h1
  have hD' : drop_effect st
      (st.table.tree4.toList.filter (fun x => (st.mem x).is_static &&
        prefix4_contains prefix4 (st.mem x).ipv4.l3 &&
        port_range_contains ports (st.mem x).ipv4.l4))
      (foreach_spec __delete_taddr4s L
        { prefix4 := prefix4, ports := ports, deleted := 0 } st).2.2 :=
    drop_effect_congr (fun x => (hD x).trans (by simp [List.mem_filter, and_assoc])) he
  obtain ⟨f1, f2, f3, f4⟩ := drop_effect_facts hD'
  refine ⟨(foreach_spec __delete_taddr4s L
    { prefix4 := prefix4, ports := ports, deleted := 0 } st).2.2, ?_, ?_, ?_, ?_, ?_,
    ht'.count_eq, rfl⟩
  · simp only [bibtable_delete_taddr4s, delete_spec st ht hm, Option.map_some', hLdef]
  · intro p hp hs hpre hr
    have hmem := f1 p (List.mem_filter.mpr ⟨hp, by simp [hs, hpre, hr]⟩)
    refine ⟨hmem, by rw [hmem]; rfl, ?_⟩
    rw [hmem]
    have hlive := (hm.indexed p hp).1
    simp only [dropped, hlive, Bool.false_or, decide_eq_true_eq]
    omega
  · intro p hp
    exact f2 p (fun hx => hp (by simpa [List.mem_filter, and_assoc] using hx))
  · intro p
    rw [f3 p]
    simp only [List.mem_filter, Bool.and_eq_true]
    tauto
  · intro p
    rw [f4 p]
    simp only [List.mem_filter, Bool.and_eq_true, ← ht.perm.mem_iff]
    tauto

/-- An instance of C15 on the three entries of `seed_walk`, with the prefix
192.0.2.4/30 and the single port 40001: the static entry 192.0.2.5#40001 is
dropped, unlinked and freed; the dynamic entry 192.0.2.5#40000 and the
static entry 192.0.2.6#40000 are left alone. -/
theorem bibtable_delete_taddr4s_effect_witness :
    (table_inv seed_walk ∧ mem_inv seed_walk ∧ 0xC0000204 % 2 ^ (32 - 30) = 0) ∧
    seed_walk.table.tree4.toList = [1, 2, 3] ∧
    (∃ st', bibtable_delete_taddr4s seed_walk ⟨0xC0000204, 30⟩ ⟨40001, 40001⟩ = some st' ∧
      st'.mem 2 = dropped (seed_walk.mem 2) ∧ (st'.mem 2).freed = true ∧
      st'.mem 1 = seed_walk.mem 1 ∧ st'.mem 3 = seed_walk.mem 3 ∧
      2 ∉ st'.table.tree4.toList ∧ 2 ∉ st'.table.tree6.toList ∧
      3 ∈ st'.table.tree4.toList ∧
      st'.table.count = st'.table.tree4.toList.length) ∧
    (bibtable_delete_taddr4s seed_walk ⟨0xC0000204, 30⟩ ⟨40001, 40001⟩).map
      (fun s => (s.table.tree4.toList, s.table.count)) = some ([1, 3], 2) := by
  have hi := reachable_inv seed_walk_reachable
  obtain ⟨st', h0, h1, h2, h3, h4, h5, _⟩ :=
    bibtable_delete_taddr4s_effect seed_walk ⟨0xC0000204, 30⟩ ⟨40001, 40001⟩ hi.1 hi.2
      (by decide)
  exact ⟨⟨hi.1, hi.2, by decide⟩, by decide,
    ⟨st', h0, (h1 2 (by decide) (by decide) (by decide) (by decide)).1,
      (h1 2 (by decide) (by decide) (by decide) (by decide)).2.2.mpr (by decide),
      h2 1 (by decide), h2 3 (by decide),
      fun hx => ((h3 2).mp hx).2 (by decide), fun hx => ((h4 2).mp hx).2 (by decide),
      (h3 3).mpr (by decide), h5⟩,
    by decide⟩

end Bib

end Jool

namespace Jool

namespace Session

/-! ## Session lookup -/

theorem get_by_ipv6_hit {st : session_state} {t : tuple}
    (h6 : rb_ordered (key6_lt st.mem) st.table.tree6) {s : Nat}
    (hs : s ∈ st.table.tree6.toList)
    (hk : (st.mem s).local6 = t.dst.addr6 ∧ (st.mem s).remote6 = t.src.addr6) :
    get_by_ipv6 st t = some s :=
  rbtree_find_eq_some h6 (key_mono_full6 st.mem t) hs
    ((session_compare_full6_eq_zero _ _).mpr hk)

theorem get_by_ipv4_hit {st : session_state} {t : tuple}
    (h4 : rb_ordered (key4_lt st.mem) st.table.tree4) {s : Nat}
    (hs : s ∈ st.table.tree4.toList)
    (hk : (st.mem s).local4 = t.dst.addr4 ∧ (st.mem s).remote4 = t.src.addr4) :
    get_by_ipv4 st t = some s :=
  rbtree_find_eq_some h4 (key_mono_full4 st.mem t) hs
    ((session_compare_full4_eq_zero _ _).mpr hk)

theorem get_by_ipv6_miss {st : session_state} {t : tuple}
    (h : ∀ s ∈ st.table.tree6.toList,
      ¬((st.mem s).local6 = t.dst.addr6 ∧ (st.mem s).remote6 = t.src.addr6)) :
    get_by_ipv6 st t = none := by
  cases hf : get_by_ipv6 st t with
  | none => rfl
  | some q =>
    have hm := rbtree_find_mem hf
    exact absurd ((session_compare_full6_eq_zero _ _).mp hm.2) (h q hm.1)

theorem get_by_ipv4_miss {st : session_state} {t : tuple}
    (h : ∀ s ∈ st.table.tree4.toList,
      ¬((st.mem s).local4 = t.dst.addr4 ∧ (st.mem s).remote4 = t.src.addr4)) :
    get_by_ipv4 st t = none := by
  cases hf : get_by_ipv4 st t with
  | none => rfl
  | some q =>
    have hm := rbtree_find_mem hf
    exact absurd ((session_compare_full4_eq_zero _ _).mp hm.2) (h q hm.1)

theorem session_get_effect (st : session_state) (s : Nat) :
    (session_get st s).table = st.table ∧
    (session_get st s).mem s = { st.mem s with refcounter := (st.mem s).refcounter + 1 } ∧
    ∀ q, q ≠ s → (session_get st s).mem q = st.mem q := by
  refine ⟨rfl, by simp [session_get, store], ?_⟩
  intro q hq
  simp [session_get, store, Function.update_noteq hq]

/-- Claim C12: `sessiontable_get` searches `tree6` by (local6, remote6) =
(`t.dst.addr6`, `t.src.addr6`) when the tuple is IPv6 and `tree4` by
(local4, remote4) = (`t.dst.addr4`, `t.src.addr4`), ports included, when it
is IPv4; it succeeds exactly when such a session is indexed, returns that
session with its reference count one higher and nothing else changed, and
returns `-ESRCH` on a miss; any other `l3_proto` returns `-EINVAL` and
writes no result; the table (trees, expiry lists, `count`) is the one the
call started from. -/
theorem sessiontable_get_dispatch (st : session_state) (t : tuple)
    (h6 : rb_ordered (key6_lt st.mem) st.table.tree6)
    (h4 : rb_ordered (key4_lt st.mem) st.table.tree4) :
    (t.l3_proto = L3PROTO_IPV6 →
      (∀ s ∈ st.table.tree6.toList,
        (st.mem s).local6 = t.dst.addr6 ∧ (st.mem s).remote6 = t.src.addr6 →
        ∃ st', sessiontable_get st t = (0, some s, st') ∧ st'.table = st.table ∧
          st'.mem s = { st.mem s with refcounter := (st.mem s).refcounter + 1 } ∧
          ∀ q, q ≠ s → st'.mem q = st.mem q) ∧
      ((∀ s ∈ st.table.tree6.toList,
          ¬((st.mem s).local6 = t.dst.addr6 ∧ (st.mem s).remote6 = t.src.addr6)) →
        sessiontable_get st t = (-ESRCH, none, st)) ∧
      ((sessiontable_get st t).1 = 0 ↔
        ∃ s ∈ st.table.tree6.toList,
          (st.mem s).local6 = t.dst.addr6 ∧ (st.mem s).remote6 = t.src.addr6)) ∧
    (t.l3_proto = L3PROTO_IPV4 →
      (∀ s ∈ st.table.tree4.toList,
        (st.mem s).local4 = t.dst.addr4 ∧ (st.mem s).remote4 = t.src.addr4 →
        ∃ st', sessiontable_get st t = (0, some s, st') ∧ st'.table = st.table ∧
          st'.mem s = { st.mem s with refcounter := (st.mem s).refcounter + 1 } ∧
          ∀ q, q ≠ s → st'.mem q = st.mem q) ∧
      ((∀ s ∈ st.table.tree4.toList,
          ¬((st.mem s).local4 = t.dst.addr4 ∧ (st.mem s).remote4 = t.src.addr4)) →
        sessiontable_get st t = (-ESRCH, none, st)) ∧
      ((sessiontable_get st t).1 = 0 ↔
        ∃ s ∈ st.table.tree4.toList,
          (st.mem s).local4 = t.dst.addr4 ∧ (st.mem s).remote4 = t.src.addr4)) ∧
    (t.l3_proto ≠ L3PROTO_IPV6 → t.l3_proto ≠ L3PROTO_IPV4 →
      sessiontable_get st t = (-EINVAL, none, st)) := by
  have hE : -ESRCH ≠ 0 := by decide
  have h01 : L3PROTO_IPV4 ≠ L3PROTO_IPV6 := by decide
  refine ⟨?_, ?_, ?_⟩
  · intro hp
    have hmiss : (∀ s ∈ st.table.tree6.toList,
          ¬((st.mem s).local6 = t.dst.addr6 ∧ (st.mem s).remote6 = t.src.addr6)) →
        sessiontable_get st t = (-ESRCH, none, st) := by
      intro h
      simp only [sessiontable_get, if_pos hp, get_by_ipv6_miss h]
    have hhit : ∀ s ∈ st.table.tree6.toList,
        (st.mem s).local6 = t.dst.addr6 ∧ (st.mem s).remote6 = t.src.addr6 →
        sessiontable_get st t = (0, some s, session_get st s) := by
      intro s hs hk
      simp only [sessiontable_get, if_pos hp, get_by_ipv6_hit h6 hs hk]
    refine ⟨?_, hmiss, ?_, ?_⟩
    · intro s hs hk
      exact ⟨session_get st s, hhit s hs hk, session_get_effect st s⟩
    · intro h
      by_contra hne
      have := hmiss (fun s hs hk => hne ⟨s, hs, hk⟩)
      rw [this] at h
      exact hE h
    · rintro ⟨s, hs, hk⟩
      rw [hhit s hs hk]
  · intro hp
    have hp6 : t.l3_proto ≠ L3PROTO_IPV6 := hp ▸ h01
    have hmiss : (∀ s ∈ st.table.tree4.toList,
          ¬((st.mem s).local4 = t.dst.addr4 ∧ (st.mem s).remote4 = t.src.addr4)) →
        sessiontable_get st t = (-ESRCH, none, st) := by
      intro h
      simp only [sessiontable_get, if_neg hp6, if_pos hp, get_by_ipv4_miss h]
    have hhit : ∀ s ∈ st.table.tree4.toList,
        (st.mem s).local4 = t.dst.addr4 ∧ (st.mem s).remote4 = t.src.addr4 →
        sessiontable_get st t = (0, some s, session_get st s) := by
      intro s hs hk
      simp only [sessiontable_get, if_neg hp6, if_pos hp, get_by_ipv4_hit h4 hs hk]
    refine ⟨?_, hmiss, ?_, ?_⟩
    · intro s hs hk
      exact ⟨session_get st s, hhit s hs hk, session_get_effect st s⟩
    · intro h
      by_contra hne
      have := hmiss (fun s hs hk => hne ⟨s, hs, hk⟩)
      rw [this] at h
      exact hE h
    · rintro ⟨s, hs, hk⟩
      rw [hhit s hs hk]
  · intro hp6 hp4
    simp only [sessiontable_get, if_neg hp6, if_neg hp4]

/-- Seed scenario 6 as an instance of C12: the indexed session is found by
its IPv4 pair and by its IPv6 pair, and a tuple of another layer-3 protocol
is refused. -/
theorem sessiontable_get_dispatch_witness :
    (rb_ordered (key6_lt seed_one.mem) seed_one.table.tree6 ∧
     rb_ordered (key4_lt seed_one.mem) seed_one.table.tree4) ∧
    ((sessiontable_get seed_one (tuple4 ⟨0xC0000205, 40000⟩ ⟨0xC6336407, 33333⟩)).1 = 0 ↔
      ∃ s ∈ seed_one.table.tree4.toList,
        (seed_one.mem s).local4 = ⟨0xC0000205, 40000⟩ ∧
        (seed_one.mem s).remote4 = ⟨0xC6336407, 33333⟩) ∧
    (sessiontable_get seed_one (tuple4 ⟨0xC0000205, 40000⟩ ⟨0xC6336407, 33333⟩)).2.1 = some 1 ∧
    ((sessiontable_get seed_one
      (tuple4 ⟨0xC0000205, 40000⟩ ⟨0xC6336407, 33333⟩)).2.2.mem 1).refcounter =
      (seed_one.mem 1).refcounter + 1 ∧
    (sessiontable_get seed_one (tuple4 ⟨0xC0000205, 40000⟩ ⟨0xC6336407, 33334⟩)).1 = -ESRCH ∧
    (sessiontable_get seed_one
      (tuple6 ⟨0x0064ff9b0000000000000000c6336407, 33333⟩
        ⟨0x20010db8000000000000000000000001, 10000⟩)).2.1 = some 1 ∧
    (sessiontable_get seed_one
      { tuple4 ⟨0xC0000205, 40000⟩ ⟨0xC6336407, 33333⟩ with l3_proto := 2 }).1 = -EINVAL := by
  have h := sessiontable_get_dispatch seed_one
    (tuple4 ⟨0xC0000205, 40000⟩ ⟨0xC6336407, 33333⟩) (by decide) (by decide)
  exact ⟨⟨by decide, by decide⟩, (h.2.1 rfl).2.2, by decide, by decide, by decide, by decide,
    by decide⟩

/-- Claim C20 fails on seed scenario 5 (sessions 1, 2, 3 with local4
192.0.2.5#40000 and remote ports 33333, 33334, 33335, session 2 at the
root).  With the offsets (192.0.2.5#40000, 198.51.100.7#33332), a key that
is not indexed and lies below all three sessions, the callback is handed
sessions 2 and 3 and never session 1; with (192.0.2.5#40000,
198.51.100.7#33336), a key above all three, it is handed session 3, whose
key is below the offset.  From an indexed key the walk does start at the
successor, and without an offset at the first session. -/
theorem sessiontable_foreach_start_inverted :
    seed_three.table.tree4.toList = [1, 2, 3] ∧
    rb_ordered (key4_lt seed_three.mem) seed_three.table.tree4 ∧
    0 < compare_full4 (seed_three.mem 1)
      (offset_tuple ⟨0xC6336407, 33332⟩ ⟨0xC0000205, 40000⟩) ∧
    (sessiontable_foreach seed_three note_session []
        (some ⟨0xC6336407, 33332⟩) (some ⟨0xC0000205, 40000⟩)).toOption.map
      (fun r => (r.1, r.2.1)) = some (0, [2, 3]) ∧
    compare_full4 (seed_three.mem 3)
      (offset_tuple ⟨0xC6336407, 33336⟩ ⟨0xC0000205, 40000⟩) < 0 ∧
    (sessiontable_foreach seed_three note_session []
        (some ⟨0xC6336407, 33336⟩) (some ⟨0xC0000205, 40000⟩)).toOption.map
      (fun r => (r.1, r.2.1)) = some (0, [3]) ∧
    (sessiontable_foreach seed_three note_session []
        (some ⟨0xC6336407, 33333⟩) (some ⟨0xC0000205, 40000⟩)).toOption.map
      (fun r => (r.1, r.2.1)) = some (0, [2, 3]) ∧
    (sessiontable_foreach seed_three note_session []
        none (some ⟨0xC0000205, 40000⟩)).toOption.map
      (fun r => (r.1, r.2.1)) = some (0, [1, 2, 3]) := by
  decide

end Session

end Jool

namespace Jool

namespace Session

/-! ## Timers -/

theorem time_before_irrefl (x : Nat) : time_before x x = false := by
  unfold time_before
  rw [decide_eq_false_iff_not]
  have h : x % WORD < WORD := Nat.mod_lt _ (by decide)
  rw [show x % WORD + WORD - x % WORD = WORD by omega, Nat.mod_self]
  decide

/-- With both delays below half the range of the clock, the earlier of two
instants counted from the same reading is the one with the smaller delay. -/
theorem time_before_offsets (j t m : Nat) (ht : t < 2 ^ 63) (hm : m < 2 ^ 63) :
    time_before ((j + t) % WORD) ((j + m) % WORD) = decide (t < m) := by
  unfold time_before WORD
  simp only [Nat.mod_mod]
  by_cases h : t < m
  · rw [decide_eq_true h, decide_eq_true_iff]
    omega
  · rw [decide_eq_false h, decide_eq_false_iff_not]
    omega

theorem schedule_timer_timer (k : kernel) (st : session_state) (e : expirer_id) (x : Nat) :
    timer_of (schedule_timer k st e x).table e =
      { timer_of st.table e with
        pending := true,
        expires := if time_before x ((k.jiffies + k.MIN_TIMER_SLEEP) % WORD)
          then (k.jiffies + k.MIN_TIMER_SLEEP) % WORD else x } ∧
    timer_of (schedule_timer k st e x).table (other e) = timer_of st.table (other e) := by
  simp only [schedule_timer]
  split <;> cases e <;> exact ⟨rfl, rfl⟩

theorem schedule_timer_frame (k : kernel) (st : session_state) (e : expirer_id) (x : Nat) :
    (schedule_timer k st e x).mem = st.mem ∧
    (schedule_timer k st e x).table.tree6 = st.table.tree6 ∧
    (schedule_timer k st e x).table.tree4 = st.table.tree4 ∧
    (schedule_timer k st e x).table.count = st.table.count ∧
    ∀ e', (timer_of (schedule_timer k st e x).table e').sessions =
      (timer_of st.table e').sessions := by
  simp only [schedule_timer]
  split <;> exact mod_timer_frame _ _ _

/-- Claim C22: `commit_timer` with an expirer arms its timer at the later of
`jiffies + get_timeout()` and `jiffies + MIN_TIMER_SLEEP` in the order of
`time_before`, sums taken in `unsigned long`; the armed expiry is not
before `jiffies + MIN_TIMER_SLEEP`, and with both delays below 2^63 it is
`jiffies` plus the larger delay; the lists, the other timer, the trees,
`count` and the sessions are untouched; `commit_timer(NULL)` changes
nothing; `set_timer` returns its expirer when the timer of that expirer is
not pending and NULL when it is. -/
theorem commit_timer_floor (k : kernel) (st : session_state) (e : expirer_id) (s : Nat) :
    (timer_of (commit_timer k st (some e)).table e).pending = true ∧
    (timer_of (commit_timer k st (some e)).table e).expires =
      (if time_before ((k.jiffies + get_timeout k e) % WORD)
          ((k.jiffies + k.MIN_TIMER_SLEEP) % WORD)
        then (k.jiffies + k.MIN_TIMER_SLEEP) % WORD
        else (k.jiffies + get_timeout k e) % WORD) ∧
    time_before (timer_of (commit_timer k st (some e)).table e).expires
      ((k.jiffies + k.MIN_TIMER_SLEEP) % WORD) = false ∧
    (get_timeout k e < 2 ^ 63 → k.MIN_TIMER_SLEEP < 2 ^ 63 →
      (timer_of (commit_timer k st (some e)).table e).expires =
        (k.jiffies + max (get_timeout k e) k.MIN_TIMER_SLEEP) % WORD) ∧
    (∀ e', (timer_of (commit_timer k st (some e)).table e').sessions =
      (timer_of st.table e').sessions) ∧
    timer_of (commit_timer k st (some e)).table (other e) = timer_of st.table (other e) ∧
    (commit_timer k st (some e)).mem = st.mem ∧
    (commit_timer k st (some e)).table.tree6 = st.table.tree6 ∧
    (commit_timer k st (some e)).table.tree4 = st.table.tree4 ∧
    (commit_timer k st (some e)).table.count = st.table.count ∧
    commit_timer k st none = st ∧
    ((set_timer k st s e).1 = some e ↔ (timer_of st.table e).pending = false) ∧
    ((set_timer k st s e).1 = none ↔ (timer_of st.table e).pending = true) := by
  have ht := schedule_timer_timer k st e ((k.jiffies + get_timeout k e) % WORD)
  have hf := commit_timer_frame k st (some e)
  have hexp : (timer_of (commit_timer k st (some e)).table e).expires =
      (if time_before ((k.jiffies + get_timeout k e) % WORD)
          ((k.jiffies + k.MIN_TIMER_SLEEP) % WORD)
        then (k.jiffies + k.MIN_TIMER_SLEEP) % WORD
        else (k.jiffies + get_timeout k e) % WORD) := by
    show (timer_of (schedule_timer k st e _).table e).expires = _
    rw [ht.1]
  refine ⟨?_, hexp, ?_, ?_, hf.2.2.2.2, ht.2, hf.1, hf.2.1, hf.2.2.1, hf.2.2.2.1, rfl, ?_, ?_⟩
  · show (timer_of (schedule_timer k st e _).table e).pending = true
    rw [ht.1]
  · rw [hexp]
    cases hb : time_before ((k.jiffies + get_timeout k e) % WORD)
        ((k.jiffies + k.MIN_TIMER_SLEEP) % WORD) with
    | true => simp only [if_true]; exact time_before_irrefl _
    | false => simp only [Bool.false_eq_true, if_false]; exact hb
  · intro h1 h2
    rw [hexp, time_before_offsets _ _ _ h1 h2]
    by_cases h : get_timeout k e < k.MIN_TIMER_SLEEP
    · rw [decide_eq_true h, if_pos rfl, max_eq_right (le_of_lt h)]
    · rw [decide_eq_false h, if_neg (by simp), max_eq_left (by omega)]
  · simp only [set_timer]
    cases (timer_of st.table e).pending <;> simp
  · simp only [set_timer]
    cases (timer_of st.table e).pending <;> simp

/-- Instances of C22: with `get_timeout()` = 5 and MIN_TIMER_SLEEP = 1 the
timer is armed 5 ticks ahead; with MIN_TIMER_SLEEP = 10 it is armed 10
ticks ahead; three ticks before the clock wraps it is armed at 2. -/
theorem commit_timer_floor_witness :
    (timer_of (commit_timer (at_time 7) seed_created (some expirer_id.est_timer)).table
      expirer_id.est_timer).expires = (7 + max 5 1) % WORD ∧
    (timer_of (commit_timer (at_time 7) seed_created (some expirer_id.est_timer)).table
      expirer_id.est_timer).pending = true ∧
    (timer_of (commit_timer (at_time 7) seed_created (some expirer_id.est_timer)).table
      expirer_id.est_timer).expires = 12 ∧
    (timer_of (commit_timer
      { jiffies := 7, est_timeout := 5, trans_timeout := 5, MIN_TIMER_SLEEP := 10 }
      seed_created (some expirer_id.est_timer)).table expirer_id.est_timer).expires = 17 ∧
    (timer_of (commit_timer
      { jiffies := 2 ^ 64 - 3, est_timeout := 5, trans_timeout := 5, MIN_TIMER_SLEEP := 1 }
      seed_created (some expirer_id.est_timer)).table expirer_id.est_timer).expires = 2 ∧
    (set_timer (at_time 7) seed_created 1 expirer_id.est_timer).1 =
      some expirer_id.est_timer ∧
    (set_timer (at_time 7) seed_one 1 expirer_id.est_timer).1 = none := by
  have h := commit_timer_floor (at_time 7) seed_created expirer_id.est_timer 1
  exact ⟨h.2.2.2.1 (by decide) (by decide), h.1, by decide, by decide, by decide,
    h.2.2.2.2.2.2.2.2.2.2.2.1.mpr (by decide), by decide⟩

theorem reschedule_cons {k : kernel} {st : session_state} {e : expirer_id} {a : Nat}
    {rest : List Nat} (hl : (timer_of st.table e).sessions = a :: rest) :
    reschedule k st e =
      schedule_timer k st e (((st.mem a).update_time + get_timeout k e) % WORD) := by
  simp only [reschedule, hl]

theorem reschedule_frame (k : kernel) (st : session_state) (e : expirer_id) :
    (reschedule k st e).mem = st.mem ∧
    (reschedule k st e).table.tree6 = st.table.tree6 ∧
    (reschedule k st e).table.tree4 = st.table.tree4 ∧
    (reschedule k st e).table.count = st.table.count ∧
    (∀ e', (timer_of (reschedule k st e).table e').sessions =
      (timer_of st.table e').sessions) ∧
    timer_of (reschedule k st e).table (other e) = timer_of st.table (other e) := by
  cases hl : (timer_of st.table e).sessions with
  | nil =>
    have : reschedule k st e = st := by simp only [reschedule, hl]
    rw [this]
    exact ⟨rfl, rfl, rfl, rfl, fun _ => rfl, rfl⟩
  | cons a rest =>
    rw [reschedule_cons hl]
    have hf := schedule_timer_frame k st e
      (((st.mem a).update_time + get_timeout k e) % WORD)
    exact ⟨hf.1, hf.2.1, hf.2.2.1, hf.2.2.2.1, hf.2.2.2.2,
      (schedule_timer_timer k st e _).2⟩

theorem reschedule_timer (k : kernel) (st : session_state) (e : expirer_id) :
    ((timer_of st.table e).sessions = [] → reschedule k st e = st) ∧
    (∀ h, (timer_of st.table e).sessions.head? = some h →
      timer_of (reschedule k st e).table e =
        { timer_of st.table e with
          pending := true,
          expires :=
            if time_before (((st.mem h).update_time + get_timeout k e) % WORD)
                ((k.jiffies + k.MIN_TIMER_SLEEP) % WORD)
            then (k.jiffies + k.MIN_TIMER_SLEEP) % WORD
            else ((st.mem h).update_time + get_timeout k e) % WORD }) := by
  constructor
  · intro h0
    simp only [reschedule, h0]
  · intro h hh
    cases hl : (timer_of st.table e).sessions with
    | nil => rw [hl] at hh; exact absurd hh (by simp)
    | cons a rest =>
      have ha : a = h := by
        rw [hl] at hh
        simpa using hh
      subst ha
      rw [reschedule_cons hl]
      exact (schedule_timer_timer k st e _).1

/-- Claim C21, amended: `sessiontable_update_timers` leaves the sessions,
the trees, `count` and both lists as they are; the timer of an expirer whose
list is empty is left as it is; the timer of an expirer whose list is not
empty is armed at `head.update_time + get_timeout()` (taken in `unsigned
long`), `head` being the first session of the list, unless that instant is
before `jiffies + MIN_TIMER_SLEEP` in the order of `time_before`, in which
case it is armed at `jiffies + MIN_TIMER_SLEEP`. -/
theorem sessiontable_update_timers_armed (k : kernel) (st : session_state) (e : expirer_id) :
    (sessiontable_update_timers k st).mem = st.mem ∧
    (sessiontable_update_timers k st).table.tree6 = st.table.tree6 ∧
    (sessiontable_update_timers k st).table.tree4 = st.table.tree4 ∧
    (sessiontable_update_timers k st).table.count = st.table.count ∧
    (timer_of (sessiontable_update_timers k st).table e).sessions =
      (timer_of st.table e).sessions ∧
    ((timer_of st.table e).sessions = [] →
      timer_of (sessiontable_update_timers k st).table e = timer_of st.table e) ∧
    (∀ h, (timer_of st.table e).sessions.head? = some h →
      (timer_of (sessiontable_update_timers k st).table e).pending = true ∧
      (timer_of (sessiontable_update_timers k st).table e).expires =
        (if time_before (((st.mem h).update_time + get_timeout k e) % WORD)
            ((k.jiffies + k.MIN_TIMER_SLEEP) % WORD)
          then (k.jiffies + k.MIN_TIMER_SLEEP) % WORD
          else ((st.mem h).update_time + get_timeout k e) % WORD) ∧
      (time_before (((st.mem h).update_time + get_timeout k e) % WORD)
          ((k.jiffies + k.MIN_TIMER_SLEEP) % WORD) = false →
        (timer_of (sessiontable_update_timers k st).table e).expires =
          ((st.mem h).update_time + get_timeout k e) % WORD)) := by
  have f1 := reschedule_frame k st expirer_id.est_timer
  have f2 := reschedule_frame k (reschedule k st expirer_id.est_timer) expirer_id.trans_timer
  have hT : timer_of (sessiontable_update_timers k st).table e =
      timer_of (reschedule k st e).table e := by
    cases e with
    | est_timer => exact f2.2.2.2.2.2
    | trans_timer =>
      have h0 := reschedule_timer k (reschedule k st expirer_id.est_timer)
        expirer_id.trans_timer
      have h1 := reschedule_timer k st expirer_id.trans_timer
      have hs := f1.2.2.2.2.1 expirer_id.trans_timer
      have ho : timer_of (reschedule k st expirer_id.est_timer).table expirer_id.trans_timer =
          timer_of st.table expirer_id.trans_timer := f1.2.2.2.2.2
      cases hl : (timer_of st.table expirer_id.trans_timer).sessions with
      | nil =>
        show timer_of (reschedule k (reschedule k st expirer_id.est_timer)
          expirer_id.trans_timer).table _ = _
        rw [h0.1 (hs.trans hl), h1.1 hl, ho]
      | cons a rest =>
        show timer_of (reschedule k (reschedule k st expirer_id.est_timer)
          expirer_id.trans_timer).table _ = _
        rw [h0.2 a (by rw [hs, hl]; rfl), h1.2 a (by rw [hl]; rfl), ho, f1.1]
  have hr := reschedule_timer k st e
  refine ⟨f2.1.trans f1.1, f2.2.1.trans f1.2.1, f2.2.2.1.trans f1.2.2.1,
    f2.2.2.2.1.trans f1.2.2.2.1, (f2.2.2.2.2.1 e).trans (f1.2.2.2.2.1 e), ?_, ?_⟩
  · intro h0
    rw [hT, hr.1 h0]
  · intro h hh
    rw [hT, hr.2 h hh]
    refine ⟨rfl, rfl, ?_⟩
    intro hb
    simp only [hb, Bool.false_eq_true, if_false]

/-- Seed scenario 3 as an instance of the amended C21: at t = 2 the head A
of the established list, stamped 0 with timeout 5, is due at 5, and the
timer is armed at 5; the transitory list is empty and its timer is left
disarmed. -/
theorem sessiontable_update_timers_armed_witness :
    seed_abc.table.est_timer.sessions.head? = some 1 ∧
    (seed_abc.mem 1).update_time = 0 ∧
    ((timer_of (sessiontable_update_timers (at_time 2) seed_abc).table
        expirer_id.est_timer).pending = true ∧
      (timer_of (sessiontable_update_timers (at_time 2) seed_abc).table
        expirer_id.est_timer).expires =
        (if time_before (((seed_abc.mem 1).update_time +
              get_timeout (at_time 2) expirer_id.est_timer) % WORD)
            (((at_time 2).jiffies + (at_time 2).MIN_TIMER_SLEEP) % WORD)
          then ((at_time 2).jiffies + (at_time 2).MIN_TIMER_SLEEP) % WORD
          else ((seed_abc.mem 1).update_time +
            get_timeout (at_time 2) expirer_id.est_timer) % WORD) ∧
      (time_before (((seed_abc.mem 1).update_time +
            get_timeout (at_time 2) expirer_id.est_timer) % WORD)
          (((at_time 2).jiffies + (at_time 2).MIN_TIMER_SLEEP) % WORD) = false →
        (timer_of (sessiontable_update_timers (at_time 2) seed_abc).table
          expirer_id.est_timer).expires =
          ((seed_abc.mem 1).update_time +
            get_timeout (at_time 2) expirer_id.est_timer) % WORD)) ∧
    (timer_of (sessiontable_update_timers (at_time 2) seed_abc).table
      expirer_id.est_timer).expires = 5 ∧
    (timer_of (sessiontable_update_timers (at_time 2) seed_abc).table
      expirer_id.trans_timer).pending = false :=
  ⟨by decide, by decide,
    (sessiontable_update_timers_armed (at_time 2) seed_abc expirer_id.est_timer).2.2.2.2.2.2 1
      (by decide),
    by decide, by decide⟩

/-- Claim C21 as stated fails: in seed scenario 6 the head of the
established list is stamped 0 and the timeout is 5; at t = 100
`sessiontable_update_timers` arms the timer at 101, which is
`jiffies + MIN_TIMER_SLEEP`, and not at 0 + 5. -/
theorem sessiontable_update_timers_counterexample :
    seed_one.table.est_timer.sessions = [1] ∧
    (seed_one.mem 1).update_time = 0 ∧
    get_timeout (at_time 100) expirer_id.est_timer = 5 ∧
    (at_time 100).jiffies = 100 ∧ (at_time 100).MIN_TIMER_SLEEP = 1 ∧
    (timer_of (sessiontable_update_timers (at_time 100) seed_one).table
      expirer_id.est_timer).pending = true ∧
    (timer_of (sessiontable_update_timers (at_time 100) seed_one).table
      expirer_id.est_timer).expires = 101 ∧
    (timer_of (sessiontable_update_timers (at_time 100) seed_one).table
      expirer_id.est_timer).expires ≠
      (seed_one.mem 1).update_time + get_timeout (at_time 100) expirer_id.est_timer := by
  decide

/-! ## Bulk removal -/

theorem session_foreach_loop_pres {α : Type}
    (func : Nat → α → session_state → Int × α × session_state)
    (P : α → session_state → Prop)
    (hstep : ∀ n a s, P a s → P (func n a s).2.1 (func n a s).2.2) :
    ∀ (fuel : Nat) (node : Option Nat) (err : Int) (a : α) (s : session_state)
      (r : Int × α × session_state),
      P a s → foreach_loop func fuel node err a s = Except.ok r → P r.2.1 r.2.2 := by
  intro fuel
  induction fuel with
  | zero =>
    intro node err a s r hP h
    cases node with
    | none =>
      simp only [foreach_loop, Except.ok.injEq] at h
      rw [← h]; exact hP
    | some n =>
      simp only [foreach_loop] at h
      split_ifs at h
      simp only [Except.ok.injEq] at h
      rw [← h]; exact hP
  | succ f ih =>
    intro node err a s r hP h
    cases node with
    | none =>
      simp only [foreach_loop, Except.ok.injEq] at h
      rw [← h]; exact hP
    | some n =>
      simp only [foreach_loop] at h
      split_ifs at h
      · simp only [Except.ok.injEq] at h
        rw [← h]; exact hP
      · exact ih _ _ _ _ r (hstep n a s hP) h

theorem remove_keeps (st : session_state) (s p : Nat) :
    ((remove st s).2.mem p).refcounter = (st.mem p).refcounter ∧
    ((remove st s).2.mem p).freed = (st.mem p).freed ∧
    (remove st s).2.table.count = st.table.count := by
  simp only [remove, store, list_del]
  by_cases h : p = s
  · subst h; simp
  · simp [Function.update_noteq h]

/-- The walk of `sessiontable_flush` never writes `removed.next`, so the
`delete` that follows finds its list empty: whatever the table, the flush
returns no reference and leaves `count` as it is. -/
theorem sessiontable_flush_returns_nothing (st : session_state)
    (r : Int × session_state) (h : sessiontable_flush st = Except.ok r) :
    (∀ p, (r.2.mem p).refcounter = (st.mem p).refcounter ∧
      (r.2.mem p).freed = (st.mem p).freed) ∧
    r.2.table.count = st.table.count := by
  simp only [sessiontable_flush] at h
  cases hw : sessiontable_foreach st __flush
      { removed_next := removed_link.head, removed_prev := removed_link.head,
        hook_next := fun _ => removed_link.head } none none with
  | error f => rw [hw] at h; exact Except.noConfusion h
  | ok w =>
    rw [hw] at h
    simp only [Except.ok.injEq] at h
    have hP := session_foreach_loop_pres __flush
      (fun a s => a.removed_next = removed_link.head ∧
        (∀ p, (s.mem p).refcounter = (st.mem p).refcounter ∧
          (s.mem p).freed = (st.mem p).freed) ∧
        s.table.count = st.table.count)
      (fun n a s hP => ⟨hP.1,
        fun p => ⟨((remove_keeps s n p).1).trans (hP.2.1 p).1,
          ((remove_keeps s n p).2.1).trans (hP.2.1 p).2⟩,
        ((remove_keeps s n 0).2.2).trans hP.2.2⟩)
      st.table.tree4.toList.length (rb_first st.table.tree4) 0 _ st w
      ⟨rfl, fun _ => ⟨rfl, rfl⟩, rfl⟩
      (by simpa [sessiontable_foreach, find_next_chunk] using hw)
    rw [← h]
    have hempty : removed_sessions w.2.1 st.table.tree4.toList.length w.2.1.removed_next = [] := by
      rw [hP.1]
      cases st.table.tree4.toList.length <;> rfl
    simp only [hempty, delete]
    exact ⟨hP.2.1, hP.2.2⟩

/-- Claim C23 fails on seed scenario 3 (sessions 1, 2, 3 indexed, each held
by its creator and by the table): `sessiontable_flush` returns 0, empties
both trees and both expirer lists and clears the `expirer` of the three
sessions, but no reference is dropped: every count is still 2 and no
session is freed, because `__flush` links the sessions behind the word
`removed.prev` and `delete` finds `removed.next` pointing at the head.
`sessiontable_delete_by_bib`, whose callback reads its own argument type,
does drop the reference of the sessions it removes. -/
theorem sessiontable_flush_drops_no_reference :
    seed_abc.table.tree4.toList = [1, 2, 3] ∧
    [1, 2, 3].map (fun p => (seed_abc.mem p).refcounter) = [2, 2, 2] ∧
    (sessiontable_flush seed_abc).toOption.map
      (fun r => (r.1, r.2.table.tree6.toList, r.2.table.tree4.toList,
        r.2.table.est_timer.sessions, r.2.table.trans_timer.sessions)) =
      some (0, [], [], [], []) ∧
    (sessiontable_flush seed_abc).toOption.map
      (fun r => [1, 2, 3].map (fun p => (r.2.mem p).expirer)) =
      some [none, none, none] ∧
    (sessiontable_flush seed_abc).toOption.map
      (fun r => [1, 2, 3].map (fun p => ((r.2.mem p).refcounter, (r.2.mem p).freed))) =
      some [(2, false), (2, false), (2, false)] ∧
    (sessiontable_foreach seed_abc __flush
        { removed_next := removed_link.head, removed_prev := removed_link.head,
          hook_next := fun _ => removed_link.head } none none).toOption.map
      (fun r => (r.2.1.removed_next, r.2.1.removed_prev,
        [1, 2, 3].map r.2.1.hook_next)) =
      some (removed_link.head, removed_link.hook 3,
        [removed_link.head, removed_link.hook 1, removed_link.hook 2]) ∧
    [2, 3].map (fun p => (seed_three.mem p).refcounter) = [2, 2] ∧
    (sessiontable_delete_by_bib seed_three ⟨0xC0000205, 40000⟩).toOption.map
      (fun r => (r.2.table.tree4.toList, [2, 3].map (fun p => (r.2.mem p).refcounter))) =
      some ([1], [1, 1]) := by
  decide

/-- Claim C24 fails on seed scenario 3: three calls of `sessiontable_add`
leave `count` at 3 with three sessions indexed; after `sessiontable_flush`
no session is indexed and `sessiontable_count` still reports 3; after
`sessiontable_delete_by_bib` or `sessiontable_delete_by_prefix4` on the
table of seed scenario 5 one session is indexed and the count is still 3.
Neither `remove` nor any of its callers decrements `count`. -/
theorem session_count_not_decremented :
    sessiontable_count seed_abc = 3 ∧ seed_abc.table.tree4.toList.length = 3 ∧
    (sessiontable_flush seed_abc).toOption.map
      (fun r => (r.1, r.2.table.tree6.toList, r.2.table.tree4.toList,
        sessiontable_count r.2)) = some (0, [], [], 3) ∧
    (remove seed_abc 1).2.table.tree4.toList = [2, 3] ∧
    sessiontable_count (remove seed_abc 1).2 = 3 ∧
    sessiontable_count seed_three = 3 ∧
    (sessiontable_delete_by_bib seed_three ⟨0xC0000205, 40000⟩).toOption.map
      (fun r => (r.1, r.2.table.tree6.toList, r.2.table.tree4.toList,
        sessiontable_count r.2)) = some (0, [1], [1], 3) ∧
    (sessiontable_delete_by_prefix4 seed_three ⟨0xC0000205, 32⟩).toOption.map
      (fun r => (r.1, r.2.table.tree6.toList, r.2.table.tree4.toList,
        sessiontable_count r.2)) = some (0, [1], [1], 3) := by
  decide

/-- With both offsets given, `find_next_chunk` reads the entry of `parent`
whenever the key is not found: on a table that indexes nothing, where the
search leaves `parent` NULL, the walk and both range deletions fault. -/
theorem find_next_chunk_empty (st : session_state) (offset_remote offset_local :
    ipv4_transport_addr) (h : st.table.tree4 = rb_node.nil) :
    find_next_chunk st (some offset_remote) (some offset_local) =
      Except.error fault.null_dereference ∧
    (∀ bib_ipv4, sessiontable_delete_by_bib st bib_ipv4 =
      Except.error fault.null_dereference) ∧
    (∀ prefix4, sessiontable_delete_by_prefix4 st prefix4 =
      Except.error fault.null_dereference) := by
  refine ⟨?_, ?_, ?_⟩
  · simp [find_next_chunk, h, rbtree_find_node]
  · intro b
    simp [sessiontable_delete_by_bib, sessiontable_foreach, find_next_chunk, h,
      rbtree_find_node]
  · intro p
    simp [sessiontable_delete_by_prefix4, sessiontable_foreach, find_next_chunk, h,
      rbtree_find_node]

/-- Claim C25 fails on the empty session table: with both offsets given the
search of `find_next_chunk` ends with no node and no parent, and the entry
of the absent parent is read; so `sessiontable_foreach` with two offsets,
`sessiontable_delete_by_bib` and `sessiontable_delete_by_prefix4` fault
instead of returning 0.  With an offset missing the walk of the empty table
calls nothing and returns 0, and on the empty BIB table
`find_starting_point` yields no start node and `bibtable_foreach` returns
0. -/
theorem find_next_chunk_null_parent :
    empty_state.table.tree4.toList = [] ∧
    find_next_chunk empty_state (some ⟨0, 0⟩) (some ⟨0xC0000205, 40000⟩) =
      Except.error fault.null_dereference ∧
    sessiontable_foreach empty_state note_session [] (some ⟨0, 0⟩)
        (some ⟨0xC0000205, 40000⟩) =
      Except.error fault.null_dereference ∧
    sessiontable_delete_by_bib empty_state ⟨0xC0000205, 40000⟩ =
      Except.error fault.null_dereference ∧
    sessiontable_delete_by_prefix4 empty_state ⟨0xC0000200, 24⟩ =
      Except.error fault.null_dereference ∧
    (sessiontable_foreach empty_state note_session [] none
        (some ⟨0xC0000205, 40000⟩)).toOption.map (fun r => (r.1, r.2.1)) = some (0, []) ∧
    Bib.find_starting_point Bib.empty_state (some ⟨0xC0000205, 40000⟩) false = none ∧
    (Bib.bibtable_foreach Bib.empty_state (Bib.note_port false) []
        (some ⟨0xC0000205, 40000⟩)).map (fun r => (r.1, r.2.1)) = some (0, []) :=
  ⟨rfl, rfl, rfl, rfl, rfl, by decide, rfl, by decide⟩

end Session

end Jool
